import Mathlib

/-!
# Qumbed: frame codec, envelope, relay and node

A shallow embedding of the message-transport core of Qumbed
(`internal/proto`, `internal/crypto`, `internal/transport`, `internal/mesh`,
`client`) together with the properties proved about it.

Conventions of the embedding.

* A Go `byte` is a `Fin 256`; a Go `string` is a `String` (valid Unicode
  text), and where a string that is not valid UTF-8 matters, in `proto.bytes`,
  a list of bytes; a Go `int` is an `Int`; a nilable slice or pointer is an
  `Option` (`none` is `nil`).
* A Go `error` result is an `Option GoError` (`none` is `nil`).
* The libraries the code calls but does not contain (`encoding/json`,
  `nacl/box`, the QUIC transport, `crypto/rand`) are parameters of the
  definitions that use them: a theorem holds for every behaviour of the
  library unless it states an assumption about it.
-/

set_option autoImplicit false

namespace Qumbed

/-! ## Bytes and errors -/

/-- A Go `byte`. -/
abbrev Byte := Fin 256

/-- The Go conversion `byte(x)` of an unsigned integer: the low eight bits. -/
def byte (x : Nat) : Byte := ⟨x % 256, Nat.mod_lt _ (by decide)⟩

/-- The Go conversion `uint32(x)` of a non-negative integer: the low 32 bits. -/
def uint32 (x : Nat) : Nat := x % 2 ^ 32

/-- Go `error` values that the code produces or passes on. -/
inductive GoError where
  /-- The sentinel `io.EOF`. -/
  | EOF
  /-- The sentinel `io.ErrUnexpectedEOF`. -/
  | ErrUnexpectedEOF
  /-- The sentinel `io.ErrShortBuffer`. -/
  | ErrShortBuffer
  /-- The sentinel `io.ErrShortWrite`. -/
  | ErrShortWrite
  /-- An error returned by `encoding/json`, with its message. -/
  | json (msg : String)
  /-- The value of `fmt.Errorf(msg)` with no wrapped error. -/
  | errorf (msg : String)
  /-- The value of `fmt.Errorf(pre + "%w", err)`: message `pre ++ err.Error()`, wrapping `err`. -/
  | wrapf (pre : String) (err : GoError)
  /-- The sentinel `client.ErrClosed`, `errors.New("client closed")`. -/
  | ErrClosed
  /-- An error of the transport or of the random source, with its message. -/
  | other (msg : String)
  deriving DecidableEq, Repr

instance instDecidableEqExcept {ε α : Type} [DecidableEq ε] [DecidableEq α] :
    DecidableEq (Except ε α)
  | .ok a, .ok b => if h : a = b then isTrue (by rw [h]) else isFalse (fun h2 => h (Except.ok.inj h2))
  | .error a, .error b =>
    if h : a = b then isTrue (by rw [h]) else isFalse (fun h2 => h (Except.error.inj h2))
  | .ok _, .error _ => isFalse (fun h => Except.noConfusion h)
  | .error _, .ok _ => isFalse (fun h => Except.noConfusion h)

/-- The method `Error()`: the message of an error. -/
def GoError.Error : GoError → String
  | .EOF => "EOF"
  | .ErrUnexpectedEOF => "unexpected EOF"
  | .ErrShortBuffer => "short buffer"
  | .ErrShortWrite => "short write"
  | .json msg => msg
  | .errorf msg => msg
  | .wrapf pre err => pre ++ err.Error
  | .ErrClosed => "client closed"
  | .other msg => msg

/-! ## `io` and `encoding/binary` -/

namespace io

/-- An `io.Reader` over a finite stream: the bytes not yet read.  Reading
past the end reports `io.EOF`. -/
abbrev Reader := List Byte

/-- The function `io.ReadFull(r, buf)` with `len(buf) = n`: the `n` bytes read and
the reader afterwards.  With fewer than `n` bytes left every remaining byte is
consumed and the error is `io.EOF` when nothing was read, `io.ErrUnexpectedEOF`
otherwise.  With `n = 0` nothing is read. -/
def ReadFull (r : Reader) (n : Nat) : Except GoError (List Byte) × Reader :=
  if n ≤ r.length then (.ok (r.take n), r.drop n)
  else if r.length = 0 then (.error .EOF, [])
  else (.error .ErrUnexpectedEOF, [])

/-- An `io.Writer`: the bytes it has accepted, and how many more it accepts
before writes fail (`none`: it never fails). -/
structure Writer where
  out : List Byte
  room : Option Nat
  deriving DecidableEq, Repr

/-- The method `w.Write(p)`: the writer afterwards and the error.  A write that does
not fit is cut short and reports `io.ErrShortWrite`. -/
def Writer.Write (w : Writer) (p : List Byte) : Writer × Option GoError :=
  match w.room with
  | none => ({ w with out := w.out ++ p }, none)
  | some k =>
    if p.length ≤ k then ({ out := w.out ++ p, room := some (k - p.length) }, none)
    else ({ out := w.out ++ p.take k, room := some 0 }, some .ErrShortWrite)

end io

namespace binary.BigEndian

/-- The function `binary.BigEndian.PutUint32(b, v)`: the four bytes written to `b`. -/
def PutUint32 (v : Nat) : List Byte :=
  [byte (v >>> 24), byte (v >>> 16), byte (v >>> 8), byte v]

/-- The function `binary.BigEndian.Uint32(b)`; it reads `b[0..3]`. -/
def Uint32 (b : List Byte) : Nat :=
  match b with
  | b0 :: b1 :: b2 :: b3 :: _ => b3.val ||| b2.val <<< 8 ||| b1.val <<< 16 ||| b0.val <<< 24
  | _ => 0

end binary.BigEndian

/-! ## `internal/proto`: frames -/

namespace proto

def FrameTypePublish : Int := 1
def FrameTypeSubscribe : Int := 2
def FrameTypeUnsubscribe : Int := 3
def FrameTypeMessage : Int := 4
def FrameTypeAck : Int := 5
def FrameTypeError : Int := 6
def FrameTypeDiscovery : Int := 7

/-- PublishFrame is sent when publishing to a topic. -/
structure PublishFrame where
  Topic : String
  Payload : Option (List Byte)
  SchemaID : String
  RecipientKeyID : Option (List Byte)
  SenderPublicKey : Option (List Byte)
  deriving DecidableEq, Repr

/-- SubscribeFrame registers interest in a topic. -/
structure SubscribeFrame where
  Topic : String
  SchemaID : String
  PublicKey : Option (List Byte)
  deriving DecidableEq, Repr

/-- UnsubscribeFrame. -/
structure UnsubscribeFrame where
  Topic : String
  deriving DecidableEq, Repr

/-- MessageFrame: a relayed message. -/
structure MessageFrame where
  Topic : String
  EncryptedPayload : Option (List Byte)
  SenderKeyID : Option (List Byte)
  SenderPublicKey : Option (List Byte)
  deriving DecidableEq, Repr

/-- AckFrame. -/
structure AckFrame where
  MessageID : String
  OK : Bool
  deriving DecidableEq, Repr

/-- ErrorFrame. -/
structure ErrorFrame where
  Code : String
  Message : String
  deriving DecidableEq, Repr

/-- DiscoveryFrame: P2P discovery. -/
structure DiscoveryFrame where
  NodeID : String
  Topics : Option (List String)
  PublicKey : Option (List Byte)
  Addr : String
  deriving DecidableEq, Repr

/-- Frame is the top-level wire message.  The field `Typ` is Go's `Type`
(JSON key `t`); the seven variant fields are pointers with `omitempty`. -/
structure Frame where
  Typ : Int
  Publish : Option PublishFrame
  Subscribe : Option SubscribeFrame
  Unsubscribe : Option UnsubscribeFrame
  Message : Option MessageFrame
  Ack : Option AckFrame
  Error : Option ErrorFrame
  Discovery : Option DiscoveryFrame
  deriving DecidableEq, Repr

/-- The zero value of `Frame` (`var f proto.Frame`). -/
def Frame.zero : Frame :=
  { Typ := 0, Publish := none, Subscribe := none, Unsubscribe := none,
    Message := none, Ack := none, Error := none, Discovery := none }

/-- Temperature sensor reading.  The `float64` field is carried as the
decimal literal it was read from (mantissa, power of ten). -/
structure Temperature where
  Celsius : Int × Int
  TimestampMs : Int
  SensorID : String
  deriving DecidableEq, Repr

/-- Humidity sensor reading. -/
structure Humidity where
  Percent : Int × Int
  TimestampMs : Int
  SensorID : String
  deriving DecidableEq, Repr

/-- Command for actuators; `Params` is a `map[string]string` (`none` is the nil map). -/
structure Command where
  Action : String
  Params : Option (List (String × String))
  deriving DecidableEq, Repr

end proto

/-! ## `encoding/json` as a parameter -/

/-- The calls into `encoding/json` made by the code.  An error of the library
is given by its message and reaches the code as `GoError.json`: the library
returns errors of its own types, never one of the `io` sentinels.
`UnmarshalFrame data f` is `json.Unmarshal(data, f)` for `f *Frame`: it takes
the value `f` points to before the call and gives the value afterwards (on an
error the destination is dead in every caller and is not modelled).  The
three payload decoders start from the zero value of their struct, as
`ValidatePayload` does. -/
structure JSONLib where
  MarshalFrame : proto.Frame → Except String (List Byte)
  UnmarshalFrame : List Byte → proto.Frame → Except String proto.Frame
  UnmarshalTemperature : List Byte → Except String proto.Temperature
  UnmarshalHumidity : List Byte → Except String proto.Humidity
  UnmarshalCommand : List Byte → Except String proto.Command

/-! ## A reference model of `encoding/json` for the structs of `proto`

The writer follows `json.Marshal` on the struct definitions and tags of
`frame.go`: fields in declaration order under their tag names, `omitempty`
pointers left out when nil, `[]byte` as padded standard base64, nil slices as
`null`, strings escaped as `Marshal` escapes them (HTML-safe). -/

namespace json

/-- The UTF-8 encoding of one character. -/
def utf8EncodeChar (c : Char) : List Byte :=
  let n := c.toNat
  if n < 0x80 then [byte n]
  else if n < 0x800 then [byte (0xC0 + n / 64), byte (0x80 + n % 64)]
  else if n < 0x10000 then
    [byte (0xE0 + n / 4096), byte (0x80 + n / 64 % 64), byte (0x80 + n % 64)]
  else
    [byte (0xF0 + n / 262144), byte (0x80 + n / 4096 % 64), byte (0x80 + n / 64 % 64),
      byte (0x80 + n % 64)]

/-- The bytes of a Go string. -/
def utf8 (s : String) : List Byte := s.data.flatMap utf8EncodeChar

/-- The lower-case hexadecimal digit of `n < 16`. -/
def hexDigit (n : Nat) : Byte := if n < 10 then byte (0x30 + n) else byte (0x61 + (n - 10))

/-- The bytes `Marshal` writes for one character of a string. -/
def escapeChar (c : Char) : List Byte :=
  let n := c.toNat
  if n = 0x22 ∨ n = 0x5C then [0x5C, byte n]
  else if n = 0x08 then [0x5C, 0x62]
  else if n = 0x0C then [0x5C, 0x66]
  else if n = 0x0A then [0x5C, 0x6E]
  else if n = 0x0D then [0x5C, 0x72]
  else if n = 0x09 then [0x5C, 0x74]
  else if n < 0x20 ∨ n = 0x3C ∨ n = 0x3E ∨ n = 0x26 then
    [0x5C, 0x75, 0x30, 0x30, hexDigit (n / 16), hexDigit (n % 16)]
  else if n = 0x2028 ∨ n = 0x2029 then
    [0x5C, 0x75, 0x32, 0x30, 0x32, hexDigit (n % 16)]
  else utf8EncodeChar c

/-- A JSON string literal. -/
def encodeString (s : String) : List Byte :=
  [0x22] ++ s.data.flatMap escapeChar ++ [0x22]

/-- A JSON integer literal (`strconv.AppendInt(_, v, 10)`). -/
def encodeInt (v : Int) : List Byte :=
  let digits := (Nat.toDigits 10 v.natAbs).map fun c => byte c.toNat
  if v < 0 then 0x2D :: digits else digits

/-- The character of the standard base64 alphabet for `n < 64`. -/
def b64Char (n : Nat) : Byte :=
  if n < 26 then byte (0x41 + n)
  else if n < 52 then byte (0x61 + (n - 26))
  else if n < 62 then byte (0x30 + (n - 52))
  else if n = 62 then 0x2B
  else 0x2F

/-- The padded standard base64 encoding (`base64.StdEncoding`). -/
def b64Encode : List Byte → List Byte
  | [] => []
  | [a] => [b64Char (a.val / 4), b64Char (a.val % 4 * 16), 0x3D, 0x3D]
  | [a, b] =>
    [b64Char (a.val / 4), b64Char (a.val % 4 * 16 + b.val / 16), b64Char (b.val % 16 * 4), 0x3D]
  | a :: b :: c :: rest =>
    [b64Char (a.val / 4), b64Char (a.val % 4 * 16 + b.val / 16),
      b64Char (b.val % 16 * 4 + c.val / 64), b64Char (c.val % 64)] ++ b64Encode rest

/-- A `[]byte` value: `null` for the nil slice, a base64 string otherwise. -/
def encodeBytes : Option (List Byte) → List Byte
  | none => utf8 "null"
  | some b => [0x22] ++ b64Encode b ++ [0x22]

/-- A `bool` value. -/
def encodeBool (b : Bool) : List Byte := if b then utf8 "true" else utf8 "false"

/-- A `[]string` value: `null` for the nil slice, an array otherwise. -/
def encodeStrings : Option (List String) → List Byte
  | none => utf8 "null"
  | some l => [0x5B] ++ List.intercalate [0x2C] (l.map encodeString) ++ [0x5D]

/-- An object member `"name":value`. -/
def member (name : String) (value : List Byte) : List Byte :=
  encodeString name ++ [0x3A] ++ value

/-- An object `{m1,m2,...}` of the members given. -/
def object (members : List (List Byte)) : List Byte :=
  [0x7B] ++ List.intercalate [0x2C] members ++ [0x7D]

def encodePublish (p : proto.PublishFrame) : List Byte :=
  object [member "topic" (encodeString p.Topic), member "payload" (encodeBytes p.Payload),
    member "schema_id" (encodeString p.SchemaID),
    member "recipient_key_id" (encodeBytes p.RecipientKeyID),
    member "sender_public_key" (encodeBytes p.SenderPublicKey)]

def encodeSubscribe (s : proto.SubscribeFrame) : List Byte :=
  object [member "topic" (encodeString s.Topic), member "schema_id" (encodeString s.SchemaID),
    member "public_key" (encodeBytes s.PublicKey)]

def encodeUnsubscribe (u : proto.UnsubscribeFrame) : List Byte :=
  object [member "topic" (encodeString u.Topic)]

def encodeMessage (m : proto.MessageFrame) : List Byte :=
  object [member "topic" (encodeString m.Topic),
    member "encrypted_payload" (encodeBytes m.EncryptedPayload),
    member "sender_key_id" (encodeBytes m.SenderKeyID),
    member "sender_public_key" (encodeBytes m.SenderPublicKey)]

def encodeAck (a : proto.AckFrame) : List Byte :=
  object [member "message_id" (encodeString a.MessageID), member "ok" (encodeBool a.OK)]

def encodeError (e : proto.ErrorFrame) : List Byte :=
  object [member "code" (encodeString e.Code), member "message" (encodeString e.Message)]

def encodeDiscovery (d : proto.DiscoveryFrame) : List Byte :=
  object [member "node_id" (encodeString d.NodeID), member "topics" (encodeStrings d.Topics),
    member "public_key" (encodeBytes d.PublicKey), member "addr" (encodeString d.Addr)]

/-- The member of an `omitempty` pointer field: nothing when the pointer is nil. -/
def omitempty {α : Type} (name : String) (enc : α → List Byte) : Option α → List (List Byte)
  | none => []
  | some v => [member name (enc v)]

/-- The output of `json.Marshal(f)` for `f *proto.Frame`. -/
def encodeFrame (f : proto.Frame) : List Byte :=
  object ([member "t" (encodeInt f.Typ)] ++ omitempty "p" encodePublish f.Publish
    ++ omitempty "s" encodeSubscribe f.Subscribe ++ omitempty "u" encodeUnsubscribe f.Unsubscribe
    ++ omitempty "m" encodeMessage f.Message ++ omitempty "a" encodeAck f.Ack
    ++ omitempty "e" encodeError f.Error ++ omitempty "d" encodeDiscovery f.Discovery)

/-! ### Reading

The reader follows `json.Unmarshal`: the whole input is checked for syntax
first, then the value is stored into the destination.  Object keys match a
field case-insensitively, unknown keys are skipped, `null` leaves a scalar
field unchanged and sets a pointer, slice or map to nil, and a nil pointer
met by an object is allocated as the zero struct while a non-nil one is
decoded into as it is.  Error messages are abbreviated. -/

/-- A parsed JSON value.  A number is kept as sign, decimal mantissa, power of
ten, and whether its literal is a plain integer (no fraction, no exponent). -/
inductive Value where
  | null
  | bool (b : Bool)
  | num (neg : Bool) (mant : Nat) (exp10 : Int) (plain : Bool)
  | str (s : String)
  | arr (elems : List Value)
  | obj (members : List (String × Value))

/-- JSON white space. -/
def isSpace (b : Byte) : Bool := b = 0x20 || b = 0x09 || b = 0x0A || b = 0x0D

def skipWS : List Byte → List Byte
  | [] => []
  | b :: rest => if isSpace b then skipWS rest else b :: rest

/-- The value of a hexadecimal digit. -/
def hexVal (b : Byte) : Option Nat :=
  if 0x30 ≤ b.val ∧ b.val ≤ 0x39 then some (b.val - 0x30)
  else if 0x61 ≤ b.val ∧ b.val ≤ 0x66 then some (b.val - 0x61 + 10)
  else if 0x41 ≤ b.val ∧ b.val ≤ 0x46 then some (b.val - 0x41 + 10)
  else none

/-- Four hexadecimal digits, as in `\uXXXX`. -/
def getu4 : List Byte → Option (Nat × List Byte)
  | a :: b :: c :: d :: rest =>
    match hexVal a, hexVal b, hexVal c, hexVal d with
    | some x, some y, some z, some w => some (x * 4096 + y * 256 + z * 16 + w, rest)
    | _, _, _, _ => none
  | _ => none

/-- The replacement character U+FFFD. -/
def runeError : Char := Char.ofNat 0xFFFD

/-- A continuation byte of UTF-8. -/
def isCont (b : Byte) : Bool := 0x80 ≤ b.val && b.val ≤ 0xBF

/-- The function `utf8.DecodeRune` on a non-empty input: the character and the rest;
an invalid sequence gives U+FFFD and consumes one byte. -/
def decodeRune : List Byte → Char × List Byte
  | [] => (runeError, [])
  | b0 :: r0 =>
    if b0.val < 0x80 then (Char.ofNat b0.val, r0)
    else if 0xC2 ≤ b0.val ∧ b0.val ≤ 0xDF then
      match r0 with
      | b1 :: r1 =>
        if isCont b1 then (Char.ofNat ((b0.val - 0xC0) * 64 + (b1.val - 0x80)), r1)
        else (runeError, r0)
      | [] => (runeError, r0)
    else if 0xE0 ≤ b0.val ∧ b0.val ≤ 0xEF then
      match r0 with
      | b1 :: b2 :: r2 =>
        let lo := if b0.val = 0xE0 then 0xA0 else 0x80
        let hi := if b0.val = 0xED then 0x9F else 0xBF
        if lo ≤ b1.val ∧ b1.val ≤ hi ∧ isCont b2 then
          (Char.ofNat ((b0.val - 0xE0) * 4096 + (b1.val - 0x80) * 64 + (b2.val - 0x80)), r2)
        else (runeError, r0)
      | _ => (runeError, r0)
    else if 0xF0 ≤ b0.val ∧ b0.val ≤ 0xF4 then
      match r0 with
      | b1 :: b2 :: b3 :: r3 =>
        let lo := if b0.val = 0xF0 then 0x90 else 0x80
        let hi := if b0.val = 0xF4 then 0x8F else 0xBF
        if lo ≤ b1.val ∧ b1.val ≤ hi ∧ isCont b2 ∧ isCont b3 then
          (Char.ofNat ((b0.val - 0xF0) * 262144 + (b1.val - 0x80) * 4096
            + (b2.val - 0x80) * 64 + (b3.val - 0x80)), r3)
        else (runeError, r0)
      | _ => (runeError, r0)
    else (runeError, r0)

/-- The character of a one-letter escape `\b \f \n \r \t \" \\ \/`. -/
def simpleEscape (e : Byte) : Option Char :=
  if e = 0x22 ∨ e = 0x5C ∨ e = 0x2F then some (Char.ofNat e.val)
  else if e = 0x62 then some (Char.ofNat 0x08)
  else if e = 0x66 then some (Char.ofNat 0x0C)
  else if e = 0x6E then some (Char.ofNat 0x0A)
  else if e = 0x72 then some (Char.ofNat 0x0D)
  else if e = 0x74 then some (Char.ofNat 0x09)
  else none

/-- The rest of a string literal after its opening quote: the string and the
input after the closing quote.  `acc` holds the characters read, last first. -/
def parseStringBody : Nat → List Byte → List Char → Option (String × List Byte)
  | 0, _, _ => none
  | _ + 1, [], _ => none
  | fuel + 1, b :: rest, acc =>
    if b = 0x22 then some (String.mk acc.reverse, rest)
    else if b = 0x5C then
      match rest with
      | [] => none
      | e :: rest1 =>
        if e = 0x75 then
          match getu4 rest1 with
          | none => none
          | some (u, rest2) =>
            if 0xD800 ≤ u ∧ u < 0xE000 then
              match rest2 with
              | b5 :: b6 :: rest3 =>
                match (if b5 = 0x5C ∧ b6 = 0x75 then getu4 rest3 else none) with
                | some (u2, rest4) =>
                  if u < 0xDC00 ∧ 0xDC00 ≤ u2 ∧ u2 < 0xE000 then
                    parseStringBody fuel rest4
                      (Char.ofNat (0x10000 + (u - 0xD800) * 1024 + (u2 - 0xDC00)) :: acc)
                  else parseStringBody fuel rest2 (runeError :: acc)
                | none => parseStringBody fuel rest2 (runeError :: acc)
              | _ => parseStringBody fuel rest2 (runeError :: acc)
            else parseStringBody fuel rest2 (Char.ofNat u :: acc)
        else
          match simpleEscape e with
          | some c => parseStringBody fuel rest1 (c :: acc)
          | none => none
    else if b.val < 0x20 then none
    else if b.val < 0x80 then parseStringBody fuel rest (Char.ofNat b.val :: acc)
    else
      let cr := decodeRune (b :: rest)
      parseStringBody fuel cr.2 (cr.1 :: acc)

def isDigit (b : Byte) : Bool := 0x30 ≤ b.val && b.val ≤ 0x39

/-- The leading decimal digits of the input: their number, their value, the rest. -/
def spanDigits : List Byte → Nat → Nat → Nat × Nat × List Byte
  | [], n, v => (n, v, [])
  | b :: rest, n, v =>
    if isDigit b then spanDigits rest (n + 1) (v * 10 + (b.val - 0x30)) else (n, v, b :: rest)

/-- A number literal `-?(0|[1-9][0-9]*)(\.[0-9]+)?([eE][+-]?[0-9]+)?`. -/
def parseNumber (input : List Byte) : Option (Value × List Byte) :=
  let (neg, r0) :=
    match input with
    | b :: rest => if b = 0x2D then (true, rest) else (false, b :: rest)
    | [] => (false, [])
  match r0 with
  | [] => none
  | d :: r1 =>
    if ¬ isDigit d then none
    else
      -- a leading zero stands alone
      let (_, iv, r2) := if d = 0x30 then (1, 0, r1) else spanDigits (d :: r1) 0 0
      let fracPart : Option (Nat × Nat × List Byte) :=
        match r2 with
        | dot :: r3 =>
          if dot = 0x2E then
            match spanDigits r3 0 0 with
            | (0, _, _) => none
            | (n, v, r4) => some (n, v, r4)
          else some (0, 0, r2)
        | [] => some (0, 0, r2)
      match fracPart with
      | none => none
      | some (fn, fv, r4) =>
        let expPart : Option (Bool × Int × List Byte) :=
          match r4 with
          | e :: r5 =>
            if e = 0x65 ∨ e = 0x45 then
              let (eneg, r6) :=
                match r5 with
                | s :: r6 =>
                  if s = 0x2D then (true, r6) else if s = 0x2B then (false, r6) else (false, s :: r6)
                | [] => (false, [])
              match spanDigits r6 0 0 with
              | (0, _, _) => none
              | (_, ev, r7) => some (true, if eneg then - (ev : Int) else (ev : Int), r7)
            else some (false, 0, r4)
          | [] => some (false, 0, r4)
        match expPart with
        | none => none
        | some (hasExp, ev, r7) =>
          some (.num neg (iv * 10 ^ fn + fv) (ev - (fn : Int)) (fn = 0 ∧ ¬ hasExp), r7)

/-- Whether `lit` starts the input, and the rest after it. -/
def dropLiteral (lit : List Byte) (input : List Byte) : Option (List Byte) :=
  if lit.isPrefixOf input then some (input.drop lit.length) else none

mutual

/-- One JSON value at the head of the input, and the input after it. -/
def parseValue : Nat → List Byte → Option (Value × List Byte)
  | 0, _ => none
  | fuel + 1, input =>
    match skipWS input with
    | [] => none
    | b :: rest =>
      if b = 0x22 then
        match parseStringBody (rest.length + 1) rest [] with
        | some (s, rest1) => some (.str s, rest1)
        | none => none
      else if b = 0x7B then
        match skipWS rest with
        | [] => none
        | c :: rest1 =>
          if c = 0x7D then some (.obj [], rest1) else parseMembers fuel (c :: rest1) []
      else if b = 0x5B then
        match skipWS rest with
        | [] => none
        | c :: rest1 =>
          if c = 0x5D then some (.arr [], rest1) else parseElems fuel (c :: rest1) []
      else if b = 0x74 then (dropLiteral (utf8 "true") (b :: rest)).map fun r => (.bool true, r)
      else if b = 0x66 then (dropLiteral (utf8 "false") (b :: rest)).map fun r => (.bool false, r)
      else if b = 0x6E then (dropLiteral (utf8 "null") (b :: rest)).map fun r => (.null, r)
      else parseNumber (b :: rest)

/-- The members of an object after `{`, up to and including `}`. -/
def parseMembers : Nat → List Byte → List (String × Value) → Option (Value × List Byte)
  | 0, _, _ => none
  | fuel + 1, input, acc =>
    match skipWS input with
    | [] => none
    | q :: rest =>
      if q ≠ 0x22 then none
      else
        match parseStringBody (rest.length + 1) rest [] with
        | none => none
        | some (k, rest1) =>
          match skipWS rest1 with
          | [] => none
          | colon :: rest2 =>
            if colon ≠ 0x3A then none
            else
              match parseValue fuel rest2 with
              | none => none
              | some (v, rest3) =>
                match skipWS rest3 with
                | [] => none
                | d :: rest4 =>
                  if d = 0x2C then parseMembers fuel rest4 ((k, v) :: acc)
                  else if d = 0x7D then some (.obj ((k, v) :: acc).reverse, rest4)
                  else none

/-- The elements of an array after `[`, up to and including `]`. -/
def parseElems : Nat → List Byte → List Value → Option (Value × List Byte)
  | 0, _, _ => none
  | fuel + 1, input, acc =>
    match parseValue fuel input with
    | none => none
    | some (v, rest1) =>
      match skipWS rest1 with
      | [] => none
      | d :: rest2 =>
        if d = 0x2C then parseElems fuel rest2 (v :: acc)
        else if d = 0x5D then some (.arr (v :: acc).reverse, rest2)
        else none

end

mutual

/-- How deep the arrays and objects of a value are nested: 0 for a scalar. -/
def Value.depth : Value → Nat
  | .arr elems => depthElems elems + 1
  | .obj members => depthMembers members + 1
  | _ => 0

def depthElems : List Value → Nat
  | [] => 0
  | v :: vs => max v.depth (depthElems vs)

def depthMembers : List (String × Value) → Nat
  | [] => 0
  | m :: ms => max m.2.depth (depthMembers ms)

end

/-- The nesting that the scanner of `encoding/json` accepts (`maxNestingDepth`). -/
def maxNestingDepth : Nat := 10000

/-- A whole JSON text: one value with white space around it, nested no
deeper than `maxNestingDepth`, or `none` when the input is not valid JSON.
Every step consumes input, so the fuel given is never used up. -/
def parse (data : List Byte) : Option Value :=
  match parseValue (data.length + 1) data with
  | some (v, rest) => if skipWS rest = [] ∧ v.depth ≤ maxNestingDepth then some v else none
  | none => none

/-- The key folding of `encoding/json`: ASCII letters without case, and the
two non-ASCII characters that fold to an ASCII letter. -/
def foldChar (c : Char) : Nat :=
  let n := c.toNat
  if 0x61 ≤ n ∧ n ≤ 0x7A then n - 0x20
  else if n = 0x17F then 0x53
  else if n = 0x212A then 0x4B
  else n

/-- Whether an object key selects the field tagged `name`. -/
def isField (key name : String) : Bool := key.data.map foldChar = name.data.map foldChar

/-- An `UnmarshalTypeError`. -/
def typeError (into : String) : String := "json: cannot unmarshal into Go value of type " ++ into

/-- The value of a base64 character of the standard alphabet. -/
def b64Val (b : Byte) : Option Nat :=
  if 0x41 ≤ b.val ∧ b.val ≤ 0x5A then some (b.val - 0x41)
  else if 0x61 ≤ b.val ∧ b.val ≤ 0x7A then some (b.val - 0x61 + 26)
  else if 0x30 ≤ b.val ∧ b.val ≤ 0x39 then some (b.val - 0x30 + 52)
  else if b = 0x2B then some 62
  else if b = 0x2F then some 63
  else none

/-- Padded standard base64 decoding of an input without line breaks. -/
def b64DecodeQuads : List Byte → Option (List Byte)
  | [] => some []
  | [a, b, c, d] =>
    match b64Val a, b64Val b with
    | some x, some y =>
      if c = 0x3D then (if d = 0x3D then some [byte (x * 4 + y / 16)] else none)
      else
        match b64Val c with
        | none => none
        | some z =>
          if d = 0x3D then some [byte (x * 4 + y / 16), byte (y % 16 * 16 + z / 4)]
          else
            match b64Val d with
            | none => none
            | some w => some [byte (x * 4 + y / 16), byte (y % 16 * 16 + z / 4), byte (z % 4 * 64 + w)]
    | _, _ => none
  | a :: b :: c :: d :: rest =>
    match b64Val a, b64Val b, b64Val c, b64Val d, b64DecodeQuads rest with
    | some x, some y, some z, some w, some out =>
      some ([byte (x * 4 + y / 16), byte (y % 16 * 16 + z / 4), byte (z % 4 * 64 + w)] ++ out)
    | _, _, _, _, _ => none
  | _ => none

/-- The function `base64.StdEncoding.Decode`: line breaks are ignored. -/
def b64Decode (input : List Byte) : Option (List Byte) :=
  b64DecodeQuads (input.filter fun b => b ≠ 0x0A ∧ b ≠ 0x0D)

def decodeString : Value → String → Except String String
  | .str s, _ => .ok s
  | .null, old => .ok old
  | _, _ => .error (typeError "string")

/-- A number into `int` or `int64`: a plain integer literal in range. -/
def decodeInt64 : Value → Int → Except String Int
  | .num neg mant _ plain, _ =>
    let v : Int := if neg then - (mant : Int) else (mant : Int)
    if plain ∧ - (2 : Int) ^ 63 ≤ v ∧ v < (2 : Int) ^ 63 then .ok v else .error (typeError "int")
  | .null, old => .ok old
  | _, _ => .error (typeError "int")

/-- A number into `float64`: any literal that does not round to infinity,
that is, of magnitude below `2^1024 - 2^970`. -/
def decodeFloat64 : Value → Int × Int → Except String (Int × Int)
  | .num neg mant exp10 _, _ =>
    let limit : Nat := 2 ^ 1024 - 2 ^ 970
    let overflow : Bool :=
      if 0 ≤ exp10 then limit ≤ mant * 10 ^ exp10.toNat else limit * 10 ^ (- exp10).toNat ≤ mant
    if overflow then .error (typeError "float64")
    else .ok (if neg then - (mant : Int) else (mant : Int), exp10)
  | .null, old => .ok old
  | _, _ => .error (typeError "float64")

def decodeBool : Value → Bool → Except String Bool
  | .bool b, _ => .ok b
  | .null, old => .ok old
  | _, _ => .error (typeError "bool")

/-- A number into `uint8`, as for an element of a `[]byte`: a plain
literal without sign (`strconv.ParseUint` takes no `-`, not even in `-0`)
below 256; `null` leaves the element as it is. -/
def decodeUint8 : Value → Byte → Except String Byte
  | .num neg mant _ plain, _ =>
    if plain ∧ ¬ neg ∧ mant < 256 then .ok (byte mant) else .error (typeError "uint8")
  | .null, old => .ok old
  | _, _ => .error (typeError "uint8")

/-- The elements of a JSON array stored into a slice whose elements are
`old`: element `i` is decoded into the old element `i`, and into the zero
value beyond the old length (the capacity that a slice may have beyond its
length is taken as zeroed memory); the slice ends with the array. -/
def decodeElems {α : Type} (zero : α) (dec : Value → α → Except String α) :
    List Value → List α → Except String (List α)
  | [], _ => .ok []
  | v :: vs, old =>
    match dec v (old.headD zero) with
    | .error err => .error err
    | .ok x => (decodeElems zero dec vs old.tail).map fun xs => x :: xs

/-- A value into `[]byte`: a base64 string, `null`, or an array of numbers. -/
def decodeBytes : Value → Option (List Byte) → Except String (Option (List Byte))
  | .str s, _ =>
    match b64Decode (utf8 s) with
    | some b => .ok (some b)
    | none => .error "illegal base64 data"
  | .null, _ => .ok none
  | .arr elems, old => (decodeElems 0 decodeUint8 elems (old.getD [])).map some
  | _, _ => .error (typeError "[]uint8")

def decodeStrings : Value → Option (List String) → Except String (Option (List String))
  | .arr elems, old => (decodeElems "" decodeString elems (old.getD [])).map some
  | .null, _ => .ok none
  | _, _ => .error (typeError "[]string")

/-- A value into a pointer to a struct: `null` sets it to nil; an object is
decoded into the struct pointed to, allocated as `zero` when the pointer is nil. -/
def decodePointer {α : Type} (zero : α) (setField : α → String × Value → Except String α) :
    Value → Option α → Except String (Option α)
  | .null, _ => .ok none
  | .obj members, old => (members.foldlM setField (old.getD zero)).map some
  | _, _ => .error (typeError "struct")

def setPublishField (p : proto.PublishFrame) (kv : String × Value) : Except String proto.PublishFrame :=
  if isField kv.1 "topic" then (decodeString kv.2 p.Topic).map fun v => { p with Topic := v }
  else if isField kv.1 "payload" then (decodeBytes kv.2 p.Payload).map fun v => { p with Payload := v }
  else if isField kv.1 "schema_id" then (decodeString kv.2 p.SchemaID).map fun v => { p with SchemaID := v }
  else if isField kv.1 "recipient_key_id" then
    (decodeBytes kv.2 p.RecipientKeyID).map fun v => { p with RecipientKeyID := v }
  else if isField kv.1 "sender_public_key" then
    (decodeBytes kv.2 p.SenderPublicKey).map fun v => { p with SenderPublicKey := v }
  else .ok p

def setSubscribeField (s : proto.SubscribeFrame) (kv : String × Value) :
    Except String proto.SubscribeFrame :=
  if isField kv.1 "topic" then (decodeString kv.2 s.Topic).map fun v => { s with Topic := v }
  else if isField kv.1 "schema_id" then (decodeString kv.2 s.SchemaID).map fun v => { s with SchemaID := v }
  else if isField kv.1 "public_key" then (decodeBytes kv.2 s.PublicKey).map fun v => { s with PublicKey := v }
  else .ok s

def setUnsubscribeField (u : proto.UnsubscribeFrame) (kv : String × Value) :
    Except String proto.UnsubscribeFrame :=
  if isField kv.1 "topic" then (decodeString kv.2 u.Topic).map fun v => { u with Topic := v }
  else .ok u

def setMessageField (m : proto.MessageFrame) (kv : String × Value) : Except String proto.MessageFrame :=
  if isField kv.1 "topic" then (decodeString kv.2 m.Topic).map fun v => { m with Topic := v }
  else if isField kv.1 "encrypted_payload" then
    (decodeBytes kv.2 m.EncryptedPayload).map fun v => { m with EncryptedPayload := v }
  else if isField kv.1 "sender_key_id" then
    (decodeBytes kv.2 m.SenderKeyID).map fun v => { m with SenderKeyID := v }
  else if isField kv.1 "sender_public_key" then
    (decodeBytes kv.2 m.SenderPublicKey).map fun v => { m with SenderPublicKey := v }
  else .ok m

def setAckField (a : proto.AckFrame) (kv : String × Value) : Except String proto.AckFrame :=
  if isField kv.1 "message_id" then (decodeString kv.2 a.MessageID).map fun v => { a with MessageID := v }
  else if isField kv.1 "ok" then (decodeBool kv.2 a.OK).map fun v => { a with OK := v }
  else .ok a

def setErrorField (e : proto.ErrorFrame) (kv : String × Value) : Except String proto.ErrorFrame :=
  if isField kv.1 "code" then (decodeString kv.2 e.Code).map fun v => { e with Code := v }
  else if isField kv.1 "message" then (decodeString kv.2 e.Message).map fun v => { e with Message := v }
  else .ok e

def setDiscoveryField (d : proto.DiscoveryFrame) (kv : String × Value) :
    Except String proto.DiscoveryFrame :=
  if isField kv.1 "node_id" then (decodeString kv.2 d.NodeID).map fun v => { d with NodeID := v }
  else if isField kv.1 "topics" then (decodeStrings kv.2 d.Topics).map fun v => { d with Topics := v }
  else if isField kv.1 "public_key" then (decodeBytes kv.2 d.PublicKey).map fun v => { d with PublicKey := v }
  else if isField kv.1 "addr" then (decodeString kv.2 d.Addr).map fun v => { d with Addr := v }
  else .ok d

def setFrameField (f : proto.Frame) (kv : String × Value) : Except String proto.Frame :=
  if isField kv.1 "t" then (decodeInt64 kv.2 f.Typ).map fun v => { f with Typ := v }
  else if isField kv.1 "p" then
    (decodePointer ⟨"", none, "", none, none⟩ setPublishField kv.2 f.Publish).map
      fun v => { f with Publish := v }
  else if isField kv.1 "s" then
    (decodePointer ⟨"", "", none⟩ setSubscribeField kv.2 f.Subscribe).map
      fun v => { f with Subscribe := v }
  else if isField kv.1 "u" then
    (decodePointer ⟨""⟩ setUnsubscribeField kv.2 f.Unsubscribe).map fun v => { f with Unsubscribe := v }
  else if isField kv.1 "m" then
    (decodePointer ⟨"", none, none, none⟩ setMessageField kv.2 f.Message).map
      fun v => { f with Message := v }
  else if isField kv.1 "a" then
    (decodePointer ⟨"", false⟩ setAckField kv.2 f.Ack).map fun v => { f with Ack := v }
  else if isField kv.1 "e" then
    (decodePointer ⟨"", ""⟩ setErrorField kv.2 f.Error).map fun v => { f with Error := v }
  else if isField kv.1 "d" then
    (decodePointer ⟨"", none, none, ""⟩ setDiscoveryField kv.2 f.Discovery).map
      fun v => { f with Discovery := v }
  else .ok f

/-- A whole JSON text stored into a struct: `null` changes nothing, an object
sets its fields in the order of its members, any other value is a type error. -/
def unmarshalStruct {α : Type} (setField : α → String × Value → Except String α)
    (data : List Byte) (dst : α) : Except String α :=
  match parse data with
  | none => .error "invalid JSON input"
  | some .null => .ok dst
  | some (.obj members) => members.foldlM setField dst
  | some _ => .error (typeError "struct")

def setTemperatureField (t : proto.Temperature) (kv : String × Value) :
    Except String proto.Temperature :=
  if isField kv.1 "celsius" then (decodeFloat64 kv.2 t.Celsius).map fun v => { t with Celsius := v }
  else if isField kv.1 "timestamp_ms" then
    (decodeInt64 kv.2 t.TimestampMs).map fun v => { t with TimestampMs := v }
  else if isField kv.1 "sensor_id" then (decodeString kv.2 t.SensorID).map fun v => { t with SensorID := v }
  else .ok t

def setHumidityField (h : proto.Humidity) (kv : String × Value) : Except String proto.Humidity :=
  if isField kv.1 "percent" then (decodeFloat64 kv.2 h.Percent).map fun v => { h with Percent := v }
  else if isField kv.1 "timestamp_ms" then
    (decodeInt64 kv.2 h.TimestampMs).map fun v => { h with TimestampMs := v }
  else if isField kv.1 "sensor_id" then (decodeString kv.2 h.SensorID).map fun v => { h with SensorID := v }
  else .ok h

/-- One member stored into a `map[string]string`: a later key replaces an earlier one. -/
def setMapEntry (m : List (String × String)) (kv : String × Value) :
    Except String (List (String × String)) :=
  (decodeString kv.2 "").map fun v => (m.filter fun e => e.1 ≠ kv.1) ++ [(kv.1, v)]

def decodeStringMap : Value → Option (List (String × String)) →
    Except String (Option (List (String × String)))
  | .obj members, old => (members.foldlM setMapEntry (old.getD [])).map some
  | .null, _ => .ok none
  | _, _ => .error (typeError "map[string]string")

def setCommandField (c : proto.Command) (kv : String × Value) : Except String proto.Command :=
  if isField kv.1 "action" then (decodeString kv.2 c.Action).map fun v => { c with Action := v }
  else if isField kv.1 "params" then (decodeStringMap kv.2 c.Params).map fun v => { c with Params := v }
  else .ok c

end json

/-- The reference model of `encoding/json` as a `JSONLib`. -/
def goJSON : JSONLib where
  MarshalFrame f := .ok (json.encodeFrame f)
  UnmarshalFrame data f := json.unmarshalStruct json.setFrameField data f
  UnmarshalTemperature data := json.unmarshalStruct json.setTemperatureField data ⟨(0, 0), 0, ""⟩
  UnmarshalHumidity data := json.unmarshalStruct json.setHumidityField data ⟨(0, 0), 0, ""⟩
  UnmarshalCommand data := json.unmarshalStruct json.setCommandField data ⟨"", none⟩

namespace proto

/-- Encode writes a length-prefixed JSON frame to `w`: the writer afterwards
and the error returned. -/
def Frame.Encode (json : JSONLib) (f : Frame) (w : io.Writer) : io.Writer × Option GoError :=
  match json.MarshalFrame f with
  | .error msg => (w, some (.json msg))
  | .ok data =>
    -- 4-byte big-endian length prefix
    let lenBuf := binary.BigEndian.PutUint32 (uint32 data.length)
    match w.Write lenBuf with
    | (w1, some err) => (w1, some err)
    | (w1, none) => w1.Write data

/-- Decode reads a length-prefixed JSON frame from `r` into `f`: the frame
decoded (or the error) and the reader afterwards. -/
def Frame.Decode (json : JSONLib) (f : Frame) (r : io.Reader) : Except GoError Frame × io.Reader :=
  match io.ReadFull r 4 with
  | (.error err, r1) => (.error err, r1)
  | (.ok lenBuf, r1) =>
    let length := binary.BigEndian.Uint32 lenBuf
    if length > 1024 * 1024 then (.error .ErrShortBuffer, r1) -- 1MB max
    else
      match io.ReadFull r1 length with
      | (.error err, r2) => (.error err, r2)
      | (.ok data, r2) => ((json.UnmarshalFrame data f).mapError GoError.json, r2)

/-- Schema IDs for typed topics. -/
def SchemaTemperature : String := "sensor.Temperature"
def SchemaHumidity : String := "sensor.Humidity"
def SchemaCommand : String := "control.Command"

/-- ValidatePayload checks that payload matches the expected schema. -/
def ValidatePayload (json : JSONLib) (schemaID : String) (payload : List Byte) : Option GoError :=
  if schemaID = SchemaTemperature then
    match json.UnmarshalTemperature payload with
    | .error msg => some (.wrapf "invalid Temperature: " (.json msg))
    | .ok _ => none
  else if schemaID = SchemaHumidity then
    match json.UnmarshalHumidity payload with
    | .error msg => some (.wrapf "invalid Humidity: " (.json msg))
    | .ok _ => none
  else if schemaID = SchemaCommand then
    match json.UnmarshalCommand payload with
    | .error msg => some (.wrapf "invalid Command: " (.json msg))
    | .ok c => if c.Action = "" then some (.errorf "Command.action required") else none
  else some (.errorf ("unknown schema: " ++ schemaID))

/-- KnownSchemas returns all registered schema IDs. -/
def KnownSchemas : List String := [SchemaTemperature, SchemaHumidity, SchemaCommand]

end proto

/-! ## Go strings that are not text

A Go `string` holds any bytes, and the callers of `Encode` build the structs
of `proto` with whatever strings they have.  The frames above carry their
strings as Unicode text, which is what `json.Unmarshal` always produces; the
frames of this section carry them as bytes, and their writer follows
`appendString` of `encoding/json`, which writes a byte that starts no valid
UTF-8 sequence as the escape of U+FFFD. -/

namespace json

/-- The loop of `appendString(dst, src, true)` over the bytes of a Go string:
an ASCII byte is written as it is or escaped, a valid UTF-8 sequence is
copied (the two line separators escaped), and a byte that `utf8.DecodeRune`
reports as an error of size 1 is written as the six bytes of the escape of
U+FFFD.
`fuel` bounds the number of steps; the length of the string is enough. -/
def appendStringBody : Nat → List Byte → List Byte
  | 0, _ => []
  | _ + 1, [] => []
  | fuel + 1, b :: rest =>
    if b.val < 0x80 then escapeChar (Char.ofNat b.val) ++ appendStringBody fuel rest
    else
      let r := decodeRune (b :: rest)
      if r.1 = runeError ∧ r.2.length = rest.length then
        utf8 "\\ufffd" ++ appendStringBody fuel rest
      else escapeChar r.1 ++ appendStringBody fuel r.2

/-- A JSON string literal for a Go string. -/
def appendString (s : List Byte) : List Byte :=
  [0x22] ++ appendStringBody s.length s ++ [0x22]

/-- A `[]string` value whose strings are any bytes. -/
def appendStrings : Option (List (List Byte)) → List Byte
  | none => utf8 "null"
  | some l => [0x5B] ++ List.intercalate [0x2C] (l.map appendString) ++ [0x5D]

end json

namespace proto.bytes

/-- PublishFrame, with its strings as bytes. -/
structure PublishFrame where
  Topic : List Byte
  Payload : Option (List Byte)
  SchemaID : List Byte
  RecipientKeyID : Option (List Byte)
  SenderPublicKey : Option (List Byte)
  deriving DecidableEq, Repr

/-- SubscribeFrame, with its strings as bytes. -/
structure SubscribeFrame where
  Topic : List Byte
  SchemaID : List Byte
  PublicKey : Option (List Byte)
  deriving DecidableEq, Repr

/-- UnsubscribeFrame, with its string as bytes. -/
structure UnsubscribeFrame where
  Topic : List Byte
  deriving DecidableEq, Repr

/-- MessageFrame, with its string as bytes. -/
structure MessageFrame where
  Topic : List Byte
  EncryptedPayload : Option (List Byte)
  SenderKeyID : Option (List Byte)
  SenderPublicKey : Option (List Byte)
  deriving DecidableEq, Repr

/-- AckFrame, with its string as bytes. -/
structure AckFrame where
  MessageID : List Byte
  OK : Bool
  deriving DecidableEq, Repr

/-- ErrorFrame, with its strings as bytes. -/
structure ErrorFrame where
  Code : List Byte
  Message : List Byte
  deriving DecidableEq, Repr

/-- DiscoveryFrame, with its strings as bytes. -/
structure DiscoveryFrame where
  NodeID : List Byte
  Topics : Option (List (List Byte))
  PublicKey : Option (List Byte)
  Addr : List Byte
  deriving DecidableEq, Repr

/-- Frame as a caller of `Encode` may have built it: every string any bytes. -/
structure Frame where
  Typ : Int
  Publish : Option PublishFrame
  Subscribe : Option SubscribeFrame
  Unsubscribe : Option UnsubscribeFrame
  Message : Option MessageFrame
  Ack : Option AckFrame
  Error : Option ErrorFrame
  Discovery : Option DiscoveryFrame
  deriving DecidableEq, Repr

def encodePublish (p : PublishFrame) : List Byte :=
  json.object [json.member "topic" (json.appendString p.Topic),
    json.member "payload" (json.encodeBytes p.Payload),
    json.member "schema_id" (json.appendString p.SchemaID),
    json.member "recipient_key_id" (json.encodeBytes p.RecipientKeyID),
    json.member "sender_public_key" (json.encodeBytes p.SenderPublicKey)]

def encodeSubscribe (s : SubscribeFrame) : List Byte :=
  json.object [json.member "topic" (json.appendString s.Topic),
    json.member "schema_id" (json.appendString s.SchemaID),
    json.member "public_key" (json.encodeBytes s.PublicKey)]

def encodeUnsubscribe (u : UnsubscribeFrame) : List Byte :=
  json.object [json.member "topic" (json.appendString u.Topic)]

def encodeMessage (m : MessageFrame) : List Byte :=
  json.object [json.member "topic" (json.appendString m.Topic),
    json.member "encrypted_payload" (json.encodeBytes m.EncryptedPayload),
    json.member "sender_key_id" (json.encodeBytes m.SenderKeyID),
    json.member "sender_public_key" (json.encodeBytes m.SenderPublicKey)]

def encodeAck (a : AckFrame) : List Byte :=
  json.object [json.member "message_id" (json.appendString a.MessageID),
    json.member "ok" (json.encodeBool a.OK)]

def encodeError (e : ErrorFrame) : List Byte :=
  json.object [json.member "code" (json.appendString e.Code),
    json.member "message" (json.appendString e.Message)]

def encodeDiscovery (d : DiscoveryFrame) : List Byte :=
  json.object [json.member "node_id" (json.appendString d.NodeID),
    json.member "topics" (json.appendStrings d.Topics),
    json.member "public_key" (json.encodeBytes d.PublicKey),
    json.member "addr" (json.appendString d.Addr)]

/-- The output of `json.Marshal(f)` for a frame whose strings are any bytes;
`Marshal` has no error on these structs. -/
def Marshal (f : Frame) : List Byte :=
  json.object ([json.member "t" (json.encodeInt f.Typ)]
    ++ json.omitempty "p" encodePublish f.Publish
    ++ json.omitempty "s" encodeSubscribe f.Subscribe
    ++ json.omitempty "u" encodeUnsubscribe f.Unsubscribe
    ++ json.omitempty "m" encodeMessage f.Message ++ json.omitempty "a" encodeAck f.Ack
    ++ json.omitempty "e" encodeError f.Error ++ json.omitempty "d" encodeDiscovery f.Discovery)

/-- Encode writes a length-prefixed JSON frame to `w`, for a frame whose
strings are any bytes: the writer afterwards and the error returned. -/
def Frame.Encode (f : Frame) (w : io.Writer) : io.Writer × Option GoError :=
  let data := Marshal f
  -- 4-byte big-endian length prefix
  let lenBuf := binary.BigEndian.PutUint32 (uint32 data.length)
  match w.Write lenBuf with
  | (w1, some err) => (w1, some err)
  | (w1, none) => w1.Write data

/-- The Go value of a frame whose strings are text: each string by its UTF-8 bytes. -/
def Frame.ofText (f : proto.Frame) : Frame :=
  { Typ := f.Typ
    Publish := f.Publish.map fun p =>
      { Topic := json.utf8 p.Topic, Payload := p.Payload, SchemaID := json.utf8 p.SchemaID,
        RecipientKeyID := p.RecipientKeyID, SenderPublicKey := p.SenderPublicKey }
    Subscribe := f.Subscribe.map fun s =>
      { Topic := json.utf8 s.Topic, SchemaID := json.utf8 s.SchemaID, PublicKey := s.PublicKey }
    Unsubscribe := f.Unsubscribe.map fun u => { Topic := json.utf8 u.Topic }
    Message := f.Message.map fun m =>
      { Topic := json.utf8 m.Topic, EncryptedPayload := m.EncryptedPayload,
        SenderKeyID := m.SenderKeyID, SenderPublicKey := m.SenderPublicKey }
    Ack := f.Ack.map fun a => { MessageID := json.utf8 a.MessageID, OK := a.OK }
    Error := f.Error.map fun e => { Code := json.utf8 e.Code, Message := json.utf8 e.Message }
    Discovery := f.Discovery.map fun d =>
      { NodeID := json.utf8 d.NodeID, Topics := d.Topics.map fun l => l.map json.utf8,
        PublicKey := d.PublicKey, Addr := json.utf8 d.Addr } }

end proto.bytes

/-! ## `internal/crypto`: the sealed envelope -/

namespace crypto

def PublicKeySize : Nat := 32
def PrivateKeySize : Nat := 32
def NonceSize : Nat := 24

/-- A `[PublicKeySize]byte`. -/
abbrev PublicKey := { k : List Byte // k.length = PublicKeySize }

/-- A `[PrivateKeySize]byte`. -/
abbrev PrivateKey := { k : List Byte // k.length = PrivateKeySize }

/-- A `[NonceSize]byte`. -/
abbrev Nonce := { n : List Byte // n.length = NonceSize }

/-- The package `golang.org/x/crypto/nacl/box`, as far as the code uses it.
`Seal out message nonce peersPublicKey privateKey` is the slice returned;
`Open out box nonce peersPublicKey privateKey` is `none` when the box does
not authenticate; `PublicOf` gives the public key that `GenerateKey` pairs
with a private key. -/
structure BoxLib where
  Seal : List Byte → List Byte → Nonce → PublicKey → PrivateKey → List Byte
  Open : List Byte → List Byte → Nonce → PublicKey → PrivateKey → Option (List Byte)
  PublicOf : PrivateKey → PublicKey

/-- The constant `box.Overhead`: the length of the authenticator. -/
def BoxLib.Overhead : Nat := 16

/-- The contract of `nacl/box`: `Seal` appends to `out` a box `Overhead`
bytes longer than the message, and `Open` with the same nonce, the sender's
public key and the recipient's private key gives the message back. -/
structure BoxLib.Correct (box : BoxLib) : Prop where
  seal_append : ∀ out m n pk sk, box.Seal out m n pk sk = out ++ box.Seal [] m n pk sk
  seal_length : ∀ m n pk sk, (box.Seal [] m n pk sk).length = m.length + BoxLib.Overhead
  open_seal : ∀ m n senderPriv recipientPriv,
    box.Open [] (box.Seal [] m n (box.PublicOf recipientPriv) senderPriv) n
      (box.PublicOf senderPriv) recipientPriv = some m

/-- KeyPair holds a Curve25519 key pair. -/
structure KeyPair where
  Public : PublicKey
  Private : PrivateKey
  deriving DecidableEq

/-- Seal encrypts plaintext for the recipient.  `rand` is the outcome of
`io.ReadFull(rand.Reader, nonce[:])`: the nonce read, or the error. -/
def Seal (box : BoxLib) (rand : Except GoError Nonce) (plaintext : List Byte)
    (recipient : PublicKey) (sender : PrivateKey) : Except GoError (List Byte) :=
  match rand with
  | .error err => .error err
  | .ok nonce => .ok (box.Seal nonce.val plaintext nonce recipient sender)

/-- Open decrypts ciphertext from the sender.  The nonce is prepended. -/
def Open (box : BoxLib) (ciphertext : List Byte) (sender : PublicKey) (recipient : PrivateKey) :
    Option (List Byte) :=
  if h : ciphertext.length < NonceSize + BoxLib.Overhead then none
  else
    let nonce : Nonce := ⟨ciphertext.take NonceSize, by
      simp only [NonceSize, BoxLib.Overhead] at h
      simp only [List.length_take, NonceSize]
      omega⟩
    box.Open [] (ciphertext.drop NonceSize) nonce sender recipient

/-- KeyID returns first 8 bytes of public key as routing ID. -/
def KeyID (pub : PublicKey) : List Byte := pub.val.take 8

/-- A transparent instance of the box interface, without any secrecy: the
public key is the private key, the authenticator is the first 16 bytes of the
byte-wise sum of the two keys, and the message follows in the clear. -/
def demoBox : BoxLib where
  Seal out m _ pk sk := out ++ (List.zipWith (· + ·) pk.val sk.val).take 16 ++ m
  Open out b _ pk sk :=
    if b.take 16 = (List.zipWith (· + ·) pk.val sk.val).take 16 then some (out ++ b.drop 16)
    else none
  PublicOf sk := ⟨sk.val, sk.property⟩

end crypto

/-! ## `internal/transport` -/

namespace transport

/-- Conn wraps a QUIC connection with frame read/write: `Stream` identifies
the stream; `Connection` is Go's field `Conn`, given by the remote address of
the QUIC connection (`none` when the field is nil, as after `DialQUIC`). -/
structure Conn where
  Stream : Nat
  Connection : Option String
  deriving DecidableEq, Repr

/-- RemoteAddr returns the peer address. -/
def Conn.RemoteAddr (c : Conn) : String :=
  match c.Connection with
  | some addr => addr
  | none => "unknown"

/-- Server runs a QUIC listener; `LocalAddr` is the address it listens on. -/
structure Server where
  LocalAddr : String
  deriving DecidableEq, Repr

end transport

/-! ## `sync.Map` -/

namespace sync

/-- A `sync.Map`: its entries.  The order of the list is the order in which
`Range` visits them, which Go leaves unspecified. -/
abbrev Map (κ ν : Type) := List (κ × ν)

variable {κ ν : Type} [DecidableEq κ]

/-- The method `m.Load(key)`. -/
def Map.Load (m : Map κ ν) (key : κ) : Option ν := (m.find? fun e => e.1 = key).map fun e => e.2

/-- The method `m.Delete(key)`. -/
def Map.Delete (m : Map κ ν) (key : κ) : Map κ ν := m.filter fun e => e.1 ≠ key

/-- The method `m.Store(key, value)`. -/
def Map.Store (m : Map κ ν) (key : κ) (value : ν) : Map κ ν := m.Delete key ++ [(key, value)]

/-- The method `m.LoadOrStore(key, value)`: the value now under the key, and the map afterwards. -/
def Map.LoadOrStore (m : Map κ ν) (key : κ) (value : ν) : ν × Map κ ν :=
  match m.Load key with
  | some actual => (actual, m)
  | none => (value, m ++ [(key, value)])

/-- A mutation `g` of the object that the value stored under `key` points to. -/
def Map.mutate (m : Map κ ν) (key : κ) (g : ν → ν) : Map κ ν :=
  m.map fun e => if e.1 = key then (e.1, g e.2) else e

end sync

/-! ## `internal/mesh`: the relay -/

namespace mesh

/-- The subscriber record of the relay; `send` is the method value
`c.SendFrame` of the subscriber's connection `c` (`none` when nil). -/
structure subInfo where
  schemaID : String
  publicKey : Option (List Byte)
  send : Option transport.Conn
  deriving DecidableEq, Repr

/-- RelayServer is a zero-knowledge broker: `subs` maps a topic to the map
from connection key to subscriber. -/
structure RelayServer where
  subs : sync.Map String (sync.Map String subInfo)
  deriving DecidableEq, Repr

/-- What a relay handler does to the outside. -/
inductive Event where
  /-- A call `c.SendFrame(f)`. -/
  | sent (c : transport.Conn) (f : proto.Frame)
  /-- The log line of a failed forward, `slog.Error(..., "err", err, "sub", k)`. -/
  | logForwardFailed (err : GoError) (sub : String)
  /-- The log line `slog.Info("relay: forwarded", "topic", topic, "subscribers", count)`. -/
  | logForwarded (topic : String) (count : Nat)
  /-- A call `c.Close()`. -/
  | closed (c : transport.Conn)
  deriving DecidableEq, Repr

/-- The frame `&proto.Frame{Type: proto.FrameTypeAck, Ack: &proto.AckFrame{OK: true}}`. -/
def ackFrame : proto.Frame :=
  { proto.Frame.zero with Typ := proto.FrameTypeAck, Ack := some { MessageID := "", OK := true } }

/-- The Message frame the relay builds from a Publish frame. -/
def forwardFrame (p : proto.PublishFrame) : proto.Frame :=
  { proto.Frame.zero with
    Typ := proto.FrameTypeMessage
    Message := some
      { Topic := p.Topic
        EncryptedPayload := p.Payload
        SenderKeyID := p.RecipientKeyID
        SenderPublicKey := p.SenderPublicKey } }

/-- One visit of the `Range` over the subscribers of a topic: the success
count and the events so far, then after visiting the entry `e`.  `send` gives
the error returned by `SendFrame`. -/
def forwardTo (send : transport.Conn → proto.Frame → Option GoError) (msg : proto.Frame)
    (acc : Nat × List Event) (e : String × subInfo) : Nat × List Event :=
  match e.2.send with
  | none => acc
  | some target =>
    match send target msg with
    | some err => (acc.1, acc.2 ++ [.sent target msg, .logForwardFailed err e.1])
    | none => (acc.1 + 1, acc.2 ++ [.sent target msg])

/-- The body of the loop of `handleConn`, after `RecvFrame` has filled `f`
on connection `c`: the relay afterwards and the events, in order. -/
def RelayServer.dispatch (send : transport.Conn → proto.Frame → Option GoError)
    (r : RelayServer) (c : transport.Conn) (f : proto.Frame) : RelayServer × List Event :=
  let key := c.RemoteAddr
  if f.Typ = proto.FrameTypeSubscribe then
    match f.Subscribe with
    | some s =>
      let subs1 := (r.subs.LoadOrStore s.Topic []).2
      let subs2 := subs1.mutate s.Topic fun m =>
        m.Store key { schemaID := s.SchemaID, publicKey := s.PublicKey, send := some c }
      ({ subs := subs2 }, [.sent c ackFrame])
    | none => (r, [])
  else if f.Typ = proto.FrameTypeUnsubscribe then
    match f.Unsubscribe with
    | some u =>
      match r.subs.Load u.Topic with
      | some _ => ({ subs := r.subs.mutate u.Topic fun m => m.Delete key }, [])
      | none => (r, [])
    | none => (r, [])
  else if f.Typ = proto.FrameTypePublish then
    match f.Publish with
    | some p =>
      -- Forward to all subscribers of this topic
      match r.subs.Load p.Topic with
      | some v =>
        let res := v.foldl (forwardTo send (forwardFrame p)) (0, [])
        (r, res.2 ++ [.logForwarded p.Topic res.1, .sent c ackFrame])
      | none => (r, [.sent c ackFrame])
    | none => (r, [])
  else (r, [])

/-- The handler of one relay connection: `frames` are the successive contents
of the frame variable after each successful `RecvFrame`; then `RecvFrame`
fails, and the deferred function removes the connection key from all topic
subscriptions and closes the connection. -/
def RelayServer.handleConn (send : transport.Conn → proto.Frame → Option GoError)
    (r : RelayServer) (c : transport.Conn) (frames : List proto.Frame) : RelayServer × List Event :=
  let key := c.RemoteAddr
  let st := frames.foldl
    (fun (st : RelayServer × List Event) f =>
      let res := RelayServer.dispatch send st.1 c f
      (res.1, st.2 ++ res.2))
    (r, [])
  ({ subs := st.1.subs.map fun e => (e.1, e.2.Delete key) }, st.2 ++ [.closed c])

/-- The successive contents of the frame variable of a receive loop
`var f proto.Frame; for { if err := c.RecvFrame(&f); err != nil { return }; ... }`
on a stream: each `RecvFrame` decodes into the same variable, whose value
before the first call is `f`, and the loop ends at the first error.  `fuel`
bounds the number of calls; one more than the length of the stream is
enough, since every successful call consumes at least the four bytes of a
prefix. -/
def recvFrames (json : JSONLib) : Nat → proto.Frame → io.Reader → List proto.Frame
  | 0, _, _ => []
  | fuel + 1, f, stream =>
    match proto.Frame.Decode json f stream with
    | (.error _, _) => []
    | (.ok f1, stream1) => f1 :: recvFrames json fuel f1 stream1

/-- The handler of one relay connection on which the peer sends the bytes
`stream` and then closes: the frame variable starts as the zero Frame. -/
def RelayServer.handleStream (json : JSONLib)
    (send : transport.Conn → proto.Frame → Option GoError)
    (r : RelayServer) (c : transport.Conn) (stream : io.Reader) : RelayServer × List Event :=
  RelayServer.handleConn send r c (recvFrames json (stream.length + 1) proto.Frame.zero stream)

end mesh

namespace mesh

/-! ## `internal/mesh`: the node -/

/-- Relay is a reference to a broker (connects on demand). -/
structure Relay where
  addr : String
  deriving DecidableEq, Repr

/-- NewRelay creates a relay reference. -/
def NewRelay (addr : String) : Relay := { addr := addr }

/-- Config for Node; `OnMessage` tells whether a callback is given. -/
structure Config where
  Addr : String
  NodeID : String
  RelayAddr : String
  OnMessage : Bool
  DisableDiscovery : Bool
  deriving DecidableEq, Repr

/-- Node is a Qumbed mesh node.  `onMsg` tells whether the callback is
non-nil, `disc` whether discovery runs, `relayDone` whether the channel has
been made. -/
structure Node where
  keys : crypto.KeyPair
  server : transport.Server
  relay : Option Relay
  disc : Bool
  onMsg : Bool
  nodeID : String
  relayAddr : String
  relayConn : Option transport.Conn
  relayDone : Bool
  deriving DecidableEq

/-- What the node's operations meet outside the node: the libraries, the
random source, and the outcome of each transport call. -/
structure Env where
  json : JSONLib
  box : crypto.BoxLib
  /-- The outcome of reading a nonce from `rand.Reader`. -/
  rand : Except GoError crypto.Nonce
  /-- The outcome of `crypto.GenerateKeyPair()`. -/
  GenerateKeyPair : Except GoError crypto.KeyPair
  /-- The outcome of `transport.ListenQUIC(ctx, addr)`. -/
  ListenQUIC : String → Except GoError transport.Server
  /-- The outcome of `discovery.New(...)`. -/
  discoveryNew : Option GoError
  /-- The outcome of `transport.DialQUIC(ctx, addr)`. -/
  DialQUIC : String → Except GoError transport.Conn
  /-- The error returned by `c.SendFrame(f)`. -/
  SendFrame : transport.Conn → proto.Frame → Option GoError

/-- What a node operation does to the outside, in order. -/
inductive Effect where
  /-- A call of `crypto.Seal` on the plaintext. -/
  | seal (plaintext : List Byte)
  /-- A call `transport.DialQUIC(ctx, addr)`. -/
  | dial (addr : String)
  /-- A call `c.SendFrame(f)`. -/
  | send (c : transport.Conn) (f : proto.Frame)
  /-- A call `c.Close()`. -/
  | close (c : transport.Conn)
  /-- The statement `go n.relayRecvLoop(ctx, c)`. -/
  | goRelayRecvLoop (c : transport.Conn)
  /-- A call `c.RecvFrame(&f)` that returned no error and left `f` in the
  frame variable. -/
  | recv (c : transport.Conn) (f : proto.Frame)
  /-- A call `n.onMsg(topic, plain)` of the application's callback. -/
  | deliver (topic : String) (plain : List Byte)
  /-- The receive `<-n.relayDone`, which waits for the receive loop to exit. -/
  | waitRelayDone
  /-- The statement `close(n.relayDone)`. -/
  | closeRelayDone
  /-- A call `n.disc.Close()`. -/
  | closeDiscovery
  /-- A call `n.server.Listener.Close()`. -/
  | closeListener
  /-- The statement `close(c.msgs)` of the client. -/
  | closeMsgs
  deriving DecidableEq, Repr

/-- NewNode creates a new mesh node. -/
def NewNode (env : Env) (cfg : Config) : Except GoError Node :=
  match env.GenerateKeyPair with
  | .error err => .error err
  | .ok keys =>
    -- Start QUIC server
    match env.ListenQUIC cfg.Addr with
    | .error err => .error err
    | .ok server =>
      -- Start mDNS discovery (optional)
      match (if ¬ cfg.DisableDiscovery then env.discoveryNew else none) with
      | some err => .error err
      | none =>
        .ok
          { keys := keys
            server := server
            -- Connect to relay if configured
            relay := if cfg.RelayAddr ≠ "" then some (NewRelay cfg.RelayAddr) else none
            disc := ¬ cfg.DisableDiscovery
            onMsg := cfg.OnMessage
            nodeID := cfg.NodeID
            relayAddr := cfg.RelayAddr
            relayConn := none
            relayDone := false }

/-- Publish sends a message to a topic (E2EE to recipient): the error
returned and the effects. -/
def Node.Publish (env : Env) (n : Node) (topic schemaID : String) (payload : List Byte)
    (recipientPub : crypto.PublicKey) : Option GoError × List Effect :=
  match proto.ValidatePayload env.json schemaID payload with
  | some err => (some err, [])
  | none =>
    match crypto.Seal env.box env.rand payload recipientPub n.keys.Private with
    | .error err => (some err, [.seal payload])
    | .ok enc =>
      let f : proto.Frame :=
        { proto.Frame.zero with
          Typ := proto.FrameTypePublish
          Publish := some
            { Topic := topic
              Payload := some enc
              SchemaID := schemaID
              RecipientKeyID := some (crypto.KeyID recipientPub)
              SenderPublicKey := some n.keys.Public.val } }
      match n.relay with
      | some _ =>
        match env.DialQUIC n.relayAddr with
        | .error err => (some err, [.seal payload, .dial n.relayAddr])
        | .ok conn =>
          (env.SendFrame conn f, [.seal payload, .dial n.relayAddr, .send conn f, .close conn])
      -- P2P: would need to find peer and send
      | none => (none, [.seal payload])

/-- Subscribe registers for a topic and starts receiving: the node
afterwards, the error returned and the effects. -/
def Node.Subscribe (env : Env) (n : Node) (topic schemaID : String) :
    Node × Option GoError × List Effect :=
  match n.relay with
  | none => (n, none, [])
  | some _ =>
    match env.DialQUIC n.relayAddr with
    | .error err => (n, some err, [.dial n.relayAddr])
    | .ok conn =>
      let f : proto.Frame :=
        { proto.Frame.zero with
          Typ := proto.FrameTypeSubscribe
          Subscribe := some
            { Topic := topic, SchemaID := schemaID, PublicKey := some n.keys.Public.val } }
      match env.SendFrame conn f with
      | some err => (n, some err, [.dial n.relayAddr, .send conn f, .close conn])
      | none =>
        ({ n with relayConn := some conn, relayDone := true }, none,
          [.dial n.relayAddr, .send conn f, .goRelayRecvLoop conn])

/-- The handler of a Message frame: the effects, which are one call of the
callback or nothing.  A nil slice has length 0. -/
def Node.handleMessage (env : Env) (n : Node) (m : proto.MessageFrame) : List Effect :=
  let key := m.SenderPublicKey.getD []
  if h : key.length ≠ crypto.PublicKeySize then []
  else
    let senderPub : crypto.PublicKey := ⟨key, not_not.mp h⟩
    match crypto.Open env.box (m.EncryptedPayload.getD []) senderPub n.keys.Private with
    | none => []
    | some plain => if n.onMsg then [.deliver m.Topic plain] else []

/-- The receive loop on the relay connection `c`: `frames` are the successive
contents of the frame variable after each successful `RecvFrame`; the loop
ends when `RecvFrame` fails or the context is done, and the deferred calls
close the connection and the channel `relayDone`. -/
def Node.relayRecvLoop (env : Env) (n : Node) (c : transport.Conn) (frames : List proto.Frame) :
    List Effect :=
  frames.flatMap
      (fun f =>
        Effect.recv c f ::
          (if f.Typ = proto.FrameTypeMessage then
            match f.Message with
            | some m => n.handleMessage env m
            | none => []
          else []))
    ++ [.close c, .closeRelayDone]

/-- Close shuts down the node: the error returned and the effects.  The
server of a node made by `NewNode` and its listener are never nil. -/
def Node.Close (n : Node) : Option GoError × List Effect :=
  (none,
    (match n.relayConn with
      | some conn => Effect.close conn :: (if n.relayDone then [Effect.waitRelayDone] else [])
      | none => [])
    ++ (if n.disc then [Effect.closeDiscovery] else [])
    ++ [Effect.closeListener])

end mesh

/-! ## `client`: the developer SDK -/

namespace client

/-- DefaultMessageBuffer is the buffer size for the Messages() channel. -/
def DefaultMessageBuffer : Int := 64

/-- ErrClosed is returned when using a client after Close. -/
def ErrClosed : GoError := .ErrClosed

/-- ReceivedMessage is a message delivered to the subscriber. -/
structure ReceivedMessage where
  Topic : String
  Payload : List Byte
  deriving DecidableEq, Repr

/-- Config configures the Qumbed client. -/
structure Config where
  Addr : String
  NodeID : String
  RelayAddr : String
  DisableDiscovery : Bool
  MessageBuffer : Int
  deriving DecidableEq, Repr

/-- A buffered `chan ReceivedMessage`: the messages queued (oldest first), the
capacity, and whether it has been closed. -/
structure Chan where
  queue : List ReceivedMessage
  capacity : Nat
  isClosed : Bool
  deriving DecidableEq, Repr

/-- Client is the developer-facing Qumbed client. -/
structure Client where
  node : mesh.Node
  msgs : Chan
  closed : Bool
  deriving DecidableEq

/-- New creates a new Qumbed client. -/
def New (env : mesh.Env) (cfg : Config) : Except GoError Client :=
  let addr := if cfg.Addr = "" then ":0" else cfg.Addr
  let buf := if cfg.MessageBuffer ≤ 0 then DefaultMessageBuffer else cfg.MessageBuffer
  match mesh.NewNode env
      { Addr := addr, NodeID := cfg.NodeID, RelayAddr := cfg.RelayAddr,
        DisableDiscovery := cfg.DisableDiscovery, OnMessage := true } with
  | .error err => .error err
  | .ok node =>
    .ok { node := node, msgs := { queue := [], capacity := buf.toNat, isClosed := false },
          closed := false }

/-- Publish sends a message to a topic: the error returned and the effects. -/
def Client.Publish (env : mesh.Env) (c : Client) (topic schemaID : String) (payload : List Byte)
    (recipientPub : crypto.PublicKey) : Option GoError × List mesh.Effect :=
  if c.closed then (some ErrClosed, [])
  else c.node.Publish env topic schemaID payload recipientPub

/-- Subscribe registers for a topic and starts receiving messages: the client
afterwards, the error returned and the effects. -/
def Client.Subscribe (env : mesh.Env) (c : Client) (topic schemaID : String) :
    Client × Option GoError × List mesh.Effect :=
  if c.closed then (c, some ErrClosed, [])
  else
    let res := c.node.Subscribe env topic schemaID
    ({ c with node := res.1 }, res.2.1, res.2.2)

/-- The callback `OnMessage` that `New` hands to the node, a `select` with a
send on `msgs` and an empty `default`: the channel afterwards.  A send on a
closed channel panics, which is `none`; on an open channel the send is taken
when the buffer has room, and the `default` otherwise. -/
def OnMessage (msgs : Chan) (topic : String) (payload : List Byte) : Option Chan :=
  if msgs.isClosed then none
  else if msgs.queue.length < msgs.capacity then
    some { msgs with queue := msgs.queue ++ [{ Topic := topic, Payload := payload }] }
  else
    -- channel full; drop or could log
    some msgs

/-- Close shuts down the client and closes the Messages() channel: the client
afterwards, the error returned and the effects. -/
def Client.Close (c : Client) : Client × Option GoError × List mesh.Effect :=
  if c.closed then (c, none, [])
  else
    let res := c.node.Close
    ({ c with closed := true, msgs := { c.msgs with isClosed := true } }, res.1,
      res.2 ++ [.closeMsgs])

/-- A call of one of the methods of a client that change or consult its
closed flag. -/
inductive Call where
  | Publish (topic schemaID : String) (payload : List Byte) (recipientPub : crypto.PublicKey)
  | Subscribe (topic schemaID : String)
  | Close

/-- One call on a client: the client afterwards, the error returned and the
effects. -/
def Client.call (env : mesh.Env) (c : Client) : Call → Client × Option GoError × List mesh.Effect
  | .Publish topic schemaID payload recipientPub =>
    let res := c.Publish env topic schemaID payload recipientPub
    (c, res.1, res.2)
  | .Subscribe topic schemaID => c.Subscribe env topic schemaID
  | .Close => c.Close

/-- A sequence of calls on a client, one after the other: the client
afterwards, and the error returned and the effects of each call. -/
def Client.calls (env : mesh.Env) (c : Client) :
    List Call → Client × List (Option GoError × List mesh.Effect)
  | [] => (c, [])
  | x :: rest =>
    let res := c.call env x
    let after := Client.calls env res.1 rest
    (after.1, (res.2.1, res.2.2) :: after.2)

end client

/-! ## The JSON values of the reference writer

What `json.encodeFrame` writes, member by member, as the text of each value
and the value a JSON reader makes of it.  These definitions only state the
round-trip property of the reference model and are used in its proof. -/

/-- The input after a value inside an array or object: it starts with `,`, `}` or `]`. -/
def json.Delim (rest : List Byte) : Prop :=
  ∃ b r, rest = b :: r ∧ (b = 0x2C ∨ b = 0x7D ∨ b = 0x5D)

/-- The text `txt` is read as the value `v`, whatever follows. -/
def json.ReadsAs (txt : List Byte) (v : json.Value) : Prop :=
  ∀ fuel rest, txt.length ≤ fuel → json.parseValue fuel (txt ++ rest) = some (v, rest)

/-- The text `txt` is read as the value `v` when a delimiter follows. -/
def json.ReadsAsBefore (txt : List Byte) (v : json.Value) : Prop :=
  ∀ fuel rest, txt.length ≤ fuel → json.Delim rest → json.parseValue fuel (txt ++ rest) = some (v, rest)

/-- A byte of padded base64 text. -/
def json.IsB64 (b : Byte) : Prop :=
  (0x41 ≤ b.val ∧ b.val ≤ 0x5A) ∨ (0x61 ≤ b.val ∧ b.val ≤ 0x7A) ∨ (0x30 ≤ b.val ∧ b.val ≤ 0x39)
    ∨ b.val = 0x2B ∨ b.val = 0x2F ∨ b.val = 0x3D

/-- The JSON value that `Marshal` writes for a `[]byte`. -/
def json.valueOfBytes : Option (List Byte) → json.Value
  | none => .null
  | some b => .str (String.mk ((json.b64Encode b).map fun x => Char.ofNat x.val))

/-- The JSON value that `Marshal` writes for a `[]string`. -/
def json.valueOfStrings : Option (List String) → json.Value
  | none => .null
  | some l => .arr (l.map json.Value.str)

/-- The JSON value that `Marshal` writes for an `int`. -/
def json.valueOfInt (v : Int) : json.Value := .num (decide (v < 0)) v.natAbs 0 true

/-- An object member as `Marshal` writes it: its key, the text of its value, and the value. -/
abbrev json.Entry := String × List Byte × json.Value

/-- The text `"key":value` of a member. -/
def json.entryText (e : json.Entry) : List Byte := json.member e.1 e.2.1

/-- The key and value of a member. -/
def json.entryValue (e : json.Entry) : String × json.Value := (e.1, e.2.2)

/-- The member of an `omitempty` pointer field. -/
def json.optEntry {α : Type} (name : String) (enc : α → List Byte) (val : α → json.Value) :
    Option α → List json.Entry
  | none => []
  | some x => [(name, enc x, val x)]

/-- The members `Marshal` writes for a `PublishFrame`. -/
def json.publishEntries (x : proto.PublishFrame) : List json.Entry :=
  [("topic", json.encodeString x.Topic, .str x.Topic),
    ("payload", json.encodeBytes x.Payload, json.valueOfBytes x.Payload),
    ("schema_id", json.encodeString x.SchemaID, .str x.SchemaID),
    ("recipient_key_id", json.encodeBytes x.RecipientKeyID, json.valueOfBytes x.RecipientKeyID),
    ("sender_public_key", json.encodeBytes x.SenderPublicKey, json.valueOfBytes x.SenderPublicKey)]

/-- The JSON value `Marshal` writes for a `PublishFrame`. -/
def json.publishValue (x : proto.PublishFrame) : json.Value :=
  .obj ((json.publishEntries x).map json.entryValue)

/-- The members `Marshal` writes for a `SubscribeFrame`. -/
def json.subscribeEntries (x : proto.SubscribeFrame) : List json.Entry :=
  [("topic", json.encodeString x.Topic, .str x.Topic),
    ("schema_id", json.encodeString x.SchemaID, .str x.SchemaID),
    ("public_key", json.encodeBytes x.PublicKey, json.valueOfBytes x.PublicKey)]

/-- The JSON value `Marshal` writes for a `SubscribeFrame`. -/
def json.subscribeValue (x : proto.SubscribeFrame) : json.Value :=
  .obj ((json.subscribeEntries x).map json.entryValue)

/-- The members `Marshal` writes for a `UnsubscribeFrame`. -/
def json.unsubscribeEntries (x : proto.UnsubscribeFrame) : List json.Entry :=
  [("topic", json.encodeString x.Topic, .str x.Topic)]

/-- The JSON value `Marshal` writes for a `UnsubscribeFrame`. -/
def json.unsubscribeValue (x : proto.UnsubscribeFrame) : json.Value :=
  .obj ((json.unsubscribeEntries x).map json.entryValue)

/-- The members `Marshal` writes for a `MessageFrame`. -/
def json.messageEntries (x : proto.MessageFrame) : List json.Entry :=
  [("topic", json.encodeString x.Topic, .str x.Topic),
    ("encrypted_payload", json.encodeBytes x.EncryptedPayload, json.valueOfBytes x.EncryptedPayload),
    ("sender_key_id", json.encodeBytes x.SenderKeyID, json.valueOfBytes x.SenderKeyID),
    ("sender_public_key", json.encodeBytes x.SenderPublicKey, json.valueOfBytes x.SenderPublicKey)]

/-- The JSON value `Marshal` writes for a `MessageFrame`. -/
def json.messageValue (x : proto.MessageFrame) : json.Value :=
  .obj ((json.messageEntries x).map json.entryValue)

/-- The members `Marshal` writes for a `AckFrame`. -/
def json.ackEntries (x : proto.AckFrame) : List json.Entry :=
  [("message_id", json.encodeString x.MessageID, .str x.MessageID),
    ("ok", json.encodeBool x.OK, .bool x.OK)]

/-- The JSON value `Marshal` writes for a `AckFrame`. -/
def json.ackValue (x : proto.AckFrame) : json.Value :=
  .obj ((json.ackEntries x).map json.entryValue)

/-- The members `Marshal` writes for a `ErrorFrame`. -/
def json.errorEntries (x : proto.ErrorFrame) : List json.Entry :=
  [("code", json.encodeString x.Code, .str x.Code),
    ("message", json.encodeString x.Message, .str x.Message)]

/-- The JSON value `Marshal` writes for a `ErrorFrame`. -/
def json.errorValue (x : proto.ErrorFrame) : json.Value :=
  .obj ((json.errorEntries x).map json.entryValue)

/-- The members `Marshal` writes for a `DiscoveryFrame`. -/
def json.discoveryEntries (x : proto.DiscoveryFrame) : List json.Entry :=
  [("node_id", json.encodeString x.NodeID, .str x.NodeID),
    ("topics", json.encodeStrings x.Topics, json.valueOfStrings x.Topics),
    ("public_key", json.encodeBytes x.PublicKey, json.valueOfBytes x.PublicKey),
    ("addr", json.encodeString x.Addr, .str x.Addr)]

/-- The JSON value `Marshal` writes for a `DiscoveryFrame`. -/
def json.discoveryValue (x : proto.DiscoveryFrame) : json.Value :=
  .obj ((json.discoveryEntries x).map json.entryValue)

/-- The members `Marshal` writes for a `Frame`. -/
def json.frameEntries (F : proto.Frame) : List json.Entry :=
  [("t", json.encodeInt F.Typ, json.valueOfInt F.Typ)]
      ++ json.optEntry "p" json.encodePublish json.publishValue F.Publish
      ++ json.optEntry "s" json.encodeSubscribe json.subscribeValue F.Subscribe
      ++ json.optEntry "u" json.encodeUnsubscribe json.unsubscribeValue F.Unsubscribe
      ++ json.optEntry "m" json.encodeMessage json.messageValue F.Message
      ++ json.optEntry "a" json.encodeAck json.ackValue F.Ack
      ++ json.optEntry "e" json.encodeError json.errorValue F.Error
      ++ json.optEntry "d" json.encodeDiscovery json.discoveryValue F.Discovery

/-! ## Sample values -/

/-- A Publish frame with a short payload. -/
def sampleFrame : proto.Frame :=
  { proto.Frame.zero with
    Typ := proto.FrameTypePublish
    Publish := some
      { Topic := "t/1", Payload := some [0, 1, 2, 253, 254, 255, 16],
        SchemaID := "sensor.Temperature",
        RecipientKeyID := some [9, 8, 7, 6, 5, 4, 3, 2], SenderPublicKey := some [] } }

/-- A frame whose JSON body is longer than a 32-bit length can say: an
Unsubscribe frame for a topic of `n` letters `a`. -/
def longTopicFrame (n : Nat) : proto.Frame :=
  { proto.Frame.zero with
    Typ := proto.FrameTypeUnsubscribe
    Unsubscribe := some { Topic := String.mk (List.replicate n 'a') } }

/-- The connections to which a list of relay events sends a frame, in order. -/
def mesh.sendTargets : List mesh.Event → List transport.Conn
  | [] => []
  | .sent c _ :: rest => c :: mesh.sendTargets rest
  | _ :: rest => mesh.sendTargets rest

/-- The events of one visit of the fan-out. -/
def mesh.forwardEvents (send : transport.Conn → proto.Frame → Option GoError) (msg : proto.Frame)
    (e : String × mesh.subInfo) : List mesh.Event :=
  match e.2.send with
  | none => []
  | some target =>
    match send target msg with
    | some err => [.sent target msg, .logForwardFailed err e.1]
    | none => [.sent target msg]

/-- A relay whose topic `t/1` has two subscribers and whose topic `t/2` has one. -/
def sampleRelay : mesh.RelayServer :=
  { subs :=
      [("t/1",
          [("10.0.0.1:5000", ⟨"", some [1], some ⟨1, some "10.0.0.1:5000"⟩⟩),
            ("10.0.0.2:5000", ⟨"sensor.Temperature", some [2], some ⟨2, some "10.0.0.2:5000"⟩⟩)]),
        ("t/2", [("10.0.0.1:5000", ⟨"", some [1], some ⟨1, some "10.0.0.1:5000"⟩⟩)])] }

/-- Two 32-byte keys and a 24-byte nonce. -/
def sampleKeyA : crypto.PublicKey := ⟨List.replicate 32 7, by decide⟩
def sampleKeyB : crypto.PublicKey := ⟨(List.range 32).map byte, by decide⟩
def sampleNonce : crypto.Nonce := ⟨List.replicate 24 9, by decide⟩

/-- An environment in which every outside call succeeds. -/
def sampleEnv : mesh.Env where
  json := goJSON
  box := crypto.demoBox
  rand := .ok sampleNonce
  GenerateKeyPair := .ok ⟨sampleKeyA, sampleKeyA⟩
  ListenQUIC addr := .ok ⟨addr⟩
  discoveryNew := none
  DialQUIC _ := .ok ⟨1, none⟩
  SendFrame _ _ := none

/-- A node with the relay `relay:6121` configured. -/
def sampleNode : mesh.Node :=
  { keys := ⟨sampleKeyA, sampleKeyA⟩, server := ⟨":0"⟩, relay := some ⟨"relay:6121"⟩,
    disc := false, onMsg := true, nodeID := "n1", relayAddr := "relay:6121", relayConn := none,
    relayDone := false }

/-- A node without a relay. -/
def sampleNodeNoRelay : mesh.Node :=
  { keys := ⟨sampleKeyA, sampleKeyA⟩, server := ⟨":0"⟩, relay := none,
    disc := false, onMsg := true, nodeID := "n1", relayAddr := "", relayConn := none,
    relayDone := false }

/-- An open client on the sample node, with a queue of two places. -/
def sampleClient : client.Client :=
  { node := sampleNode, msgs := { queue := [], capacity := 2, isClosed := false },
    closed := false }

/-- A Subscribe frame for the topic `t/1`. -/
def sampleSubscribe (schemaID : String) (publicKey : List Byte) : proto.Frame :=
  { proto.Frame.zero with
    Typ := proto.FrameTypeSubscribe
    Subscribe := some { Topic := "t/1", SchemaID := schemaID, PublicKey := some publicKey } }

/-- A body on the wire: the four bytes of its length, then the body. -/
def framed (body : List Byte) : List Byte :=
  binary.BigEndian.PutUint32 (uint32 body.length) ++ body

/-- The variant that corresponds to the Type of a frame, with that Type, and
nothing else: the part of a frame that a handler with the guard
`if s := f.Subscribe; s != nil` under `case proto.FrameTypeSubscribe` can see. -/
def proto.Frame.active (f : proto.Frame) : proto.Frame :=
  if f.Typ = proto.FrameTypePublish then { proto.Frame.zero with Typ := f.Typ, Publish := f.Publish }
  else if f.Typ = proto.FrameTypeSubscribe then
    { proto.Frame.zero with Typ := f.Typ, Subscribe := f.Subscribe }
  else if f.Typ = proto.FrameTypeUnsubscribe then
    { proto.Frame.zero with Typ := f.Typ, Unsubscribe := f.Unsubscribe }
  else if f.Typ = proto.FrameTypeMessage then
    { proto.Frame.zero with Typ := f.Typ, Message := f.Message }
  else if f.Typ = proto.FrameTypeAck then { proto.Frame.zero with Typ := f.Typ, Ack := f.Ack }
  else if f.Typ = proto.FrameTypeError then { proto.Frame.zero with Typ := f.Typ, Error := f.Error }
  else if f.Typ = proto.FrameTypeDiscovery then
    { proto.Frame.zero with Typ := f.Typ, Discovery := f.Discovery }
  else { proto.Frame.zero with Typ := f.Typ }

/-- The variants of a frame that are present, by their JSON keys. -/
def proto.Frame.variants (f : proto.Frame) : List String :=
  (if f.Publish.isSome then ["p"] else []) ++ (if f.Subscribe.isSome then ["s"] else [])
    ++ (if f.Unsubscribe.isSome then ["u"] else []) ++ (if f.Message.isSome then ["m"] else [])
    ++ (if f.Ack.isSome then ["a"] else []) ++ (if f.Error.isSome then ["e"] else [])
    ++ (if f.Discovery.isSome then ["d"] else [])

/-- The frame `F` laid over the frame `f0`: the Type of `F`, every variant
that `F` has, and the variant of `f0` where `F` has none. -/
def proto.Frame.over (F f0 : proto.Frame) : proto.Frame :=
  { Typ := F.Typ
    Publish := F.Publish.orElse fun _ => f0.Publish
    Subscribe := F.Subscribe.orElse fun _ => f0.Subscribe
    Unsubscribe := F.Unsubscribe.orElse fun _ => f0.Unsubscribe
    Message := F.Message.orElse fun _ => f0.Message
    Ack := F.Ack.orElse fun _ => f0.Ack
    Error := F.Error.orElse fun _ => f0.Error
    Discovery := F.Discovery.orElse fun _ => f0.Discovery }

/-- The number of events of a trace that are equal to a given one. -/
def mesh.countEvent (e : mesh.Event) (events : List mesh.Event) : Nat :=
  (events.filter fun x => x = e).length

/-- What a call on a closed client returns. -/
def client.Call.closedResult : client.Call → Option GoError
  | .Close => none
  | _ => some client.ErrClosed

/-- No topic twice in the table, and no connection key twice under a topic. -/
def mesh.RelayServer.onePerPair (r : mesh.RelayServer) : Prop :=
  (r.subs.map Prod.fst).Nodup ∧ ∀ e ∈ r.subs, (e.2.map Prod.fst).Nodup

instance (r : mesh.RelayServer) : Decidable r.onePerPair := by
  unfold mesh.RelayServer.onePerPair
  infer_instance

/-- Whether the fan-out visit of an entry counts as forwarded: the entry has a
send function and the send returned no error. -/
def mesh.delivered (send : transport.Conn → proto.Frame → Option GoError) (msg : proto.Frame)
    (e : String × mesh.subInfo) : Bool :=
  match e.2.send with
  | none => false
  | some target => (send target msg).isNone

/-- The Publish frame that `Node.Publish` builds from the sealed payload. -/
def mesh.Node.publishFrame (n : mesh.Node) (topic schemaID : String) (enc : List Byte)
    (recipientPub : crypto.PublicKey) : proto.Frame :=
  { proto.Frame.zero with
    Typ := proto.FrameTypePublish
    Publish := some
      { Topic := topic
        Payload := some enc
        SchemaID := schemaID
        RecipientKeyID := some (crypto.KeyID recipientPub)
        SenderPublicKey := some n.keys.Public.val } }

/-- The payload of the sample publication, a temperature reading. -/
def samplePayload : List Byte :=
  json.utf8 "\x7b\"celsius\":22.5,\"timestamp_ms\":1000,\"sensor_id\":\"a\"\x7d"

/-- A Message frame for the sample node: the two bytes `hi`, sealed by the
holder of `sampleKeyB` for the holder of `sampleKeyA`. -/
def sampleMessage : proto.MessageFrame :=
  { Topic := "t/1"
    EncryptedPayload := some
      (sampleNonce.val ++ crypto.demoBox.Seal [] [104, 105] sampleNonce sampleKeyA sampleKeyB)
    SenderKeyID := some (crypto.KeyID sampleKeyA)
    SenderPublicKey := some sampleKeyB.val }

/-- An Unsubscribe frame for the topic `t/1`. -/
def sampleUnsubscribe : proto.Frame :=
  { proto.Frame.zero with
    Typ := proto.FrameTypeUnsubscribe, Unsubscribe := some { Topic := "t/1" } }

/-- What a peer sends that subscribes to `t/1`, unsubscribes from it, and then
sends a body that names the Subscribe type and carries no variant. -/
def sampleStaleStream : List Byte :=
  framed (json.encodeFrame (sampleSubscribe "sensor.Humidity" [3]))
    ++ framed (json.encodeFrame sampleUnsubscribe)
    ++ framed (json.utf8 "\x7b\"t\":2\x7d")

/-- A Publish frame whose payload is `3 * k` zero bytes; its other byte fields
are nil and its strings empty. -/
def largePublishFrame (k : Nat) : proto.Frame :=
  { proto.Frame.zero with
    Typ := proto.FrameTypePublish
    Publish := some
      { Topic := "", Payload := some (List.replicate (3 * k) 0), SchemaID := "",
        RecipientKeyID := none, SenderPublicKey := none } }

/-- An Unsubscribe frame whose topic is the single byte `0xff`, which is no UTF-8. -/
def sampleInvalidTopic : proto.bytes.Frame :=
  { Typ := 3, Publish := none, Subscribe := none,
    Unsubscribe := some { Topic := [0xFF] },
    Message := none, Ack := none, Error := none, Discovery := none }

/-- The sample environment with a dial that gives the session 2. -/
def sampleEnvSecondDial : mesh.Env := { sampleEnv with DialQUIC := fun _ => .ok ⟨2, none⟩ }

/-- The sample client after a Subscribe whose dial gave the session 1 and a
Subscribe whose dial gave the session 2. -/
def sampleClientTwoLoops : client.Client :=
  ((sampleClient.Subscribe sampleEnv "t/1" "sensor.Temperature").1.Subscribe
    sampleEnvSecondDial "t/2" "sensor.Temperature").1

/-! # Properties -/

/-! ## Big-endian lengths and full reads -/

theorem or_shiftLeft_eq_add (a b k : Nat) (h : a < 2 ^ k) : a ||| b <<< k = a + b * 2 ^ k := by
  rw [Nat.or_comm, Nat.shiftLeft_eq, Nat.mul_comm, ← Nat.mul_add_lt_is_or h b, Nat.add_comm]

/-- Reading back a length written by `PutUint32` gives its low 32 bits. -/
theorem Uint32_PutUint32 (v : Nat) :
    binary.BigEndian.Uint32 (binary.BigEndian.PutUint32 v) = v % 2 ^ 32 := by
  simp only [binary.BigEndian.PutUint32, binary.BigEndian.Uint32, byte, Nat.shiftRight_eq_div_pow]
  rw [or_shiftLeft_eq_add _ _ 8 (by omega), or_shiftLeft_eq_add _ _ 16 (by omega),
    or_shiftLeft_eq_add _ _ 24 (by omega)]
  omega

theorem PutUint32_length (v : Nat) : (binary.BigEndian.PutUint32 v).length = 4 := rfl

/-- A full read of the first `n` bytes of a stream that has them. -/
theorem ReadFull_of_le (r : io.Reader) (n : Nat) (h : n ≤ r.length) :
    io.ReadFull r n = (.ok (r.take n), r.drop n) := by
  simp [io.ReadFull, h]

/-- A full read of exactly a leading block. -/
theorem ReadFull_append (a b : List Byte) : io.ReadFull (a ++ b) a.length = (.ok a, b) := by
  rw [ReadFull_of_le _ _ (by simp)]
  simp

/-- A write to a writer that never fails. -/
theorem Write_unbounded (out p : List Byte) :
    io.Writer.Write ⟨out, none⟩ p = (⟨out ++ p, none⟩, none) := rfl

/-- What a successful `Encode` has written: the prefix of the truncated length, then the body. -/
theorem Encode_ok_out (json : JSONLib) (F : proto.Frame) (J : List Byte) (w0 w : io.Writer)
    (hmarshal : json.MarshalFrame F = .ok J) (hencode : proto.Frame.Encode json F w0 = (w, none)) :
    w.out = w0.out ++ binary.BigEndian.PutUint32 (uint32 J.length) ++ J := by
  obtain ⟨out, room⟩ := w0
  simp only [proto.Frame.Encode, hmarshal] at hencode
  cases room with
  | none =>
    simp only [io.Writer.Write, Prod.mk.injEq, and_true] at hencode
    rw [← hencode]
  | some k =>
    simp only [io.Writer.Write, PutUint32_length] at hencode
    by_cases h4 : 4 ≤ k
    · simp only [h4, if_true] at hencode
      by_cases hJ : J.length ≤ k - 4
      · simp only [hJ, if_true, Prod.mk.injEq, and_true] at hencode
        rw [← hencode]
      · simp [hJ] at hencode
    · simp [h4] at hencode

/-- Decoding a stream that starts with a prefix `PutUint32 n`, `n` within the limit, and a body of `n` bytes. -/
theorem Decode_framed (json : JSONLib) (f : proto.Frame) (body rest : List Byte)
    (hsize : body.length ≤ 1024 * 1024) :
    proto.Frame.Decode json f (binary.BigEndian.PutUint32 (uint32 body.length) ++ body ++ rest)
      = ((json.UnmarshalFrame body f).mapError GoError.json, rest) := by
  have hlen : binary.BigEndian.Uint32 (binary.BigEndian.PutUint32 (uint32 body.length))
      = body.length := by
    rw [Uint32_PutUint32, uint32]
    omega
  have h1 : io.ReadFull (binary.BigEndian.PutUint32 (uint32 body.length) ++ body ++ rest) 4
      = (.ok (binary.BigEndian.PutUint32 (uint32 body.length)), body ++ rest) := by
    rw [List.append_assoc]
    exact ReadFull_append (binary.BigEndian.PutUint32 (uint32 body.length)) (body ++ rest)
  simp only [proto.Frame.Decode, h1, hlen, ReadFull_append]
  rw [if_neg (by omega)]

/-! ## The reference JSON model reads back what it writes -/

theorem byte_val (x : Nat) : (byte x).val = x % 256 := rfl

theorem byte_ne_of_val (x k : Nat) (b : Byte) (hb : b.val = k) (h : x % 256 ≠ k) : byte x ≠ b := by
  intro hx
  apply h
  rw [← hb, ← hx, byte_val]

theorem Char_toNat_valid (c : Char) :
    c.toNat < 0xD800 ∨ (0xDFFF < c.toNat ∧ c.toNat < 0x110000) := by
  have h := c.valid
  simp only [UInt32.isValidChar, Nat.isValidChar] at h
  exact h

theorem escapeChar_plain (c : Char) (h1 : 0x20 ≤ c.toNat) (h2 : c.toNat ≠ 0x22)
    (h3 : c.toNat ≠ 0x5C) (h4 : c.toNat ≠ 0x3C) (h5 : c.toNat ≠ 0x3E) (h6 : c.toNat ≠ 0x26)
    (h7 : c.toNat ≠ 0x2028) (h8 : c.toNat ≠ 0x2029) :
    json.escapeChar c = json.utf8EncodeChar c := by
  unfold json.escapeChar
  simp only []
  split_ifs <;> first | rfl | omega

/-- Reading one escaped special character. -/
theorem parseStringBody_special (k : Nat) (hk : k < 0x20 ∨ k = 0x22 ∨ k = 0x5C ∨ k = 0x3C ∨ k = 0x3E
    ∨ k = 0x26 ∨ k = 0x2028 ∨ k = 0x2029) (fuel : Nat) (tail : List Byte) (acc : List Char) :
    json.parseStringBody (fuel + 1) (json.escapeChar (Char.ofNat k) ++ tail) acc
      = json.parseStringBody fuel tail (Char.ofNat k :: acc) := by
  rcases hk with h | h | h | h | h | h | h | h
  · interval_cases k <;> rfl
  all_goals subst h; rfl

theorem Byte_eq_iff_val (a b : Byte) : a = b ↔ a.val = b.val := Fin.ext_iff

theorem decodeRune_utf8EncodeChar (c : Char) (h : 0x80 ≤ c.toNat) (tail : List Byte) :
    json.decodeRune (json.utf8EncodeChar c ++ tail) = (c, tail) := by
  have hv := Char_toNat_valid c
  unfold json.utf8EncodeChar
  simp only []
  rw [if_neg (by omega)]
  by_cases h2 : c.toNat < 0x800
  · rw [if_pos h2]
    simp only [List.cons_append, List.nil_append, json.decodeRune, json.isCont, byte_val]
    rw [if_neg (by omega), if_pos (by omega)]
    simp only [Bool.and_eq_true, decide_eq_true_eq]
    rw [if_pos (by omega)]
    have he : ((0xC0 + c.toNat / 64) % 256 - 0xC0) * 64 + ((0x80 + c.toNat % 64) % 256 - 0x80)
        = c.toNat := by omega
    rw [he, Char.ofNat_toNat]
  · rw [if_neg h2]
    by_cases h3 : c.toNat < 0x10000
    · rw [if_pos h3]
      simp only [List.cons_append, List.nil_append, json.decodeRune, json.isCont, byte_val]
      rw [if_neg (by omega), if_neg (by omega), if_pos (by omega)]
      simp only [Bool.and_eq_true, decide_eq_true_eq]
      rw [if_pos (by split_ifs <;> omega)]
      have he : ((0xE0 + c.toNat / 4096) % 256 - 0xE0) * 4096
          + ((0x80 + c.toNat / 64 % 64) % 256 - 0x80) * 64
          + ((0x80 + c.toNat % 64) % 256 - 0x80) = c.toNat := by omega
      rw [he, Char.ofNat_toNat]
    · rw [if_neg h3]
      simp only [List.cons_append, List.nil_append, json.decodeRune, json.isCont, byte_val]
      rw [if_neg (by omega), if_neg (by omega), if_neg (by omega), if_pos (by omega)]
      simp only [Bool.and_eq_true, decide_eq_true_eq]
      rw [if_pos (by split_ifs <;> omega)]
      have he : ((0xF0 + c.toNat / 262144) % 256 - 0xF0) * 262144
          + ((0x80 + c.toNat / 4096 % 64) % 256 - 0x80) * 4096
          + ((0x80 + c.toNat / 64 % 64) % 256 - 0x80) * 64
          + ((0x80 + c.toNat % 64) % 256 - 0x80) = c.toNat := by omega
      rw [he, Char.ofNat_toNat]

theorem utf8EncodeChar_head (c : Char) (h : 0x80 ≤ c.toNat) :
    ∃ b rest, json.utf8EncodeChar c = b :: rest ∧ 0x80 ≤ b.val := by
  have hv := Char_toNat_valid c
  unfold json.utf8EncodeChar
  simp only []
  rw [if_neg (by omega)]
  split_ifs
  · exact ⟨_, _, rfl, by rw [byte_val]; omega⟩
  · exact ⟨_, _, rfl, by rw [byte_val]; omega⟩
  · exact ⟨_, _, rfl, by rw [byte_val]; omega⟩

theorem parseStringBody_quote (fuel : Nat) (rest : List Byte) (acc : List Char) :
    json.parseStringBody (fuel + 1) (0x22 :: rest) acc = some (String.mk acc.reverse, rest) := by
  rw [json.parseStringBody.eq_def]
  simp

theorem parseStringBody_byte (fuel : Nat) (b : Byte) (rest : List Byte) (acc : List Char)
    (h1 : b ≠ 0x22) (h2 : b ≠ 0x5C) (h3 : 0x20 ≤ b.val) (h4 : b.val < 0x80) :
    json.parseStringBody (fuel + 1) (b :: rest) acc
      = json.parseStringBody fuel rest (Char.ofNat b.val :: acc) := by
  rw [json.parseStringBody.eq_def]
  simp only [h1, h2, if_false]
  rw [if_neg (by omega), if_pos h4]

theorem parseStringBody_rune (fuel : Nat) (b : Byte) (rest : List Byte) (acc : List Char)
    (h : 0x80 ≤ b.val) :
    json.parseStringBody (fuel + 1) (b :: rest) acc
      = json.parseStringBody fuel (json.decodeRune (b :: rest)).2
          ((json.decodeRune (b :: rest)).1 :: acc) := by
  have h1 : b ≠ 0x22 := by intro h'; rw [h'] at h; exact absurd h (by decide)
  have h2 : b ≠ 0x5C := by intro h'; rw [h'] at h; exact absurd h (by decide)
  rw [json.parseStringBody.eq_def]
  simp only [h1, h2, if_false]
  rw [if_neg (by omega), if_neg (by omega)]

/-- Reading one character of a string literal as `Marshal` writes it. -/
theorem parseStringBody_escapeChar (c : Char) (fuel : Nat) (tail : List Byte) (acc : List Char) :
    json.parseStringBody (fuel + 1) (json.escapeChar c ++ tail) acc
      = json.parseStringBody fuel tail (c :: acc) := by
  by_cases hs : c.toNat < 0x20 ∨ c.toNat = 0x22 ∨ c.toNat = 0x5C ∨ c.toNat = 0x3C
      ∨ c.toNat = 0x3E ∨ c.toNat = 0x26 ∨ c.toNat = 0x2028 ∨ c.toNat = 0x2029
  · have h := parseStringBody_special c.toNat hs fuel tail acc
    rw [Char.ofNat_toNat] at h
    exact h
  · rw [escapeChar_plain c (by omega) (by omega) (by omega) (by omega) (by omega) (by omega)
      (by omega) (by omega)]
    by_cases h80 : c.toNat < 0x80
    · have he : json.utf8EncodeChar c = [byte c.toNat] := by
        unfold json.utf8EncodeChar
        simp only []
        rw [if_pos h80]
      have hm : c.toNat % 256 = c.toNat := by omega
      rw [he, List.singleton_append,
        parseStringBody_byte fuel _ tail acc (byte_ne_of_val _ 0x22 _ rfl (by omega))
          (byte_ne_of_val _ 0x5C _ rfl (by omega)) (by rw [byte_val]; omega)
          (by rw [byte_val]; omega),
        byte_val, hm, Char.ofNat_toNat]
    · obtain ⟨b, rest, hb, hge⟩ := utf8EncodeChar_head c (by omega)
      have hd := decodeRune_utf8EncodeChar c (by omega) tail
      rw [hb] at hd ⊢
      rw [List.cons_append] at hd ⊢
      rw [parseStringBody_rune fuel b _ acc hge, hd]

/-- Reading a string literal as `Marshal` writes it. -/
theorem parseStringBody_escaped (s : List Char) (fuel : Nat) (rest : List Byte) (acc : List Char)
    (hfuel : s.length < fuel) :
    json.parseStringBody fuel (s.flatMap json.escapeChar ++ 0x22 :: rest) acc
      = some (String.mk (acc.reverse ++ s), rest) := by
  induction s generalizing fuel acc with
  | nil =>
    obtain ⟨f, rfl⟩ : ∃ f, fuel = f + 1 := ⟨fuel - 1, by simp at hfuel; omega⟩
    simp [parseStringBody_quote]
  | cons c cs ih =>
    obtain ⟨f, rfl⟩ : ∃ f, fuel = f + 1 := ⟨fuel - 1, by simp at hfuel; omega⟩
    rw [List.flatMap_cons, List.append_assoc, parseStringBody_escapeChar,
      ih f (c :: acc) (by simp at hfuel; omega)]
    simp

theorem escapeChar_special_length_pos (k : Nat) (hk : k < 0x20 ∨ k = 0x22 ∨ k = 0x5C ∨ k = 0x3C
    ∨ k = 0x3E ∨ k = 0x26 ∨ k = 0x2028 ∨ k = 0x2029) :
    0 < (json.escapeChar (Char.ofNat k)).length := by
  rcases hk with h | h | h | h | h | h | h | h
  · interval_cases k <;> decide
  all_goals subst h; decide

theorem utf8EncodeChar_length_pos (c : Char) : 0 < (json.utf8EncodeChar c).length := by
  unfold json.utf8EncodeChar
  simp only []
  split_ifs <;> exact Nat.succ_pos _

theorem escapeChar_length_pos (c : Char) : 0 < (json.escapeChar c).length := by
  by_cases hs : c.toNat < 0x20 ∨ c.toNat = 0x22 ∨ c.toNat = 0x5C ∨ c.toNat = 0x3C
      ∨ c.toNat = 0x3E ∨ c.toNat = 0x26 ∨ c.toNat = 0x2028 ∨ c.toNat = 0x2029
  · have h := escapeChar_special_length_pos c.toNat hs
    rw [Char.ofNat_toNat] at h
    exact h
  · rw [escapeChar_plain c (by omega) (by omega) (by omega) (by omega) (by omega) (by omega)
      (by omega) (by omega)]
    exact utf8EncodeChar_length_pos c

theorem length_le_flatMap_escapeChar (s : List Char) :
    s.length ≤ (s.flatMap json.escapeChar).length := by
  induction s with
  | nil => simp
  | cons c cs ih =>
    have := escapeChar_length_pos c
    rw [List.flatMap_cons, List.length_append, List.length_cons]
    omega

theorem ReadsAs.before {txt : List Byte} {v : json.Value} (h : json.ReadsAs txt v) :
    json.ReadsAsBefore txt v := fun fuel rest hf _ => h fuel rest hf

theorem skipWS_cons (b : Byte) (r : List Byte) (h : json.isSpace b = false) :
    json.skipWS (b :: r) = b :: r := by
  simp [json.skipWS, h]

theorem skipWS_delim (rest : List Byte) (h : json.Delim rest) : json.skipWS rest = rest := by
  obtain ⟨b, r, rfl, hb | hb | hb⟩ := h <;> subst hb <;> rfl

theorem parseValue_succ (fuel : Nat) (input : List Byte) :
    json.parseValue (fuel + 1) input =
      match json.skipWS input with
      | [] => none
      | b :: rest =>
        if b = 0x22 then
          match json.parseStringBody (rest.length + 1) rest [] with
          | some (s, rest1) => some (.str s, rest1)
          | none => none
        else if b = 0x7B then
          match json.skipWS rest with
          | [] => none
          | c :: rest1 =>
            if c = 0x7D then some (.obj [], rest1) else json.parseMembers fuel (c :: rest1) []
        else if b = 0x5B then
          match json.skipWS rest with
          | [] => none
          | c :: rest1 =>
            if c = 0x5D then some (.arr [], rest1) else json.parseElems fuel (c :: rest1) []
        else if b = 0x74 then
          (json.dropLiteral (json.utf8 "true") (b :: rest)).map fun r => (.bool true, r)
        else if b = 0x66 then
          (json.dropLiteral (json.utf8 "false") (b :: rest)).map fun r => (.bool false, r)
        else if b = 0x6E then
          (json.dropLiteral (json.utf8 "null") (b :: rest)).map fun r => (.null, r)
        else json.parseNumber (b :: rest) := by
  rw [json.parseValue]

theorem readsAs_string (s : String) : json.ReadsAs (json.encodeString s) (.str s) := by
  intro fuel rest hf
  obtain ⟨f, rfl⟩ : ∃ f, fuel = f + 1 := ⟨fuel - 1, by simp [json.encodeString] at hf; omega⟩
  have hlen := length_le_flatMap_escapeChar s.data
  simp only [json.encodeString, List.append_assoc, List.singleton_append, List.cons_append,
    List.nil_append]
  rw [parseValue_succ, skipWS_cons _ _ (by rfl)]
  simp only [if_true]
  rw [parseStringBody_escaped s.data _ rest [] (by
    rw [List.length_append, List.length_cons]
    omega)]
  simp

theorem readsAs_null : json.ReadsAs (json.utf8 "null") .null := by
  intro fuel rest hf
  obtain ⟨f, rfl⟩ : ∃ f, fuel = f + 1 := ⟨fuel - 1, by
    have : (json.utf8 "null").length = 4 := by decide
    omega⟩
  have hlit : json.utf8 "null" = [0x6E, 0x75, 0x6C, 0x6C] := by decide
  rw [parseValue_succ, hlit]
  simp [json.skipWS, json.isSpace, json.dropLiteral, hlit]

theorem readsAs_bool (b : Bool) : json.ReadsAs (json.encodeBool b) (.bool b) := by
  intro fuel rest hf
  obtain ⟨f, rfl⟩ : ∃ f, fuel = f + 1 := ⟨fuel - 1, by
    have : 4 ≤ (json.encodeBool b).length := by cases b <;> decide
    omega⟩
  have ht : json.utf8 "true" = [0x74, 0x72, 0x75, 0x65] := by decide
  have hf' : json.utf8 "false" = [0x66, 0x61, 0x6C, 0x73, 0x65] := by decide
  cases b
  · have he : json.encodeBool false = [0x66, 0x61, 0x6C, 0x73, 0x65] := by decide
    rw [parseValue_succ, he]
    simp [json.skipWS, json.isSpace, json.dropLiteral, hf']
  · have he : json.encodeBool true = [0x74, 0x72, 0x75, 0x65] := by decide
    rw [parseValue_succ, he]
    simp [json.skipWS, json.isSpace, json.dropLiteral, ht]

theorem toDigitsCore_eq (n : Nat) : ∀ (fuel : Nat) (ds : List Char), n < fuel →
    Nat.toDigitsCore 10 fuel n ds = Nat.toDigitsCore 10 (n + 1) n [] ++ ds := by
  induction n using Nat.strong_induction_on with
  | _ n ih =>
    intro fuel ds hf
    obtain ⟨f, rfl⟩ : ∃ f, fuel = f + 1 := ⟨fuel - 1, by omega⟩
    simp only [Nat.toDigitsCore]
    by_cases h0 : n / 10 = 0
    · simp [h0]
    · simp only [h0, if_false]
      have hlt : n / 10 < n := by omega
      rw [ih (n / 10) hlt f _ (by omega), ih (n / 10) hlt n [Nat.digitChar (n % 10)] hlt]
      simp

theorem toDigits_lt_ten (n : Nat) (h : n < 10) : Nat.toDigits 10 n = [Nat.digitChar n] := by
  have h0 : n / 10 = 0 := by omega
  have hm : n % 10 = n := by omega
  simp [Nat.toDigits, Nat.toDigitsCore, h0, hm]

theorem toDigits_ge_ten (n : Nat) (h : 10 ≤ n) :
    Nat.toDigits 10 n = Nat.toDigits 10 (n / 10) ++ [Nat.digitChar (n % 10)] := by
  have h0 : n / 10 ≠ 0 := by omega
  have hlt : n / 10 < n := by omega
  unfold Nat.toDigits
  conv_lhs => rw [Nat.toDigitsCore]
  simp only [h0, if_false]
  exact toDigitsCore_eq (n / 10) n _ hlt

theorem digitChar_byte (k : Nat) (h : k < 10) : byte (Nat.digitChar k).toNat = byte (0x30 + k) := by
  interval_cases k <;> rfl

theorem spanDigits_digit (k : Nat) (h : k < 10) (tail : List Byte) (cnt v : Nat) :
    json.spanDigits (byte (0x30 + k) :: tail) cnt v = json.spanDigits tail (cnt + 1) (v * 10 + k) := by
  have hd : json.isDigit (byte (0x30 + k)) = true := by
    simp only [json.isDigit, byte_val, Bool.and_eq_true, decide_eq_true_eq]
    omega
  have hv : (byte (0x30 + k)).val - 0x30 = k := by
    rw [byte_val]
    omega
  rw [json.spanDigits, if_pos hd, hv]

/-- The digits that `encodeInt` writes for `n`. -/
theorem spanDigits_toDigits (n : Nat) : ∀ (tail : List Byte) (cnt v : Nat),
    json.spanDigits ((Nat.toDigits 10 n).map (fun c => byte c.toNat) ++ tail) cnt v
      = json.spanDigits tail (cnt + (Nat.toDigits 10 n).length)
          (v * 10 ^ (Nat.toDigits 10 n).length + n) := by
  induction n using Nat.strong_induction_on with
  | _ n ih =>
    intro tail cnt v
    by_cases h : n < 10
    · rw [toDigits_lt_ten n h]
      simp only [List.map_cons, List.map_nil, List.singleton_append, List.length_singleton,
        pow_one]
      rw [digitChar_byte n h, spanDigits_digit n h]
    · have hge : 10 ≤ n := by omega
      rw [toDigits_ge_ten n hge]
      simp only [List.map_append, List.map_cons, List.map_nil, List.append_assoc,
        List.singleton_append, List.length_append, List.length_singleton]
      rw [ih (n / 10) (by omega), digitChar_byte _ (Nat.mod_lt _ (by decide)),
        spanDigits_digit _ (Nat.mod_lt _ (by decide))]
      have e1 : cnt + (Nat.toDigits 10 (n / 10)).length + 1
          = cnt + ((Nat.toDigits 10 (n / 10)).length + 1) := by omega
      have e2 : (v * 10 ^ (Nat.toDigits 10 (n / 10)).length + n / 10) * 10 + n % 10
          = v * 10 ^ ((Nat.toDigits 10 (n / 10)).length + 1) + n := by
        rw [pow_succ, ← Nat.mul_assoc]
        generalize v * 10 ^ (Nat.toDigits 10 (n / 10)).length = q
        omega
      rw [e1, e2]

theorem toDigits_head (n : Nat) :
    ∃ k rest, k < 10 ∧ (n ≠ 0 → k ≠ 0) ∧ (n = 0 → k = 0 ∧ rest = []) ∧
      (Nat.toDigits 10 n).map (fun c => byte c.toNat) = byte (0x30 + k) :: rest := by
  induction n using Nat.strong_induction_on with
  | _ n ih =>
    by_cases h : n < 10
    · refine ⟨n, [], h, fun h0 => h0, fun h0 => ⟨h0, rfl⟩, ?_⟩
      rw [toDigits_lt_ten n h, List.map_cons, List.map_nil, digitChar_byte n h]
    · obtain ⟨k, rest, hk, hk0, _, hd⟩ := ih (n / 10) (by omega)
      refine ⟨k, rest ++ [byte (Nat.digitChar (n % 10)).toNat], hk, fun _ => hk0 (by omega),
        fun h0 => absurd h0 (by omega), ?_⟩
      rw [toDigits_ge_ten n (by omega), List.map_append, hd]
      rfl

theorem spanDigits_delim (b : Byte) (r : List Byte) (hb : b = 0x2C ∨ b = 0x7D ∨ b = 0x5D)
    (cnt v : Nat) : json.spanDigits (b :: r) cnt v = (cnt, v, b :: r) := by
  rcases hb with h | h | h <;> subst h <;> rfl

theorem parseNumber_digits (neg : Bool) (n : Nat) (b : Byte) (r : List Byte)
    (hb : b = 0x2C ∨ b = 0x7D ∨ b = 0x5D) :
    json.parseNumber ((if neg then [0x2D] else []) ++
        ((Nat.toDigits 10 n).map (fun c => byte c.toNat) ++ b :: r))
      = some (.num neg n 0 true, b :: r) := by
  obtain ⟨k, drest, hk, hk0, hk1, hd⟩ := toDigits_head n
  have hspan := spanDigits_toDigits n (b :: r) 0 0
  rw [hd] at hspan ⊢
  rw [spanDigits_delim b r hb] at hspan
  have hdig : json.isDigit (byte (0x30 + k)) = true := by
    simp only [json.isDigit, byte_val, Bool.and_eq_true, decide_eq_true_eq]
    omega
  have hne : byte (0x30 + k) ≠ 0x2D := byte_ne_of_val _ 0x2D _ rfl (by omega)
  have hb1 : b ≠ 0x2E := by rcases hb with h | h | h <;> subst h <;> decide
  have hb2 : b ≠ 0x65 := by rcases hb with h | h | h <;> subst h <;> decide
  have hb3 : b ≠ 0x45 := by rcases hb with h | h | h <;> subst h <;> decide
  unfold json.parseNumber
  cases neg
  · simp only [Bool.false_eq_true, if_false, List.nil_append, List.cons_append, hne, hdig]
    by_cases h0 : n = 0
    · obtain ⟨hk0', hdr⟩ := hk1 h0
      subst hk0' hdr h0
      have hz0 : byte 48 = (0x30 : Byte) := rfl
      have hd0 : json.isDigit (0x30 : Byte) = true := by decide
      simp [hz0, hd0, hb1, hb2, hb3]
    · have hz : byte (0x30 + k) ≠ 0x30 := byte_ne_of_val _ 0x30 _ rfl (by have := hk0 h0; omega)
      simp only [List.cons_append] at hspan
      simp [hz, hdig, hspan, hb1, hb2, hb3]
  · simp only [if_true, List.singleton_append, List.cons_append, hdig]
    by_cases h0 : n = 0
    · obtain ⟨hk0', hdr⟩ := hk1 h0
      subst hk0' hdr h0
      have hz0 : byte 48 = (0x30 : Byte) := rfl
      have hd0 : json.isDigit (0x30 : Byte) = true := by decide
      simp [hz0, hd0, hb1, hb2, hb3]
    · have hz : byte (0x30 + k) ≠ 0x30 := byte_ne_of_val _ 0x30 _ rfl (by have := hk0 h0; omega)
      simp only [List.cons_append] at hspan
      simp [hz, hdig, hspan, hb1, hb2, hb3]

theorem encodeInt_eq (v : Int) :
    json.encodeInt v = (if decide (v < 0) then [0x2D] else [])
      ++ (Nat.toDigits 10 v.natAbs).map (fun c => byte c.toNat) := by
  unfold json.encodeInt
  by_cases h : v < 0 <;> simp [h]

theorem readsAs_int (v : Int) :
    json.ReadsAsBefore (json.encodeInt v) (.num (decide (v < 0)) v.natAbs 0 true) := by
  intro fuel rest hf hdelim
  obtain ⟨b, r, rfl, hb⟩ := hdelim
  obtain ⟨k, drest, hk, _, _, hd⟩ := toDigits_head v.natAbs
  have hnum := parseNumber_digits (decide (v < 0)) v.natAbs b r hb
  rw [encodeInt_eq] at hf ⊢
  rw [List.append_assoc]
  obtain ⟨f, rfl⟩ : ∃ f, fuel = f + 1 := ⟨fuel - 1, by
    rw [hd] at hf
    simp only [List.length_append, List.length_cons] at hf
    omega⟩
  rw [parseValue_succ]
  rw [hd] at hnum ⊢
  have hv : (byte (0x30 + k)).val = 0x30 + k := by rw [byte_val]; omega
  cases hneg : decide (v < 0)
  · rw [hneg] at hnum
    simp only [Bool.false_eq_true, if_false, List.nil_append, List.cons_append] at hnum ⊢
    rw [skipWS_cons _ _ (by simp [json.isSpace, Byte_eq_iff_val, hv]; omega)]
    simp only []
    rw [if_neg (byte_ne_of_val _ 0x22 _ rfl (by omega)),
      if_neg (byte_ne_of_val _ 0x7B _ rfl (by omega)),
      if_neg (byte_ne_of_val _ 0x5B _ rfl (by omega)),
      if_neg (byte_ne_of_val _ 0x74 _ rfl (by omega)),
      if_neg (byte_ne_of_val _ 0x66 _ rfl (by omega)),
      if_neg (byte_ne_of_val _ 0x6E _ rfl (by omega))]
    exact hnum
  · rw [hneg] at hnum
    simp only [if_true, List.singleton_append, List.cons_append] at hnum ⊢
    rw [skipWS_cons _ _ (by decide)]
    simp only []
    rw [if_neg (by decide), if_neg (by decide), if_neg (by decide), if_neg (by decide),
      if_neg (by decide), if_neg (by decide)]
    exact hnum

/-! ### Objects and arrays -/

theorem intercalate_singleton (sep x : List Byte) : List.intercalate sep [x] = x := by
  simp [List.intercalate, List.intersperse]

theorem intercalate_cons_cons (sep x y : List Byte) (l : List (List Byte)) :
    List.intercalate sep (x :: y :: l) = x ++ sep ++ List.intercalate sep (y :: l) := by
  simp [List.intercalate, List.intersperse]

theorem parseMembers_succ (fuel : Nat) (input : List Byte) (acc : List (String × json.Value)) :
    json.parseMembers (fuel + 1) input acc =
      match json.skipWS input with
      | [] => none
      | q :: rest =>
        if q ≠ 0x22 then none
        else
          match json.parseStringBody (rest.length + 1) rest [] with
          | none => none
          | some (k, rest1) =>
            match json.skipWS rest1 with
            | [] => none
            | colon :: rest2 =>
              if colon ≠ 0x3A then none
              else
                match json.parseValue fuel rest2 with
                | none => none
                | some (v, rest3) =>
                  match json.skipWS rest3 with
                  | [] => none
                  | d :: rest4 =>
                    if d = 0x2C then json.parseMembers fuel rest4 ((k, v) :: acc)
                    else if d = 0x7D then some (.obj ((k, v) :: acc).reverse, rest4)
                    else none := by
  rw [json.parseMembers]

theorem parseElems_succ (fuel : Nat) (input : List Byte) (acc : List json.Value) :
    json.parseElems (fuel + 1) input acc =
      match json.parseValue fuel input with
      | none => none
      | some (v, rest1) =>
        match json.skipWS rest1 with
        | [] => none
        | d :: rest2 =>
          if d = 0x2C then json.parseElems fuel rest2 (v :: acc)
          else if d = 0x5D then some (.arr (v :: acc).reverse, rest2)
          else none := by
  rw [json.parseElems]

/-- Reading one member `"key":value` followed by the delimiter `d`. -/
theorem parseMembers_member (fuel : Nat) (key : String) (txt : List Byte) (v : json.Value)
    (d : Byte) (tail : List Byte) (acc : List (String × json.Value))
    (hv : json.ReadsAsBefore txt v) (hfuel : txt.length ≤ fuel) (hd : d = 0x2C ∨ d = 0x7D) :
    json.parseMembers (fuel + 1) (json.member key txt ++ d :: tail) acc =
      if d = 0x2C then json.parseMembers fuel tail ((key, v) :: acc)
      else some (.obj ((key, v) :: acc).reverse, tail) := by
  have hlen := length_le_flatMap_escapeChar key.data
  have hdelim : json.Delim (d :: tail) :=
    ⟨d, tail, rfl, by rcases hd with h | h; exact Or.inl h; exact Or.inr (Or.inl h)⟩
  rw [parseMembers_succ]
  simp only [json.member, json.encodeString, List.append_assoc, List.singleton_append,
    List.cons_append, List.nil_append]
  rw [skipWS_cons _ _ (by rfl)]
  simp only [ne_eq, not_true_eq_false, if_false]
  rw [parseStringBody_escaped key.data _ _ [] (by
    rw [List.length_append, List.length_cons]
    omega)]
  simp only [List.reverse_nil, List.nil_append]
  rw [skipWS_cons _ _ (by rfl)]
  simp only [ne_eq, not_true_eq_false, if_false]
  rw [hv fuel (d :: tail) hfuel hdelim]
  simp only []
  rw [skipWS_delim _ hdelim]
  rcases hd with h | h
  · subst h
    simp
  · subst h
    simp

theorem member_length (key : String) (txt : List Byte) :
    (json.member key txt).length = (json.encodeString key).length + 1 + txt.length := by
  simp only [json.member, List.length_append, List.length_singleton]

theorem encodeString_length_ge (s : String) : 2 ≤ (json.encodeString s).length := by
  simp only [json.encodeString, List.length_append, List.length_singleton]
  omega

theorem parseValue_object (f : Nat) (c : Byte) (rest1 : List Byte) (h1 : json.isSpace c = false)
    (h2 : c ≠ 0x7D) :
    json.parseValue (f + 1) (0x7B :: c :: rest1) = json.parseMembers f (c :: rest1) [] := by
  rw [parseValue_succ, skipWS_cons _ _ (by rfl)]
  simp only []
  rw [skipWS_cons _ _ h1]
  simp [h2]

theorem parseValue_array (f : Nat) (c : Byte) (rest1 : List Byte) (h1 : json.isSpace c = false)
    (h2 : c ≠ 0x5D) :
    json.parseValue (f + 1) (0x5B :: c :: rest1) = json.parseElems f (c :: rest1) [] := by
  rw [parseValue_succ, skipWS_cons _ _ (by rfl)]
  simp only []
  rw [skipWS_cons _ _ h1]
  simp [h2]

theorem parseValue_empty_array (f : Nat) (rest : List Byte) :
    json.parseValue (f + 1) (0x5B :: 0x5D :: rest) = some (.arr [], rest) := by
  rw [parseValue_succ, skipWS_cons _ _ (by rfl)]
  simp only []
  rw [skipWS_cons _ _ (by rfl)]
  simp

theorem member_eq_cons (key : String) (txt : List Byte) :
    json.member key txt = 0x22 :: (key.data.flatMap json.escapeChar ++ 0x22 :: 0x3A :: txt) := by
  simp only [json.member, json.encodeString, List.append_assoc, List.singleton_append,
    List.cons_append, List.nil_append]

theorem encodeString_eq_cons (s : String) :
    json.encodeString s = 0x22 :: (s.data.flatMap json.escapeChar ++ [0x22]) := by
  simp only [json.encodeString, List.append_assoc, List.singleton_append, List.cons_append,
    List.nil_append]

/-- Reading the members of an object, after the opening brace. -/
theorem parseMembers_list (es : List (String × List Byte × json.Value)) (hne : es ≠ [])
    (hall : ∀ e ∈ es, json.ReadsAsBefore e.2.1 e.2.2) :
    ∀ (fuel : Nat) (acc : List (String × json.Value)) (rest : List Byte),
      (List.intercalate [0x2C] (es.map fun e => json.member e.1 e.2.1)).length + 1 ≤ fuel →
      json.parseMembers fuel
          (List.intercalate [0x2C] (es.map fun e => json.member e.1 e.2.1) ++ 0x7D :: rest) acc
        = some (.obj (acc.reverse ++ es.map fun e => (e.1, e.2.2)), rest) := by
  induction es with
  | nil => exact absurd rfl hne
  | cons e es ih =>
    intro fuel acc rest hf
    have he := hall e (List.mem_cons_self _ _)
    have hk := encodeString_length_ge e.1
    cases es with
    | nil =>
      simp only [List.map_cons, List.map_nil, intercalate_singleton] at hf ⊢
      obtain ⟨f, rfl⟩ : ∃ f, fuel = f + 1 := ⟨fuel - 1, by omega⟩
      rw [member_length] at hf
      rw [parseMembers_member f e.1 e.2.1 e.2.2 0x7D rest acc he (by omega) (Or.inr rfl)]
      simp
    | cons e2 es2 =>
      simp only [List.map_cons, intercalate_cons_cons] at hf ⊢
      obtain ⟨f, rfl⟩ : ∃ f, fuel = f + 1 := ⟨fuel - 1, by omega⟩
      rw [List.length_append, List.length_append, member_length] at hf
      simp only [List.length_singleton] at hf
      rw [List.append_assoc, List.append_assoc, List.singleton_append,
        parseMembers_member f e.1 e.2.1 e.2.2 0x2C _ acc he (by omega) (Or.inl rfl)]
      simp only [if_true]
      have hih := ih (by simp) (fun x hx => hall x (List.mem_cons_of_mem _ hx)) f
        ((e.1, e.2.2) :: acc) rest (by
          simp only [List.map_cons]
          omega)
      simp only [List.map_cons] at hih
      rw [hih]
      simp

/-- An object of members whose values read back reads back as the object of these values. -/
theorem readsAs_object (es : List (String × List Byte × json.Value)) (hne : es ≠ [])
    (hall : ∀ e ∈ es, json.ReadsAsBefore e.2.1 e.2.2) :
    json.ReadsAs (json.object (es.map fun e => json.member e.1 e.2.1))
      (.obj (es.map fun e => (e.1, e.2.2))) := by
  intro fuel rest hf
  obtain ⟨e, es', rfl⟩ : ∃ e es', es = e :: es' := by
    cases es with
    | nil => exact absurd rfl hne
    | cons e es' => exact ⟨e, es', rfl⟩
  have hpm := parseMembers_list (e :: es') hne hall
  obtain ⟨f, rfl⟩ : ∃ f, fuel = f + 1 := ⟨fuel - 1, by
    simp only [json.object, List.length_append, List.length_singleton] at hf
    omega⟩
  have hstart : ∃ tl, List.intercalate [0x2C] ((e :: es').map fun e => json.member e.1 e.2.1)
      = 0x22 :: tl := by
    cases es' with
    | nil =>
      refine ⟨e.1.data.flatMap json.escapeChar ++ 0x22 :: 0x3A :: e.2.1, ?_⟩
      rw [List.map_cons, List.map_nil, intercalate_singleton, member_eq_cons]
    | cons e2 es2 =>
      refine ⟨(e.1.data.flatMap json.escapeChar ++ 0x22 :: 0x3A :: e.2.1) ++ [0x2C]
        ++ List.intercalate [0x2C] ((e2 :: es2).map fun e => json.member e.1 e.2.1), ?_⟩
      simp only [List.map_cons, intercalate_cons_cons, member_eq_cons, List.cons_append,
        List.append_assoc, List.nil_append, List.singleton_append]
  obtain ⟨tl, htl⟩ := hstart
  have hpm' := hpm f [] rest (by
    simp only [json.object, List.length_append, List.length_singleton] at hf
    omega)
  simp only [json.object, List.append_assoc, List.singleton_append, List.cons_append,
    List.nil_append]
  rw [htl] at hpm' ⊢
  rw [List.cons_append] at hpm' ⊢
  rw [parseValue_object f _ _ (by rfl) (by decide), hpm']
  simp

/-- Reading the elements of an array of strings, after the opening bracket. -/
theorem parseElems_strings (l : List String) (hne : l ≠ []) :
    ∀ (fuel : Nat) (acc : List json.Value) (rest : List Byte),
      (List.intercalate [0x2C] (l.map json.encodeString)).length + 1 ≤ fuel →
      json.parseElems fuel (List.intercalate [0x2C] (l.map json.encodeString) ++ 0x5D :: rest) acc
        = some (.arr (acc.reverse ++ l.map json.Value.str), rest) := by
  induction l with
  | nil => exact absurd rfl hne
  | cons s l ih =>
    intro fuel acc rest hf
    have hk := encodeString_length_ge s
    cases l with
    | nil =>
      simp only [List.map_cons, List.map_nil, intercalate_singleton] at hf ⊢
      obtain ⟨f, rfl⟩ : ∃ f, fuel = f + 1 := ⟨fuel - 1, by omega⟩
      rw [parseElems_succ, readsAs_string s f _ (by omega)]
      simp only []
      rw [skipWS_cons _ _ (by rfl)]
      simp
    | cons s2 l2 =>
      simp only [List.map_cons, intercalate_cons_cons] at hf ⊢
      obtain ⟨f, rfl⟩ : ∃ f, fuel = f + 1 := ⟨fuel - 1, by omega⟩
      rw [List.length_append, List.length_append] at hf
      simp only [List.length_singleton] at hf
      rw [List.append_assoc, List.append_assoc, List.singleton_append, parseElems_succ,
        readsAs_string s f _ (by omega)]
      simp only []
      rw [skipWS_cons _ _ (by rfl)]
      simp only [if_true]
      have hih := ih (by simp) f (.str s :: acc) rest (by
        simp only [List.map_cons]
        omega)
      simp only [List.map_cons] at hih
      rw [hih]
      simp

theorem readsAs_strings (l : Option (List String)) :
    json.ReadsAs (json.encodeStrings l)
      (match l with
        | none => .null
        | some l => .arr (l.map json.Value.str)) := by
  cases l with
  | none => exact readsAs_null
  | some l =>
    intro fuel rest hf
    obtain ⟨f, rfl⟩ : ∃ f, fuel = f + 1 := ⟨fuel - 1, by
      simp only [json.encodeStrings, List.length_append, List.length_singleton] at hf
      omega⟩
    simp only [json.encodeStrings, List.append_assoc, List.singleton_append, List.cons_append,
      List.nil_append]
    cases l with
    | nil =>
      simp only [List.map_nil, List.intercalate, List.intersperse, List.flatten, List.nil_append]
      rw [parseValue_empty_array]
    | cons s l =>
      have hstart : ∃ tl, List.intercalate [0x2C] ((s :: l).map json.encodeString) = 0x22 :: tl := by
        cases l with
        | nil =>
          refine ⟨s.data.flatMap json.escapeChar ++ [0x22], ?_⟩
          rw [List.map_cons, List.map_nil, intercalate_singleton, encodeString_eq_cons]
        | cons s2 l2 =>
          refine ⟨(s.data.flatMap json.escapeChar ++ [0x22]) ++ [0x2C]
            ++ List.intercalate [0x2C] ((s2 :: l2).map json.encodeString), ?_⟩
          simp only [List.map_cons, intercalate_cons_cons, encodeString_eq_cons,
            List.cons_append, List.append_assoc, List.nil_append, List.singleton_append]
      obtain ⟨tl, htl⟩ := hstart
      have hpe := parseElems_strings (s :: l) (by simp) f [] rest (by
        simp only [json.encodeStrings, List.length_append, List.length_singleton] at hf
        omega)
      rw [htl] at hpe ⊢
      rw [List.cons_append] at hpe ⊢
      rw [parseValue_array f _ _ (by rfl) (by decide), hpe]
      simp

theorem Char_toNat_ofNat (n : Nat) (h : n < 0x80) : (Char.ofNat n).toNat = n := by
  have hv : n.isValidChar := Or.inl (by omega)
  simp only [Char.ofNat, hv, dite_true, Char.ofNatAux, Char.toNat]
  rfl

/-! ### Base64 -/

theorem b64Char_val (n : Nat) :
    (json.b64Char n).val =
      if n < 26 then 0x41 + n else if n < 52 then 0x61 + (n - 26)
      else if n < 62 then 0x30 + (n - 52) else if n = 62 then 0x2B else 0x2F := by
  unfold json.b64Char
  split_ifs <;> first | rfl | (rw [byte_val]; omega)

theorem b64Char_isB64 (n : Nat) : json.IsB64 (json.b64Char n) := by
  unfold json.IsB64
  rw [b64Char_val]
  split_ifs <;> omega

theorem b64Char_ne_pad (n : Nat) : json.b64Char n ≠ 0x3D := by
  intro h
  have hv := congrArg Fin.val h
  rw [b64Char_val] at hv
  have h3 : ((0x3D : Byte)).val = 0x3D := rfl
  rw [h3] at hv
  split_ifs at hv <;> omega

theorem b64Val_eq (b : Byte) :
    json.b64Val b =
      if 0x41 ≤ b.val ∧ b.val ≤ 0x5A then some (b.val - 0x41)
      else if 0x61 ≤ b.val ∧ b.val ≤ 0x7A then some (b.val - 0x61 + 26)
      else if 0x30 ≤ b.val ∧ b.val ≤ 0x39 then some (b.val - 0x30 + 52)
      else if b.val = 0x2B then some 62
      else if b.val = 0x2F then some 63
      else none := by
  unfold json.b64Val
  simp only [Byte_eq_iff_val]
  rfl

theorem b64Val_b64Char (n : Nat) (h : n < 64) : json.b64Val (json.b64Char n) = some n := by
  rw [b64Val_eq, b64Char_val]
  by_cases h1 : n < 26
  · rw [if_pos h1, if_pos (by omega)]
    congr 1
    omega
  · rw [if_neg h1]
    by_cases h2 : n < 52
    · rw [if_pos h2, if_neg (by omega), if_pos (by omega)]
      congr 1
      omega
    · rw [if_neg h2]
      by_cases h3 : n < 62
      · rw [if_pos h3, if_neg (by omega), if_neg (by omega), if_pos (by omega)]
        congr 1
        omega
      · rw [if_neg h3]
        by_cases h4 : n = 62
        · rw [if_pos h4, if_neg (by omega), if_neg (by omega), if_neg (by omega), if_pos rfl, h4]
        · rw [if_neg h4, if_neg (by omega), if_neg (by omega), if_neg (by omega),
            if_neg (by omega), if_pos rfl]
          congr 1
          omega

theorem b64Encode_isB64 (l : List Byte) : ∀ b ∈ json.b64Encode l, json.IsB64 b := by
  have hpad : json.IsB64 (0x3D : Byte) := by unfold json.IsB64; decide
  induction l using json.b64Encode.induct with
  | case1 => simp [json.b64Encode]
  | case2 a =>
    intro b hb
    simp only [json.b64Encode, List.mem_cons, List.mem_singleton, List.not_mem_nil, or_false] at hb
    rcases hb with h | h | h | h <;> subst h <;> first | exact b64Char_isB64 _ | exact hpad
  | case3 a b =>
    intro x hx
    simp only [json.b64Encode, List.mem_cons, List.mem_singleton, List.not_mem_nil, or_false] at hx
    rcases hx with h | h | h | h <;> subst h <;> first | exact b64Char_isB64 _ | exact hpad
  | case4 a b c rest ih =>
    intro x hx
    simp only [json.b64Encode, List.cons_append, List.nil_append, List.mem_cons] at hx
    rcases hx with h | h | h | h | h
    · subst h; exact b64Char_isB64 _
    · subst h; exact b64Char_isB64 _
    · subst h; exact b64Char_isB64 _
    · subst h; exact b64Char_isB64 _
    · exact ih x h

theorem byte_eq_of_val (x : Nat) (a : Byte) (h : x = a.val) : byte x = a := by
  apply Fin.ext
  rw [byte_val, h]
  exact Nat.mod_eq_of_lt a.isLt

theorem b64DecodeQuads_encode (l : List Byte) : json.b64DecodeQuads (json.b64Encode l) = some l := by
  induction l using json.b64Encode.induct with
  | case1 => rfl
  | case2 a =>
    have ha := a.isLt
    simp only [json.b64Encode, json.b64DecodeQuads, b64Val_b64Char (a.val / 4) (by omega),
      b64Val_b64Char (a.val % 4 * 16) (by omega), if_true]
    rw [byte_eq_of_val _ a (by omega)]
  | case3 a b =>
    have ha := a.isLt
    have hb := b.isLt
    simp only [json.b64Encode, json.b64DecodeQuads, b64Val_b64Char (a.val / 4) (by omega),
      b64Val_b64Char (a.val % 4 * 16 + b.val / 16) (by omega),
      b64Val_b64Char (b.val % 16 * 4) (by omega), b64Char_ne_pad, if_true, if_false]
    rw [byte_eq_of_val _ a (by omega), byte_eq_of_val _ b (by omega)]
  | case4 a b c rest ih =>
    have ha := a.isLt
    have hb := b.isLt
    have hc := c.isLt
    have h1 := b64Val_b64Char (a.val / 4) (by omega)
    have h2 := b64Val_b64Char (a.val % 4 * 16 + b.val / 16) (by omega)
    have h3 := b64Val_b64Char (b.val % 16 * 4 + c.val / 64) (by omega)
    have h4 := b64Val_b64Char (c.val % 64) (by omega)
    have e1 := byte_eq_of_val ((a.val / 4) * 4 + (a.val % 4 * 16 + b.val / 16) / 16) a (by omega)
    have e2 := byte_eq_of_val ((a.val % 4 * 16 + b.val / 16) % 16 * 16
      + (b.val % 16 * 4 + c.val / 64) / 4) b (by omega)
    have e3 := byte_eq_of_val ((b.val % 16 * 4 + c.val / 64) % 4 * 64 + c.val % 64) c (by omega)
    rw [json.b64Encode]
    cases hrest : json.b64Encode rest with
    | nil =>
      rw [hrest] at ih
      have hr : rest = [] := by
        simp only [json.b64DecodeQuads, Option.some.injEq] at ih
        exact ih.symm
      subst hr
      simp only [List.append_nil, json.b64DecodeQuads, h1, h2, h3, h4, b64Char_ne_pad, if_false,
        e1, e2, e3]
    | cons x xs =>
      rw [hrest] at ih
      simp only [List.cons_append, List.nil_append, json.b64DecodeQuads, h1, h2, h3, h4, ih,
        e1, e2, e3]

theorem IsB64_lt {b : Byte} (h : json.IsB64 b) : b.val < 0x80 := by
  unfold json.IsB64 at h
  omega

theorem escapeChar_b64 (b : Byte) (h : json.IsB64 b) :
    json.escapeChar (Char.ofNat b.val) = [b] := by
  have hlt := IsB64_lt h
  have hn := Char_toNat_ofNat b.val hlt
  unfold json.IsB64 at h
  rw [escapeChar_plain _ (by omega) (by omega) (by omega) (by omega) (by omega) (by omega)
    (by omega) (by omega)]
  unfold json.utf8EncodeChar
  simp only []
  rw [if_pos (by omega), hn, byte_eq_of_val _ b rfl]

theorem utf8EncodeChar_b64 (b : Byte) (h : json.IsB64 b) :
    json.utf8EncodeChar (Char.ofNat b.val) = [b] := by
  have hlt := IsB64_lt h
  have hn := Char_toNat_ofNat b.val hlt
  unfold json.utf8EncodeChar
  simp only []
  rw [if_pos (by omega), hn, byte_eq_of_val _ b rfl]

theorem flatMap_escapeChar_b64 (l : List Byte) (h : ∀ b ∈ l, json.IsB64 b) :
    (l.map fun x => Char.ofNat x.val).flatMap json.escapeChar = l := by
  induction l with
  | nil => rfl
  | cons b l ih =>
    rw [List.map_cons, List.flatMap_cons, escapeChar_b64 b (h b (List.mem_cons_self _ _)),
      ih (fun x hx => h x (List.mem_cons_of_mem _ hx))]
    rfl

theorem flatMap_utf8EncodeChar_b64 (l : List Byte) (h : ∀ b ∈ l, json.IsB64 b) :
    (l.map fun x => Char.ofNat x.val).flatMap json.utf8EncodeChar = l := by
  induction l with
  | nil => rfl
  | cons b l ih =>
    rw [List.map_cons, List.flatMap_cons, utf8EncodeChar_b64 b (h b (List.mem_cons_self _ _)),
      ih (fun x hx => h x (List.mem_cons_of_mem _ hx))]
    rfl

theorem readsAs_bytes (x : Option (List Byte)) :
    json.ReadsAs (json.encodeBytes x) (json.valueOfBytes x) := by
  cases x with
  | none => exact readsAs_null
  | some b =>
    have h := readsAs_string (String.mk ((json.b64Encode b).map fun x => Char.ofNat x.val))
    simp only [json.encodeString, flatMap_escapeChar_b64 _ (b64Encode_isB64 b)] at h
    exact h

theorem filter_b64 (l : List Byte) (h : ∀ b ∈ l, json.IsB64 b) :
    (l.filter fun b => decide (b ≠ 0x0A ∧ b ≠ 0x0D)) = l := by
  rw [List.filter_eq_self]
  intro b hb
  have hb' := h b hb
  unfold json.IsB64 at hb'
  simp only [ne_eq, Byte_eq_iff_val, decide_eq_true_eq]
  have h1 : ((0x0A : Byte)).val = 0x0A := rfl
  have h2 : ((0x0D : Byte)).val = 0x0D := rfl
  rw [h1, h2]
  omega

theorem decodeBytes_valueOfBytes (x old : Option (List Byte)) :
    json.decodeBytes (json.valueOfBytes x) old = .ok x := by
  cases x with
  | none => rfl
  | some b =>
    simp only [json.valueOfBytes, json.decodeBytes, json.utf8, json.b64Decode,
      flatMap_utf8EncodeChar_b64 _ (b64Encode_isB64 b), filter_b64 _ (b64Encode_isB64 b),
      b64DecodeQuads_encode]

theorem decodeElems_decodeString (l old : List String) :
    json.decodeElems "" json.decodeString (l.map json.Value.str) old = .ok l := by
  induction l generalizing old with
  | nil => rfl
  | cons s l ih =>
    rw [List.map_cons, json.decodeElems]
    simp only [json.decodeString, ih]
    rfl

theorem decodeStrings_valueOfStrings (x old : Option (List String)) :
    json.decodeStrings (json.valueOfStrings x) old = .ok x := by
  cases x with
  | none => rfl
  | some l =>
    simp only [json.valueOfStrings, json.decodeStrings, decodeElems_decodeString]
    rfl

theorem decodeInt64_valueOfInt (v old : Int) (h1 : - (2 : Int) ^ 63 ≤ v) (h2 : v < (2 : Int) ^ 63) :
    json.decodeInt64 (json.valueOfInt v) old = .ok v := by
  have hv : (if decide (v < 0) = true then - (v.natAbs : Int) else (v.natAbs : Int)) = v := by
    by_cases h : v < 0
    · simp only [h, decide_True, if_true]
      omega
    · simp only [h, decide_False, Bool.false_eq_true, if_false]
      omega
  simp only [json.valueOfInt, json.decodeInt64, hv]
  rw [if_pos ⟨trivial, h1, h2⟩]

theorem readsAs_valueOfStrings (x : Option (List String)) :
    json.ReadsAs (json.encodeStrings x) (json.valueOfStrings x) := by
  have h := readsAs_strings x
  cases x <;> exact h

theorem readsAs_object_entries (es : List json.Entry) (hne : es ≠ [])
    (hall : ∀ e ∈ es, json.ReadsAsBefore e.2.1 e.2.2) :
    json.ReadsAs (json.object (es.map json.entryText)) (.obj (es.map json.entryValue)) :=
  readsAs_object es hne hall

theorem omitempty_eq {α : Type} (name : String) (enc : α → List Byte) (val : α → json.Value)
    (o : Option α) :
    json.omitempty name enc o = (json.optEntry name enc val o).map json.entryText := by
  cases o <;> rfl

theorem encodePublish_eq (x : proto.PublishFrame) :
    json.encodePublish x = json.object ((json.publishEntries x).map json.entryText) := rfl

theorem readsAs_publish (x : proto.PublishFrame) :
    json.ReadsAs (json.encodePublish x) (json.publishValue x) := by
  rw [encodePublish_eq]
  apply readsAs_object_entries _ (by simp [json.publishEntries])
  intro e he
  simp only [json.publishEntries, List.mem_cons, List.mem_singleton, List.not_mem_nil,
    or_false] at he
  rcases he with h | h | h | h | h <;> subst h
  · exact ReadsAs.before (readsAs_string _)
  · exact ReadsAs.before (readsAs_bytes _)
  · exact ReadsAs.before (readsAs_string _)
  · exact ReadsAs.before (readsAs_bytes _)
  · exact ReadsAs.before (readsAs_bytes _)

theorem decode_publish (x : proto.PublishFrame) :
    ((json.publishEntries x).map json.entryValue).foldlM json.setPublishField ⟨"", none, "", none, none⟩ = .ok x := by
  simp only [json.publishEntries, List.map_cons, List.map_nil, json.entryValue, List.foldlM_cons,
    List.foldlM_nil]
  have h1 : ∀ (q : proto.PublishFrame) v, json.setPublishField q ("topic", v)
      = (json.decodeString v q.Topic).map fun y => { q with Topic := y } := fun _ _ => rfl
  have h2 : ∀ (q : proto.PublishFrame) v, json.setPublishField q ("payload", v)
      = (json.decodeBytes v q.Payload).map fun y => { q with Payload := y } := fun _ _ => rfl
  have h3 : ∀ (q : proto.PublishFrame) v, json.setPublishField q ("schema_id", v)
      = (json.decodeString v q.SchemaID).map fun y => { q with SchemaID := y } := fun _ _ => rfl
  have h4 : ∀ (q : proto.PublishFrame) v, json.setPublishField q ("recipient_key_id", v)
      = (json.decodeBytes v q.RecipientKeyID).map fun y => { q with RecipientKeyID := y } := fun _ _ => rfl
  have h5 : ∀ (q : proto.PublishFrame) v, json.setPublishField q ("sender_public_key", v)
      = (json.decodeBytes v q.SenderPublicKey).map fun y => { q with SenderPublicKey := y } := fun _ _ => rfl
  simp only [h1, h2, h3, h4, h5, json.decodeString, json.decodeBool, decodeBytes_valueOfBytes,
    decodeStrings_valueOfStrings, Except.map, bind, Except.bind, pure, Except.pure]

theorem encodeSubscribe_eq (x : proto.SubscribeFrame) :
    json.encodeSubscribe x = json.object ((json.subscribeEntries x).map json.entryText) := rfl

theorem readsAs_subscribe (x : proto.SubscribeFrame) :
    json.ReadsAs (json.encodeSubscribe x) (json.subscribeValue x) := by
  rw [encodeSubscribe_eq]
  apply readsAs_object_entries _ (by simp [json.subscribeEntries])
  intro e he
  simp only [json.subscribeEntries, List.mem_cons, List.mem_singleton, List.not_mem_nil,
    or_false] at he
  rcases he with h | h | h <;> subst h
  · exact ReadsAs.before (readsAs_string _)
  · exact ReadsAs.before (readsAs_string _)
  · exact ReadsAs.before (readsAs_bytes _)

theorem decode_subscribe (x : proto.SubscribeFrame) :
    ((json.subscribeEntries x).map json.entryValue).foldlM json.setSubscribeField ⟨"", "", none⟩ = .ok x := by
  simp only [json.subscribeEntries, List.map_cons, List.map_nil, json.entryValue, List.foldlM_cons,
    List.foldlM_nil]
  have h1 : ∀ (q : proto.SubscribeFrame) v, json.setSubscribeField q ("topic", v)
      = (json.decodeString v q.Topic).map fun y => { q with Topic := y } := fun _ _ => rfl
  have h2 : ∀ (q : proto.SubscribeFrame) v, json.setSubscribeField q ("schema_id", v)
      = (json.decodeString v q.SchemaID).map fun y => { q with SchemaID := y } := fun _ _ => rfl
  have h3 : ∀ (q : proto.SubscribeFrame) v, json.setSubscribeField q ("public_key", v)
      = (json.decodeBytes v q.PublicKey).map fun y => { q with PublicKey := y } := fun _ _ => rfl
  simp only [h1, h2, h3, json.decodeString, json.decodeBool, decodeBytes_valueOfBytes,
    decodeStrings_valueOfStrings, Except.map, bind, Except.bind, pure, Except.pure]

theorem encodeUnsubscribe_eq (x : proto.UnsubscribeFrame) :
    json.encodeUnsubscribe x = json.object ((json.unsubscribeEntries x).map json.entryText) := rfl

theorem readsAs_unsubscribe (x : proto.UnsubscribeFrame) :
    json.ReadsAs (json.encodeUnsubscribe x) (json.unsubscribeValue x) := by
  rw [encodeUnsubscribe_eq]
  apply readsAs_object_entries _ (by simp [json.unsubscribeEntries])
  intro e he
  simp only [json.unsubscribeEntries, List.mem_cons, List.mem_singleton, List.not_mem_nil,
    or_false] at he
  subst he
  · exact ReadsAs.before (readsAs_string _)

theorem decode_unsubscribe (x : proto.UnsubscribeFrame) :
    ((json.unsubscribeEntries x).map json.entryValue).foldlM json.setUnsubscribeField ⟨""⟩ = .ok x := by
  simp only [json.unsubscribeEntries, List.map_cons, List.map_nil, json.entryValue, List.foldlM_cons,
    List.foldlM_nil]
  have h1 : ∀ (q : proto.UnsubscribeFrame) v, json.setUnsubscribeField q ("topic", v)
      = (json.decodeString v q.Topic).map fun y => { q with Topic := y } := fun _ _ => rfl
  simp only [h1, json.decodeString, json.decodeBool, decodeBytes_valueOfBytes,
    decodeStrings_valueOfStrings, Except.map, bind, Except.bind, pure, Except.pure]

theorem encodeMessage_eq (x : proto.MessageFrame) :
    json.encodeMessage x = json.object ((json.messageEntries x).map json.entryText) := rfl

theorem readsAs_message (x : proto.MessageFrame) :
    json.ReadsAs (json.encodeMessage x) (json.messageValue x) := by
  rw [encodeMessage_eq]
  apply readsAs_object_entries _ (by simp [json.messageEntries])
  intro e he
  simp only [json.messageEntries, List.mem_cons, List.mem_singleton, List.not_mem_nil,
    or_false] at he
  rcases he with h | h | h | h <;> subst h
  · exact ReadsAs.before (readsAs_string _)
  · exact ReadsAs.before (readsAs_bytes _)
  · exact ReadsAs.before (readsAs_bytes _)
  · exact ReadsAs.before (readsAs_bytes _)

theorem decode_message (x : proto.MessageFrame) :
    ((json.messageEntries x).map json.entryValue).foldlM json.setMessageField ⟨"", none, none, none⟩ = .ok x := by
  simp only [json.messageEntries, List.map_cons, List.map_nil, json.entryValue, List.foldlM_cons,
    List.foldlM_nil]
  have h1 : ∀ (q : proto.MessageFrame) v, json.setMessageField q ("topic", v)
      = (json.decodeString v q.Topic).map fun y => { q with Topic := y } := fun _ _ => rfl
  have h2 : ∀ (q : proto.MessageFrame) v, json.setMessageField q ("encrypted_payload", v)
      = (json.decodeBytes v q.EncryptedPayload).map fun y => { q with EncryptedPayload := y } := fun _ _ => rfl
  have h3 : ∀ (q : proto.MessageFrame) v, json.setMessageField q ("sender_key_id", v)
      = (json.decodeBytes v q.SenderKeyID).map fun y => { q with SenderKeyID := y } := fun _ _ => rfl
  have h4 : ∀ (q : proto.MessageFrame) v, json.setMessageField q ("sender_public_key", v)
      = (json.decodeBytes v q.SenderPublicKey).map fun y => { q with SenderPublicKey := y } := fun _ _ => rfl
  simp only [h1, h2, h3, h4, json.decodeString, json.decodeBool, decodeBytes_valueOfBytes,
    decodeStrings_valueOfStrings, Except.map, bind, Except.bind, pure, Except.pure]

theorem encodeAck_eq (x : proto.AckFrame) :
    json.encodeAck x = json.object ((json.ackEntries x).map json.entryText) := rfl

theorem readsAs_ack (x : proto.AckFrame) :
    json.ReadsAs (json.encodeAck x) (json.ackValue x) := by
  rw [encodeAck_eq]
  apply readsAs_object_entries _ (by simp [json.ackEntries])
  intro e he
  simp only [json.ackEntries, List.mem_cons, List.mem_singleton, List.not_mem_nil,
    or_false] at he
  rcases he with h | h <;> subst h
  · exact ReadsAs.before (readsAs_string _)
  · exact ReadsAs.before (readsAs_bool _)

theorem decode_ack (x : proto.AckFrame) :
    ((json.ackEntries x).map json.entryValue).foldlM json.setAckField ⟨"", false⟩ = .ok x := by
  simp only [json.ackEntries, List.map_cons, List.map_nil, json.entryValue, List.foldlM_cons,
    List.foldlM_nil]
  have h1 : ∀ (q : proto.AckFrame) v, json.setAckField q ("message_id", v)
      = (json.decodeString v q.MessageID).map fun y => { q with MessageID := y } := fun _ _ => rfl
  have h2 : ∀ (q : proto.AckFrame) v, json.setAckField q ("ok", v)
      = (json.decodeBool v q.OK).map fun y => { q with OK := y } := fun _ _ => rfl
  simp only [h1, h2, json.decodeString, json.decodeBool, decodeBytes_valueOfBytes,
    decodeStrings_valueOfStrings, Except.map, bind, Except.bind, pure, Except.pure]

theorem encodeError_eq (x : proto.ErrorFrame) :
    json.encodeError x = json.object ((json.errorEntries x).map json.entryText) := rfl

theorem readsAs_error (x : proto.ErrorFrame) :
    json.ReadsAs (json.encodeError x) (json.errorValue x) := by
  rw [encodeError_eq]
  apply readsAs_object_entries _ (by simp [json.errorEntries])
  intro e he
  simp only [json.errorEntries, List.mem_cons, List.mem_singleton, List.not_mem_nil,
    or_false] at he
  rcases he with h | h <;> subst h
  · exact ReadsAs.before (readsAs_string _)
  · exact ReadsAs.before (readsAs_string _)

theorem decode_error (x : proto.ErrorFrame) :
    ((json.errorEntries x).map json.entryValue).foldlM json.setErrorField ⟨"", ""⟩ = .ok x := by
  simp only [json.errorEntries, List.map_cons, List.map_nil, json.entryValue, List.foldlM_cons,
    List.foldlM_nil]
  have h1 : ∀ (q : proto.ErrorFrame) v, json.setErrorField q ("code", v)
      = (json.decodeString v q.Code).map fun y => { q with Code := y } := fun _ _ => rfl
  have h2 : ∀ (q : proto.ErrorFrame) v, json.setErrorField q ("message", v)
      = (json.decodeString v q.Message).map fun y => { q with Message := y } := fun _ _ => rfl
  simp only [h1, h2, json.decodeString, json.decodeBool, decodeBytes_valueOfBytes,
    decodeStrings_valueOfStrings, Except.map, bind, Except.bind, pure, Except.pure]

theorem encodeDiscovery_eq (x : proto.DiscoveryFrame) :
    json.encodeDiscovery x = json.object ((json.discoveryEntries x).map json.entryText) := rfl

theorem readsAs_discovery (x : proto.DiscoveryFrame) :
    json.ReadsAs (json.encodeDiscovery x) (json.discoveryValue x) := by
  rw [encodeDiscovery_eq]
  apply readsAs_object_entries _ (by simp [json.discoveryEntries])
  intro e he
  simp only [json.discoveryEntries, List.mem_cons, List.mem_singleton, List.not_mem_nil,
    or_false] at he
  rcases he with h | h | h | h <;> subst h
  · exact ReadsAs.before (readsAs_string _)
  · exact ReadsAs.before (readsAs_valueOfStrings _)
  · exact ReadsAs.before (readsAs_bytes _)
  · exact ReadsAs.before (readsAs_string _)

theorem decode_discovery (x : proto.DiscoveryFrame) :
    ((json.discoveryEntries x).map json.entryValue).foldlM json.setDiscoveryField ⟨"", none, none, ""⟩ = .ok x := by
  simp only [json.discoveryEntries, List.map_cons, List.map_nil, json.entryValue, List.foldlM_cons,
    List.foldlM_nil]
  have h1 : ∀ (q : proto.DiscoveryFrame) v, json.setDiscoveryField q ("node_id", v)
      = (json.decodeString v q.NodeID).map fun y => { q with NodeID := y } := fun _ _ => rfl
  have h2 : ∀ (q : proto.DiscoveryFrame) v, json.setDiscoveryField q ("topics", v)
      = (json.decodeStrings v q.Topics).map fun y => { q with Topics := y } := fun _ _ => rfl
  have h3 : ∀ (q : proto.DiscoveryFrame) v, json.setDiscoveryField q ("public_key", v)
      = (json.decodeBytes v q.PublicKey).map fun y => { q with PublicKey := y } := fun _ _ => rfl
  have h4 : ∀ (q : proto.DiscoveryFrame) v, json.setDiscoveryField q ("addr", v)
      = (json.decodeString v q.Addr).map fun y => { q with Addr := y } := fun _ _ => rfl
  simp only [h1, h2, h3, h4, json.decodeString, json.decodeBool, decodeBytes_valueOfBytes,
    decodeStrings_valueOfStrings, Except.map, bind, Except.bind, pure, Except.pure]

theorem encodeFrame_eq (F : proto.Frame) :
    json.encodeFrame F = json.object ((json.frameEntries F).map json.entryText) := by
  simp only [json.encodeFrame, json.frameEntries, List.map_append, List.map_cons, List.map_nil,
    omitempty_eq "p" json.encodePublish json.publishValue,
    omitempty_eq "s" json.encodeSubscribe json.subscribeValue,
    omitempty_eq "u" json.encodeUnsubscribe json.unsubscribeValue,
    omitempty_eq "m" json.encodeMessage json.messageValue,
    omitempty_eq "a" json.encodeAck json.ackValue,
    omitempty_eq "e" json.encodeError json.errorValue,
    omitempty_eq "d" json.encodeDiscovery json.discoveryValue]
  rfl

theorem readsAsBefore_optEntry {α : Type} (name : String) (enc : α → List Byte)
    (val : α → json.Value) (h : ∀ x, json.ReadsAs (enc x) (val x)) (o : Option α) :
    ∀ e ∈ json.optEntry name enc val o, json.ReadsAsBefore e.2.1 e.2.2 := by
  intro e he
  cases o with
  | none => simp [json.optEntry] at he
  | some x =>
    simp only [json.optEntry, List.mem_singleton] at he
    subst he
    exact ReadsAs.before (h x)

theorem readsAs_frame (F : proto.Frame) :
    json.ReadsAs (json.encodeFrame F) (.obj ((json.frameEntries F).map json.entryValue)) := by
  rw [encodeFrame_eq]
  apply readsAs_object_entries _ (by simp [json.frameEntries])
  intro e he
  simp only [json.frameEntries, List.mem_append, List.mem_singleton] at he
  rcases he with ((((((h | h) | h) | h) | h) | h) | h) | h
  · subst h
    exact readsAs_int F.Typ
  · exact readsAsBefore_optEntry _ _ _ readsAs_publish _ e h
  · exact readsAsBefore_optEntry _ _ _ readsAs_subscribe _ e h
  · exact readsAsBefore_optEntry _ _ _ readsAs_unsubscribe _ e h
  · exact readsAsBefore_optEntry _ _ _ readsAs_message _ e h
  · exact readsAsBefore_optEntry _ _ _ readsAs_ack _ e h
  · exact readsAsBefore_optEntry _ _ _ readsAs_error _ e h
  · exact readsAsBefore_optEntry _ _ _ readsAs_discovery _ e h

theorem depthElems_strings (l : List String) : json.depthElems (l.map json.Value.str) = 0 := by
  induction l with
  | nil => rfl
  | cons s l ih => simp [json.depthElems, json.Value.depth, ih]

theorem depth_valueOfBytes (x : Option (List Byte)) : (json.valueOfBytes x).depth = 0 := by
  cases x <;> rfl

theorem depth_valueOfStrings (x : Option (List String)) : (json.valueOfStrings x).depth ≤ 1 := by
  cases x with
  | none => exact Nat.zero_le _
  | some l => simp [json.valueOfStrings, json.Value.depth, depthElems_strings]

theorem depthMembers_append (a b : List (String × json.Value)) :
    json.depthMembers (a ++ b) = max (json.depthMembers a) (json.depthMembers b) := by
  induction a with
  | nil => simp [json.depthMembers]
  | cons m ms ih => simp [json.depthMembers, ih, Nat.max_assoc]

theorem depthMembers_optEntry {α : Type} (name : String) (enc : α → List Byte)
    (val : α → json.Value) (o : Option α) (k : Nat) (h : ∀ x, (val x).depth ≤ k) :
    json.depthMembers ((json.optEntry name enc val o).map json.entryValue) ≤ k := by
  cases o with
  | none => exact Nat.zero_le _
  | some x => simpa [json.optEntry, json.entryValue, json.depthMembers] using h x

/-- The value of a frame is nested three deep at most: the frame, a variant, a list of topics. -/
theorem depth_frame (F : proto.Frame) :
    (json.Value.obj ((json.frameEntries F).map json.entryValue)).depth ≤ 3 := by
  have hp : ∀ x, (json.publishValue x).depth ≤ 2 := fun x => by
    simp [json.publishValue, json.publishEntries, json.entryValue, json.Value.depth,
      json.depthMembers, depth_valueOfBytes]
  have hs : ∀ x, (json.subscribeValue x).depth ≤ 2 := fun x => by
    simp [json.subscribeValue, json.subscribeEntries, json.entryValue, json.Value.depth,
      json.depthMembers, depth_valueOfBytes]
  have hu : ∀ x, (json.unsubscribeValue x).depth ≤ 2 := fun x => by
    simp [json.unsubscribeValue, json.unsubscribeEntries, json.entryValue, json.Value.depth,
      json.depthMembers]
  have hm : ∀ x, (json.messageValue x).depth ≤ 2 := fun x => by
    simp [json.messageValue, json.messageEntries, json.entryValue, json.Value.depth,
      json.depthMembers, depth_valueOfBytes]
  have ha : ∀ x, (json.ackValue x).depth ≤ 2 := fun x => by
    simp [json.ackValue, json.ackEntries, json.entryValue, json.Value.depth, json.depthMembers]
  have he : ∀ x, (json.errorValue x).depth ≤ 2 := fun x => by
    simp [json.errorValue, json.errorEntries, json.entryValue, json.Value.depth,
      json.depthMembers]
  have hd : ∀ x, (json.discoveryValue x).depth ≤ 2 := fun x => by
    have h := depth_valueOfStrings x.Topics
    simp only [json.discoveryValue, json.discoveryEntries, json.entryValue, json.Value.depth,
      json.depthMembers, List.map_cons, List.map_nil, depth_valueOfBytes]
    omega
  have h1 := depthMembers_optEntry "p" json.encodePublish json.publishValue F.Publish 2 hp
  have h2 := depthMembers_optEntry "s" json.encodeSubscribe json.subscribeValue F.Subscribe 2 hs
  have h3 := depthMembers_optEntry "u" json.encodeUnsubscribe json.unsubscribeValue
    F.Unsubscribe 2 hu
  have h4 := depthMembers_optEntry "m" json.encodeMessage json.messageValue F.Message 2 hm
  have h5 := depthMembers_optEntry "a" json.encodeAck json.ackValue F.Ack 2 ha
  have h6 := depthMembers_optEntry "e" json.encodeError json.errorValue F.Error 2 he
  have h7 := depthMembers_optEntry "d" json.encodeDiscovery json.discoveryValue F.Discovery 2 hd
  have h0 : json.depthMembers
      ([("t", json.encodeInt F.Typ, json.valueOfInt F.Typ)].map json.entryValue) = 0 := rfl
  unfold json.frameEntries
  simp only [json.Value.depth, List.map_append, depthMembers_append, h0]
  omega

theorem parse_encodeFrame (F : proto.Frame) :
    json.parse (json.encodeFrame F) = some (.obj ((json.frameEntries F).map json.entryValue)) := by
  have h := readsAs_frame F ((json.encodeFrame F).length + 1) [] (by omega)
  rw [List.append_nil] at h
  have hd := depth_frame F
  have hd2 : (json.Value.obj ((json.frameEntries F).map json.entryValue)).depth
      ≤ json.maxNestingDepth := by
    unfold json.maxNestingDepth
    omega
  simp only [json.parse, h, json.skipWS, hd2, and_self, if_true]

/-- Storing the member of an `omitempty` pointer field into a frame whose field is nil. -/
theorem foldlM_optEntry {α : Type} (name : String) (enc : α → List Byte) (val : α → json.Value)
    (set : proto.Frame → Option α → proto.Frame) (f : proto.Frame) (o : Option α)
    (hnone : set f none = f)
    (hsome : ∀ x, json.setFrameField f (name, val x) = .ok (set f (some x))) :
    ((json.optEntry name enc val o).map json.entryValue).foldlM json.setFrameField f
      = .ok (set f o) := by
  cases o with
  | none =>
    simp only [json.optEntry, List.map_nil, List.foldlM_nil, hnone]
    rfl
  | some x =>
    simp only [json.optEntry, List.map_cons, List.map_nil, List.foldlM_cons, List.foldlM_nil,
      json.entryValue, hsome x]
    rfl

theorem decode_frame (F : proto.Frame) (h1 : - (2 : Int) ^ 63 ≤ F.Typ) (h2 : F.Typ < (2 : Int) ^ 63) :
    ((json.frameEntries F).map json.entryValue).foldlM json.setFrameField proto.Frame.zero
      = .ok F := by
  have ht : json.setFrameField proto.Frame.zero ("t", json.valueOfInt F.Typ)
      = .ok (⟨F.Typ, none, none, none, none, none, none, none⟩ : proto.Frame) := by
    have h : ∀ (f : proto.Frame) v, json.setFrameField f ("t", v)
        = (json.decodeInt64 v f.Typ).map fun y => { f with Typ := y } := fun _ _ => rfl
    rw [h, decodeInt64_valueOfInt _ _ h1 h2]
    rfl
  have hp : ((json.optEntry "p" json.encodePublish json.publishValue F.Publish).map
      json.entryValue).foldlM json.setFrameField (⟨F.Typ, none, none, none, none, none, none, none⟩ : proto.Frame) = .ok (⟨F.Typ, F.Publish, none, none, none, none, none, none⟩ : proto.Frame) :=
    foldlM_optEntry "p" json.encodePublish json.publishValue
      (fun f o => { f with Publish := o }) (⟨F.Typ, none, none, none, none, none, none, none⟩ : proto.Frame) F.Publish rfl
      (fun x => by
        have h : ∀ (f : proto.Frame) v, json.setFrameField f ("p", v)
            = (json.decodePointer ⟨"", none, "", none, none⟩ json.setPublishField v f.Publish).map
                fun y => { f with Publish := y } := fun _ _ => rfl
        rw [h]
        simp only [json.publishValue, json.decodePointer, Option.getD_none, decode_publish]
        rfl)
  have hs : ((json.optEntry "s" json.encodeSubscribe json.subscribeValue F.Subscribe).map
      json.entryValue).foldlM json.setFrameField (⟨F.Typ, F.Publish, none, none, none, none, none, none⟩ : proto.Frame) = .ok (⟨F.Typ, F.Publish, F.Subscribe, none, none, none, none, none⟩ : proto.Frame) :=
    foldlM_optEntry "s" json.encodeSubscribe json.subscribeValue
      (fun f o => { f with Subscribe := o }) (⟨F.Typ, F.Publish, none, none, none, none, none, none⟩ : proto.Frame) F.Subscribe rfl
      (fun x => by
        have h : ∀ (f : proto.Frame) v, json.setFrameField f ("s", v)
            = (json.decodePointer ⟨"", "", none⟩ json.setSubscribeField v f.Subscribe).map
                fun y => { f with Subscribe := y } := fun _ _ => rfl
        rw [h]
        simp only [json.subscribeValue, json.decodePointer, Option.getD_none, decode_subscribe]
        rfl)
  have hu : ((json.optEntry "u" json.encodeUnsubscribe json.unsubscribeValue F.Unsubscribe).map
      json.entryValue).foldlM json.setFrameField (⟨F.Typ, F.Publish, F.Subscribe, none, none, none, none, none⟩ : proto.Frame) = .ok (⟨F.Typ, F.Publish, F.Subscribe, F.Unsubscribe, none, none, none, none⟩ : proto.Frame) :=
    foldlM_optEntry "u" json.encodeUnsubscribe json.unsubscribeValue
      (fun f o => { f with Unsubscribe := o }) (⟨F.Typ, F.Publish, F.Subscribe, none, none, none, none, none⟩ : proto.Frame) F.Unsubscribe rfl
      (fun x => by
        have h : ∀ (f : proto.Frame) v, json.setFrameField f ("u", v)
            = (json.decodePointer ⟨""⟩ json.setUnsubscribeField v f.Unsubscribe).map
                fun y => { f with Unsubscribe := y } := fun _ _ => rfl
        rw [h]
        simp only [json.unsubscribeValue, json.decodePointer, Option.getD_none, decode_unsubscribe]
        rfl)
  have hm : ((json.optEntry "m" json.encodeMessage json.messageValue F.Message).map
      json.entryValue).foldlM json.setFrameField (⟨F.Typ, F.Publish, F.Subscribe, F.Unsubscribe, none, none, none, none⟩ : proto.Frame) = .ok (⟨F.Typ, F.Publish, F.Subscribe, F.Unsubscribe, F.Message, none, none, none⟩ : proto.Frame) :=
    foldlM_optEntry "m" json.encodeMessage json.messageValue
      (fun f o => { f with Message := o }) (⟨F.Typ, F.Publish, F.Subscribe, F.Unsubscribe, none, none, none, none⟩ : proto.Frame) F.Message rfl
      (fun x => by
        have h : ∀ (f : proto.Frame) v, json.setFrameField f ("m", v)
            = (json.decodePointer ⟨"", none, none, none⟩ json.setMessageField v f.Message).map
                fun y => { f with Message := y } := fun _ _ => rfl
        rw [h]
        simp only [json.messageValue, json.decodePointer, Option.getD_none, decode_message]
        rfl)
  have ha : ((json.optEntry "a" json.encodeAck json.ackValue F.Ack).map
      json.entryValue).foldlM json.setFrameField (⟨F.Typ, F.Publish, F.Subscribe, F.Unsubscribe, F.Message, none, none, none⟩ : proto.Frame) = .ok (⟨F.Typ, F.Publish, F.Subscribe, F.Unsubscribe, F.Message, F.Ack, none, none⟩ : proto.Frame) :=
    foldlM_optEntry "a" json.encodeAck json.ackValue
      (fun f o => { f with Ack := o }) (⟨F.Typ, F.Publish, F.Subscribe, F.Unsubscribe, F.Message, none, none, none⟩ : proto.Frame) F.Ack rfl
      (fun x => by
        have h : ∀ (f : proto.Frame) v, json.setFrameField f ("a", v)
            = (json.decodePointer ⟨"", false⟩ json.setAckField v f.Ack).map
                fun y => { f with Ack := y } := fun _ _ => rfl
        rw [h]
        simp only [json.ackValue, json.decodePointer, Option.getD_none, decode_ack]
        rfl)
  have he : ((json.optEntry "e" json.encodeError json.errorValue F.Error).map
      json.entryValue).foldlM json.setFrameField (⟨F.Typ, F.Publish, F.Subscribe, F.Unsubscribe, F.Message, F.Ack, none, none⟩ : proto.Frame) = .ok (⟨F.Typ, F.Publish, F.Subscribe, F.Unsubscribe, F.Message, F.Ack, F.Error, none⟩ : proto.Frame) :=
    foldlM_optEntry "e" json.encodeError json.errorValue
      (fun f o => { f with Error := o }) (⟨F.Typ, F.Publish, F.Subscribe, F.Unsubscribe, F.Message, F.Ack, none, none⟩ : proto.Frame) F.Error rfl
      (fun x => by
        have h : ∀ (f : proto.Frame) v, json.setFrameField f ("e", v)
            = (json.decodePointer ⟨"", ""⟩ json.setErrorField v f.Error).map
                fun y => { f with Error := y } := fun _ _ => rfl
        rw [h]
        simp only [json.errorValue, json.decodePointer, Option.getD_none, decode_error]
        rfl)
  have hd : ((json.optEntry "d" json.encodeDiscovery json.discoveryValue F.Discovery).map
      json.entryValue).foldlM json.setFrameField (⟨F.Typ, F.Publish, F.Subscribe, F.Unsubscribe, F.Message, F.Ack, F.Error, none⟩ : proto.Frame) = .ok (⟨F.Typ, F.Publish, F.Subscribe, F.Unsubscribe, F.Message, F.Ack, F.Error, F.Discovery⟩ : proto.Frame) :=
    foldlM_optEntry "d" json.encodeDiscovery json.discoveryValue
      (fun f o => { f with Discovery := o }) (⟨F.Typ, F.Publish, F.Subscribe, F.Unsubscribe, F.Message, F.Ack, F.Error, none⟩ : proto.Frame) F.Discovery rfl
      (fun x => by
        have h : ∀ (f : proto.Frame) v, json.setFrameField f ("d", v)
            = (json.decodePointer ⟨"", none, none, ""⟩ json.setDiscoveryField v f.Discovery).map
                fun y => { f with Discovery := y } := fun _ _ => rfl
        rw [h]
        simp only [json.discoveryValue, json.decodePointer, Option.getD_none, decode_discovery]
        rfl)
  simp only [json.frameEntries, List.map_append, List.foldlM_append, List.map_cons,
    List.map_nil, List.foldlM_cons, List.foldlM_nil, json.entryValue, ht, hp, hs, hu, hm, ha, he,
    hd, bind, Except.bind, pure, Except.pure]

/-- The reference JSON model reads a frame back from its own serialisation. -/
theorem goJSON_round_trip (F : proto.Frame) (h1 : - (2 : Int) ^ 63 ≤ F.Typ)
    (h2 : F.Typ < (2 : Int) ^ 63) :
    goJSON.UnmarshalFrame (json.encodeFrame F) proto.Frame.zero = .ok F := by
  simp only [goJSON, json.unmarshalStruct, parse_encodeFrame, decode_frame F h1 h2]

/-! ## C1: frame round trip -/

/-- The framing layer alone: for every JSON library, if it serialises `F` to
`J` of at most 1 MiB and reads `J` back into a zero frame as `F`, then `Decode`
over the bytes a successful `Encode` wrote returns `F` and leaves nothing unread. -/
theorem Decode_Encode_of_round_trip (json : JSONLib) (F : proto.Frame) (J : List Byte)
    (room : Option Nat) (w : io.Writer)
    (hmarshal : json.MarshalFrame F = .ok J)
    (hsize : J.length ≤ 1024 * 1024)
    (hjson : json.UnmarshalFrame J proto.Frame.zero = .ok F)
    (hencode : proto.Frame.Encode json F ⟨[], room⟩ = (w, none)) :
    proto.Frame.Decode json proto.Frame.zero w.out = (.ok F, []) := by
  have hout := Encode_ok_out json F J _ w hmarshal hencode
  simp only [List.nil_append] at hout
  have hdec := Decode_framed json proto.Frame.zero J [] hsize
  rw [List.append_nil] at hdec
  rw [hout, hdec, hjson]
  rfl

/-- The round trip on frames of Unicode texts: for every frame `F` (its
`Type` a 64-bit `int`, any variants populated, strings any Unicode text, byte
fields and the topics list nil or not) whose JSON body is at most 1 MiB,
`Decode` applied to a zero frame over exactly the bytes that a successful
`Encode(F)` wrote succeeds, yields a frame equal to `F` field for field, and
leaves nothing unread.  The JSON library is the reference model of
`encoding/json`. -/
theorem frame_round_trip (F : proto.Frame) (room : Option Nat) (w : io.Writer)
    (htype : - (2 : Int) ^ 63 ≤ F.Typ ∧ F.Typ < (2 : Int) ^ 63)
    (hsize : (json.encodeFrame F).length ≤ 1024 * 1024)
    (hencode : proto.Frame.Encode goJSON F ⟨[], room⟩ = (w, none)) :
    proto.Frame.Decode goJSON proto.Frame.zero w.out = (.ok F, []) :=
  Decode_Encode_of_round_trip goJSON F (json.encodeFrame F) room w rfl hsize
    (goJSON_round_trip F htype.1 htype.2) hencode

set_option maxRecDepth 100000 in
theorem frame_round_trip_witness :
    proto.Frame.Decode goJSON proto.Frame.zero
      (proto.Frame.Encode goJSON sampleFrame ⟨[], none⟩).1.out = (.ok sampleFrame, []) :=
  frame_round_trip sampleFrame none _ (by decide) (by decide) rfl

/-! ## C2: the size limit of `Decode` -/

theorem mapError_json_ne_ErrShortBuffer (x : Except String proto.Frame) :
    x.mapError GoError.json ≠ .error .ErrShortBuffer := by
  cases x <;> simp [Except.mapError]

theorem ReadFull_header (b0 b1 b2 b3 : Byte) (rest : List Byte) :
    io.ReadFull (b0 :: b1 :: b2 :: b3 :: rest) 4 = (.ok [b0, b1, b2, b3], rest) := by
  simp [io.ReadFull]

/-- `Decode` on a stream with a complete header, by the length `n` the header declares. -/
theorem Decode_header (json : JSONLib) (f : proto.Frame) (b0 b1 b2 b3 : Byte) (rest : List Byte) :
    proto.Frame.Decode json f (b0 :: b1 :: b2 :: b3 :: rest) =
      if binary.BigEndian.Uint32 [b0, b1, b2, b3] > 1024 * 1024 then (.error .ErrShortBuffer, rest)
      else
        match io.ReadFull rest (binary.BigEndian.Uint32 [b0, b1, b2, b3]) with
        | (.error err, r2) => (.error err, r2)
        | (.ok data, r2) => ((json.UnmarshalFrame data f).mapError GoError.json, r2) := by
  simp only [proto.Frame.Decode, ReadFull_header]

/-- C2. Frame size limit: for every header `b0 b1 b2 b3` read by `Decode`,
declaring the length `n`, `Decode` returns the too-large error
(`io.ErrShortBuffer`, the code's FRAME_TOO_LARGE) if and only if
`n > 1048576`, and then no byte after the header has been consumed; when
`n ≤ 1048576` and the stream holds `n` more bytes, exactly these are read and
handed to the JSON decoder.  So a body of exactly 1 MiB (header `00 10 00 00`)
is accepted and a body of 1 MiB + 1 (header `00 10 00 01`) is rejected. -/
theorem decode_size_limit (json : JSONLib) (f : proto.Frame) (b0 b1 b2 b3 : Byte)
    (rest : List Byte) :
    ((proto.Frame.Decode json f (b0 :: b1 :: b2 :: b3 :: rest)).1 = .error .ErrShortBuffer
        ↔ 1048576 < binary.BigEndian.Uint32 [b0, b1, b2, b3])
    ∧ (1048576 < binary.BigEndian.Uint32 [b0, b1, b2, b3] →
        proto.Frame.Decode json f (b0 :: b1 :: b2 :: b3 :: rest) = (.error .ErrShortBuffer, rest))
    ∧ (binary.BigEndian.Uint32 [b0, b1, b2, b3] ≤ 1048576 →
        binary.BigEndian.Uint32 [b0, b1, b2, b3] ≤ rest.length →
        proto.Frame.Decode json f (b0 :: b1 :: b2 :: b3 :: rest) =
          ((json.UnmarshalFrame (rest.take (binary.BigEndian.Uint32 [b0, b1, b2, b3])) f).mapError
              GoError.json,
            rest.drop (binary.BigEndian.Uint32 [b0, b1, b2, b3])))
    ∧ (∀ body : List Byte, body.length = 1048576 →
        proto.Frame.Decode json f ([0, 16, 0, 0] ++ body) =
          ((json.UnmarshalFrame body f).mapError GoError.json, []))
    ∧ (∀ body : List Byte, body.length = 1048577 →
        proto.Frame.Decode json f ([0, 16, 0, 1] ++ body) = (.error .ErrShortBuffer, body)) := by
  have hacc : ∀ (c0 c1 c2 c3 : Byte) (tail : List Byte),
      binary.BigEndian.Uint32 [c0, c1, c2, c3] ≤ 1048576 →
      binary.BigEndian.Uint32 [c0, c1, c2, c3] ≤ tail.length →
      proto.Frame.Decode json f (c0 :: c1 :: c2 :: c3 :: tail) =
        ((json.UnmarshalFrame (tail.take (binary.BigEndian.Uint32 [c0, c1, c2, c3])) f).mapError
            GoError.json,
          tail.drop (binary.BigEndian.Uint32 [c0, c1, c2, c3])) := by
    intro c0 c1 c2 c3 tail hle hlen
    rw [Decode_header, if_neg (by omega), ReadFull_of_le _ _ hlen]
  have hrej : ∀ (c0 c1 c2 c3 : Byte) (tail : List Byte),
      1048576 < binary.BigEndian.Uint32 [c0, c1, c2, c3] →
      proto.Frame.Decode json f (c0 :: c1 :: c2 :: c3 :: tail) = (.error .ErrShortBuffer, tail) := by
    intro c0 c1 c2 c3 tail hgt
    rw [Decode_header, if_pos (by omega)]
  refine ⟨⟨?_, fun hgt => by rw [hrej _ _ _ _ _ hgt]⟩, hrej _ _ _ _ _, hacc _ _ _ _ _, ?_, ?_⟩
  · intro herr
    by_contra hle
    rw [Nat.not_lt] at hle
    rw [Decode_header, if_neg (by omega)] at herr
    by_cases hlen : binary.BigEndian.Uint32 [b0, b1, b2, b3] ≤ rest.length
    · rw [ReadFull_of_le _ _ hlen] at herr
      exact mapError_json_ne_ErrShortBuffer _ herr
    · simp only [io.ReadFull, hlen, if_false] at herr
      by_cases h0 : rest.length = 0
      · simp [h0] at herr
      · simp [h0] at herr
  · intro body hbody
    have h := hacc 0 16 0 0 body (by decide) (by rw [hbody]; decide)
    have hn : binary.BigEndian.Uint32 [0, 16, 0, 0] = body.length := by rw [hbody]; decide
    rw [hn, List.take_length, List.drop_length] at h
    exact h
  · intro body _
    exact hrej 0 16 0 1 body (by decide)

/-! ## C3: the wire format of `Encode` -/

/-- `Encode` on a writer with room for the frame: both writes succeed. -/
theorem Encode_of_room (json : JSONLib) (F : proto.Frame) (J : List Byte) (w : io.Writer)
    (hmarshal : json.MarshalFrame F = .ok J) (hroom : ∀ k, w.room = some k → 4 + J.length ≤ k) :
    proto.Frame.Encode json F w =
      (⟨w.out ++ binary.BigEndian.PutUint32 (uint32 J.length) ++ J,
          w.room.map fun k => k - (4 + J.length)⟩, none) := by
  obtain ⟨out, room⟩ := w
  cases room with
  | none => simp [proto.Frame.Encode, hmarshal, io.Writer.Write]
  | some k =>
    have hk := hroom k rfl
    have h4 : 4 ≤ k := by omega
    have hJ : J.length ≤ k - 4 := by omega
    simp only [proto.Frame.Encode, hmarshal, io.Writer.Write, PutUint32_length, h4, if_true, hJ,
      Option.map_some']
    congr 3
    omega

theorem flatMap_escapeChar_replicate (n : Nat) :
    (List.replicate n 'a').flatMap json.escapeChar = List.replicate n (0x61 : Byte) := by
  induction n with
  | zero => rfl
  | succ n ih =>
    rw [List.replicate_succ, List.flatMap_cons, ih]
    rfl

/-- The JSON body of `longTopicFrame n`: 21 bytes, the `n` letters, 3 bytes. -/
theorem encodeFrame_longTopicFrame (n : Nat) :
    json.encodeFrame (longTopicFrame n) =
      json.utf8 "\x7b\"t\":3,\"u\":\x7b\"topic\":\"" ++ (List.replicate n (0x61 : Byte)
        ++ json.utf8 "\"\x7d\x7d") := by
  have h : json.encodeString (String.mk (List.replicate n 'a'))
      = [0x22] ++ List.replicate n (0x61 : Byte) ++ [0x22] := by
    simp only [json.encodeString, flatMap_escapeChar_replicate]
  simp only [json.encodeFrame, longTopicFrame, proto.Frame.zero, json.omitempty, json.object,
    json.member, json.encodeUnsubscribe, h, List.append_nil, List.intercalate, List.intersperse,
    List.flatten, List.append_assoc, List.singleton_append, List.cons_append,
    List.nil_append]
  rfl

theorem encodeFrame_longTopicFrame_length (n : Nat) :
    (json.encodeFrame (longTopicFrame n)).length = n + 24 := by
  rw [encodeFrame_longTopicFrame]
  simp only [List.length_append, List.length_replicate]
  have h1 : (json.utf8 "\x7b\"t\":3,\"u\":\x7b\"topic\":\"").length = 21 := by decide
  have h2 : (json.utf8 "\"\x7d\x7d").length = 3 := by decide
  rw [h1, h2]
  omega

/-- C3, counterexample. For the Unsubscribe frame whose topic is 2^32 letters
`a`, the JSON body has 4294967320 bytes but `Encode` writes the prefix
`00 00 00 18`, which is the encoding of 24 and not of the body length. -/
theorem encode_prefix_wraps :
    goJSON.MarshalFrame (longTopicFrame 4294967296) = .ok (json.encodeFrame (longTopicFrame 4294967296))
    ∧ (json.encodeFrame (longTopicFrame 4294967296)).length = 4294967320
    ∧ proto.Frame.Encode goJSON (longTopicFrame 4294967296) ⟨[], none⟩ =
        (⟨[0, 0, 0, 24] ++ json.encodeFrame (longTopicFrame 4294967296), none⟩, none)
    ∧ binary.BigEndian.Uint32 [0, 0, 0, 24] = 24
    ∧ binary.BigEndian.Uint32 [0, 0, 0, 24] ≠ (json.encodeFrame (longTopicFrame 4294967296)).length := by
  have hlen := encodeFrame_longTopicFrame_length 4294967296
  refine ⟨rfl, hlen, ?_, by decide, ?_⟩
  · rw [Encode_of_room goJSON _ _ _ rfl (by simp), hlen]
    rfl
  · rw [hlen]
    decide

/-- C3, as amended. For every frame `F` whose JSON serialisation `J`
succeeds, `Encode` on a writer with room for it writes exactly `4 + len(J)`
bytes: the four-byte big-endian encoding of `len(J) mod 2^32`, then `J`, and
nothing else; the prefix reads back as `len(J)` itself when `len(J) < 2^32`. -/
theorem encode_wire_format (json : JSONLib) (F : proto.Frame) (J : List Byte) (w : io.Writer)
    (hmarshal : json.MarshalFrame F = .ok J) (hroom : ∀ k, w.room = some k → 4 + J.length ≤ k) :
    proto.Frame.Encode json F w =
        (⟨w.out ++ binary.BigEndian.PutUint32 (uint32 J.length) ++ J,
            w.room.map fun k => k - (4 + J.length)⟩, none)
    ∧ (binary.BigEndian.PutUint32 (uint32 J.length) ++ J).length = 4 + J.length
    ∧ binary.BigEndian.Uint32 (binary.BigEndian.PutUint32 (uint32 J.length)) = J.length % 2 ^ 32
    ∧ (J.length < 2 ^ 32 →
        binary.BigEndian.Uint32 (binary.BigEndian.PutUint32 (uint32 J.length)) = J.length) := by
  refine ⟨Encode_of_room json F J w hmarshal hroom, ?_, ?_, ?_⟩
  · rw [List.length_append, PutUint32_length]
  · rw [Uint32_PutUint32, uint32]
    omega
  · intro hlt
    rw [Uint32_PutUint32, uint32]
    omega

set_option maxRecDepth 100000 in
theorem encode_wire_format_witness :
    proto.Frame.Encode goJSON sampleFrame ⟨[], none⟩ =
        (⟨[] ++ binary.BigEndian.PutUint32 (uint32 (json.encodeFrame sampleFrame).length)
            ++ json.encodeFrame sampleFrame, none⟩, none)
    ∧ binary.BigEndian.PutUint32 (uint32 (json.encodeFrame sampleFrame).length) = [0, 0, 0, 142] :=
  ⟨(encode_wire_format goJSON sampleFrame (json.encodeFrame sampleFrame) ⟨[], none⟩ rfl
      (by simp)).1, by decide⟩

/-! ## C4: the relay forwards the payload untouched -/

theorem forwardTo_events (send : transport.Conn → proto.Frame → Option GoError) (msg : proto.Frame)
    (acc : Nat × List mesh.Event) (e : String × mesh.subInfo) :
    (mesh.forwardTo send msg acc e).2 = acc.2 ++ mesh.forwardEvents send msg e := by
  unfold mesh.forwardTo mesh.forwardEvents
  cases hs : e.2.send with
  | none => simp
  | some target => cases hr : send target msg <;> simp [hr]

/-- The events of a fan-out are those of its visits, in the order of the visits. -/
theorem foldl_forwardTo_events (send : transport.Conn → proto.Frame → Option GoError)
    (msg : proto.Frame) (l : List (String × mesh.subInfo)) (acc : Nat × List mesh.Event) :
    (l.foldl (mesh.forwardTo send msg) acc).2 = acc.2 ++ l.flatMap (mesh.forwardEvents send msg) := by
  induction l generalizing acc with
  | nil => simp
  | cons e rest ih => rw [List.foldl_cons, ih, forwardTo_events, List.flatMap_cons, List.append_assoc]

/-- What the relay does with a Publish frame whose topic has a subscriber map. -/
theorem dispatch_publish (send : transport.Conn → proto.Frame → Option GoError)
    (r : mesh.RelayServer) (c : transport.Conn) (f : proto.Frame) (P : proto.PublishFrame)
    (subscribers : sync.Map String mesh.subInfo)
    (htype : f.Typ = proto.FrameTypePublish) (hpub : f.Publish = some P)
    (htable : r.subs.Load P.Topic = some subscribers) :
    mesh.RelayServer.dispatch send r c f =
      (r, subscribers.flatMap (mesh.forwardEvents send (mesh.forwardFrame P))
        ++ [.logForwarded P.Topic (subscribers.foldl (mesh.forwardTo send (mesh.forwardFrame P)) (0, [])).1,
            .sent c mesh.ackFrame]) := by
  have h1 : ¬ (proto.FrameTypePublish = proto.FrameTypeSubscribe) := by decide
  have h2 : ¬ (proto.FrameTypePublish = proto.FrameTypeUnsubscribe) := by decide
  simp only [mesh.RelayServer.dispatch, h1, h2, htype, if_false, if_true, hpub, htable,
    foldl_forwardTo_events, List.nil_append]

theorem mem_forwardEvents_sent (send : transport.Conn → proto.Frame → Option GoError)
    (msg g : proto.Frame) (e : String × mesh.subInfo) (target : transport.Conn) :
    mesh.Event.sent target g ∈ mesh.forwardEvents send msg e ↔ (e.2.send = some target ∧ g = msg) := by
  unfold mesh.forwardEvents
  cases hs : e.2.send with
  | none => simp
  | some t =>
    cases hr : send t msg <;> simp [hr] <;> intro _ <;> exact eq_comm

theorem sendTargets_append (a b : List mesh.Event) :
    mesh.sendTargets (a ++ b) = mesh.sendTargets a ++ mesh.sendTargets b := by
  induction a with
  | nil => rfl
  | cons x rest ih => cases x <;> simp [mesh.sendTargets, ih]

theorem sendTargets_forwardEvents (send : transport.Conn → proto.Frame → Option GoError)
    (msg : proto.Frame) (e : String × mesh.subInfo) :
    mesh.sendTargets (mesh.forwardEvents send msg e) = e.2.send.toList := by
  unfold mesh.forwardEvents
  cases hs : e.2.send with
  | none => rfl
  | some t => cases hr : send t msg <;> simp [hr, mesh.sendTargets]

theorem sendTargets_flatMap_forwardEvents (send : transport.Conn → proto.Frame → Option GoError)
    (msg : proto.Frame) (l : List (String × mesh.subInfo)) :
    mesh.sendTargets (l.flatMap (mesh.forwardEvents send msg)) = l.flatMap fun e => e.2.send.toList := by
  induction l with
  | nil => rfl
  | cons e rest ih =>
    rw [List.flatMap_cons, sendTargets_append, ih, sendTargets_forwardEvents, List.flatMap_cons]

/-- C4. Zero-knowledge fidelity of the fan-out: when the relay handles a
Publish frame `P` from connection `c` and the topic table holds the
subscriber map of `P.Topic`, then (1) every entry of that map is handed, on
its own `send`, the Message frame with `topic = P.topic`, `encrypted_payload
= P.payload`, `sender_key_id = P.recipient_key_id` and `sender_public_key =
P.sender_public_key`; (2) nothing else is sent except the Ack to the
publisher; (3) the table is unchanged; and (4) which connections are sent to
does not depend on the payload bytes.  The handler takes neither the JSON
schema decoders nor the box: it cannot validate or open the payload. -/
theorem relay_fanout_fidelity (send : transport.Conn → proto.Frame → Option GoError)
    (r : mesh.RelayServer) (c : transport.Conn) (f : proto.Frame) (P : proto.PublishFrame)
    (subscribers : sync.Map String mesh.subInfo)
    (htype : f.Typ = proto.FrameTypePublish) (hpub : f.Publish = some P)
    (htable : r.subs.Load P.Topic = some subscribers) :
    (∀ e ∈ subscribers, ∀ target, e.2.send = some target →
        mesh.Event.sent target
          { Typ := 4, Publish := none, Subscribe := none, Unsubscribe := none,
            Message := some
              { Topic := P.Topic, EncryptedPayload := P.Payload, SenderKeyID := P.RecipientKeyID,
                SenderPublicKey := P.SenderPublicKey },
            Ack := none, Error := none, Discovery := none }
          ∈ (mesh.RelayServer.dispatch send r c f).2)
    ∧ (∀ target g, mesh.Event.sent target g ∈ (mesh.RelayServer.dispatch send r c f).2 →
        (g = { Typ := 4, Publish := none, Subscribe := none, Unsubscribe := none,
               Message := some
                 { Topic := P.Topic, EncryptedPayload := P.Payload,
                   SenderKeyID := P.RecipientKeyID, SenderPublicKey := P.SenderPublicKey },
               Ack := none, Error := none, Discovery := none }
            ∧ ∃ e ∈ subscribers, e.2.send = some target)
          ∨ (target = c ∧ g = mesh.ackFrame))
    ∧ (mesh.RelayServer.dispatch send r c f).1 = r
    ∧ (∀ payload : Option (List Byte),
        mesh.sendTargets
            (mesh.RelayServer.dispatch send r c
              { f with Publish := some { P with Payload := payload } }).2
          = mesh.sendTargets (mesh.RelayServer.dispatch send r c f).2) := by
  have hd := dispatch_publish send r c f P subscribers htype hpub htable
  have hmsg : mesh.forwardFrame P =
      { Typ := 4, Publish := none, Subscribe := none, Unsubscribe := none,
        Message := some
          { Topic := P.Topic, EncryptedPayload := P.Payload, SenderKeyID := P.RecipientKeyID,
            SenderPublicKey := P.SenderPublicKey },
        Ack := none, Error := none, Discovery := none } := rfl
  refine ⟨?_, ?_, ?_, ?_⟩
  · intro e he target hsend
    rw [hd, ← hmsg]
    apply List.mem_append_left
    rw [List.mem_flatMap]
    exact ⟨e, he, (mem_forwardEvents_sent send _ _ e target).2 ⟨hsend, rfl⟩⟩
  · intro target g hmem
    rw [hd, List.mem_append] at hmem
    rcases hmem with hmem | hmem
    · rw [List.mem_flatMap] at hmem
      obtain ⟨e, he, hin⟩ := hmem
      have h := (mem_forwardEvents_sent send _ _ e target).1 hin
      exact Or.inl ⟨by rw [h.2, hmsg], e, he, h.1⟩
    · simp only [List.mem_cons, List.mem_singleton, mesh.Event.sent.injEq, reduceCtorEq,
        false_or, List.not_mem_nil, or_false] at hmem
      exact Or.inr hmem
  · rw [hd]
  · intro payload
    have hd2 := dispatch_publish send r c { f with Publish := some { P with Payload := payload } }
      { P with Payload := payload } subscribers htype rfl htable
    rw [hd, hd2]
    simp only [sendTargets_append, sendTargets_flatMap_forwardEvents, mesh.sendTargets]

/-- A relay with two subscribers of `t/1`, and a Publish frame for that topic. -/
theorem relay_fanout_fidelity_witness :
    mesh.Event.sent ⟨2, some "10.0.0.2:5000"⟩
        { Typ := 4, Publish := none, Subscribe := none, Unsubscribe := none,
          Message := some
            { Topic := "t/1", EncryptedPayload := some [0, 1, 2, 253, 254, 255, 16],
              SenderKeyID := some [9, 8, 7, 6, 5, 4, 3, 2], SenderPublicKey := some [] },
          Ack := none, Error := none, Discovery := none }
      ∈ (mesh.RelayServer.dispatch (fun _ _ => none) sampleRelay ⟨7, some "10.0.0.9:1234"⟩
          sampleFrame).2 :=
  (relay_fanout_fidelity (fun _ _ => none) sampleRelay ⟨7, some "10.0.0.9:1234"⟩ sampleFrame
      { Topic := "t/1", Payload := some [0, 1, 2, 253, 254, 255, 16],
        SchemaID := "sensor.Temperature",
        RecipientKeyID := some [9, 8, 7, 6, 5, 4, 3, 2], SenderPublicKey := some [] }
      [("10.0.0.1:5000", ⟨"", some [1], some ⟨1, some "10.0.0.1:5000"⟩⟩),
        ("10.0.0.2:5000", ⟨"sensor.Temperature", some [2], some ⟨2, some "10.0.0.2:5000"⟩⟩)]
      rfl rfl (by decide)).1
    ("10.0.0.2:5000", ⟨"sensor.Temperature", some [2], some ⟨2, some "10.0.0.2:5000"⟩⟩)
    (by decide) ⟨2, some "10.0.0.2:5000"⟩ rfl

/-! ## C5: cleanup on disconnect -/

/-- C5. Disconnect cleanup: for every initial topic table and every sequence
of frames handled on a connection `c`, after the handler has exited no
topic's inner map contains an entry under the key `c.RemoteAddr()`, a lookup of
that key finds nothing, and the handler's last act is to close `c`. -/
theorem relay_disconnect_cleanup (send : transport.Conn → proto.Frame → Option GoError)
    (r : mesh.RelayServer) (c : transport.Conn) (frames : List proto.Frame) :
    (∀ topic inner, (topic, inner) ∈ (mesh.RelayServer.handleConn send r c frames).1.subs →
        (∀ si, (c.RemoteAddr, si) ∉ inner) ∧ sync.Map.Load inner c.RemoteAddr = none)
    ∧ (mesh.RelayServer.handleConn send r c frames).2.getLast? = some (.closed c) := by
  constructor
  · intro topic inner hmem
    simp only [mesh.RelayServer.handleConn, List.mem_map] at hmem
    obtain ⟨e, _, he⟩ := hmem
    have hinner : inner = sync.Map.Delete e.2 c.RemoteAddr := (Prod.mk.inj he).2.symm
    have hno : ∀ si, (c.RemoteAddr, si) ∉ inner := by
      intro si hsi
      rw [hinner, sync.Map.Delete, List.mem_filter] at hsi
      simp at hsi
    refine ⟨hno, ?_⟩
    unfold sync.Map.Load
    rw [Option.map_eq_none', List.find?_eq_none]
    intro x hx hkey
    have hk : x.1 = c.RemoteAddr := by simpa using hkey
    exact hno x.2 (by rw [← hk]; exact hx)
  · simp [mesh.RelayServer.handleConn]

/-- After `c` subscribed to ten topics on an empty relay and disconnected,
each of the ten inner maps is empty. -/
theorem relay_cleanup_ten_topics :
    (mesh.RelayServer.handleConn (fun _ _ => none) ⟨[]⟩ ⟨1, some "10.0.0.1:5000"⟩
        ((List.range 10).map fun i =>
          { proto.Frame.zero with
            Typ := proto.FrameTypeSubscribe
            Subscribe := some { Topic := String.mk [Char.ofNat (0x61 + i)], SchemaID := "",
                                PublicKey := some [] } })).1
      = ⟨[("a", []), ("b", []), ("c", []), ("d", []), ("e", []), ("f", []), ("g", []), ("h", []),
          ("i", []), ("j", [])]⟩ := by
  decide

/-! ## C6: the envelope round trip -/

theorem demoBox_tag_length (pk : crypto.PublicKey) (sk : crypto.PrivateKey) :
    ((List.zipWith (· + ·) pk.val sk.val).take 16).length = 16 := by
  rw [List.length_take, List.length_zipWith, pk.property, sk.property]
  decide

/-- The transparent box satisfies the contract of `nacl/box`. -/
theorem demoBox_correct : crypto.demoBox.Correct where
  seal_append := by
    intro out m n pk sk
    simp [crypto.demoBox]
  seal_length := by
    intro m n pk sk
    simp only [crypto.demoBox, List.nil_append, List.length_append, demoBox_tag_length,
      crypto.BoxLib.Overhead]
    omega
  open_seal := by
    intro m n senderPriv recipientPriv
    have hcomm : List.zipWith (· + ·) senderPriv.val recipientPriv.val
        = List.zipWith (· + ·) recipientPriv.val senderPriv.val :=
      List.zipWith_comm_of_comm _ (fun x y => add_comm x y) _ _
    have hlen := demoBox_tag_length ⟨recipientPriv.val, recipientPriv.property⟩ senderPriv
    simp only [crypto.demoBox, List.nil_append, hcomm]
    rw [List.take_left' hlen, List.drop_left' hlen]
    simp

/-- C6. Envelope round trip: for every plaintext (the empty one included),
every sender and recipient key pair and every nonce that `Seal` draws, given
a box library that meets the contract of `nacl/box`, `Seal` returns the
24-byte nonce followed by the box ciphertext, of length `24 + len(plaintext)
+ 16 ≥ 40`, and `Open` of it with the sender's public key and the recipient's
private key succeeds and returns the plaintext. -/
theorem envelope_round_trip (box : crypto.BoxLib) (hbox : box.Correct) (plaintext : List Byte)
    (senderPub recipientPub : crypto.PublicKey) (senderPriv recipientPriv : crypto.PrivateKey)
    (nonce : crypto.Nonce)
    (hsender : box.PublicOf senderPriv = senderPub)
    (hrecipient : box.PublicOf recipientPriv = recipientPub) :
    ∃ envelope : List Byte,
      crypto.Seal box (.ok nonce) plaintext recipientPub senderPriv = .ok envelope
      ∧ envelope = nonce.val ++ box.Seal [] plaintext nonce recipientPub senderPriv
      ∧ envelope.length = 24 + plaintext.length + 16
      ∧ 40 ≤ envelope.length
      ∧ crypto.Open box envelope senderPub recipientPriv = some plaintext := by
  subst hsender hrecipient
  have hlen : (nonce.val ++ box.Seal [] plaintext nonce (box.PublicOf recipientPriv)
      senderPriv).length = 24 + plaintext.length + 16 := by
    rw [List.length_append, hbox.seal_length, nonce.property]
    simp only [crypto.NonceSize, crypto.BoxLib.Overhead]
    omega
  refine ⟨nonce.val ++ box.Seal [] plaintext nonce (box.PublicOf recipientPriv) senderPriv, ?_,
    rfl, hlen, by omega, ?_⟩
  · simp only [crypto.Seal]
    rw [hbox.seal_append]
  · have hn : nonce.val.length = crypto.NonceSize := nonce.property
    have hnot : ¬ (nonce.val ++ box.Seal [] plaintext nonce (box.PublicOf recipientPriv)
        senderPriv).length < crypto.NonceSize + crypto.BoxLib.Overhead := by
      rw [hlen]
      simp only [crypto.NonceSize, crypto.BoxLib.Overhead]
      omega
    simp only [crypto.Open, hnot, dite_false, List.take_left' hn, List.drop_left' hn]
    exact hbox.open_seal plaintext nonce senderPriv recipientPriv

/-- The round trip of the empty plaintext through the transparent box. -/
theorem envelope_round_trip_witness :
    ∃ envelope : List Byte,
      crypto.Seal crypto.demoBox (.ok sampleNonce) [] sampleKeyB sampleKeyA = .ok envelope
      ∧ envelope = sampleNonce.val ++ crypto.demoBox.Seal [] [] sampleNonce sampleKeyB sampleKeyA
      ∧ envelope.length = 24 + ([] : List Byte).length + 16
      ∧ 40 ≤ envelope.length
      ∧ crypto.Open crypto.demoBox envelope sampleKeyA sampleKeyB = some [] :=
  envelope_round_trip crypto.demoBox demoBox_correct [] sampleKeyA sampleKeyB sampleKeyA sampleKeyB
    sampleNonce rfl rfl

/-! ## C7 and C8: schema validation -/

theorem ValidatePayload_unknown (json : JSONLib) (schemaID : String) (payload : List Byte)
    (h : schemaID ∉ proto.KnownSchemas) :
    proto.ValidatePayload json schemaID payload = some (.errorf ("unknown schema: " ++ schemaID)) := by
  simp only [proto.KnownSchemas, List.mem_cons, List.mem_singleton, List.not_mem_nil, or_false,
    not_or] at h
  simp only [proto.ValidatePayload, h.1, h.2.1, h.2.2, if_false]

theorem ValidatePayload_temperature (json : JSONLib) (payload : List Byte) :
    proto.ValidatePayload json proto.SchemaTemperature payload =
      match json.UnmarshalTemperature payload with
      | .error msg => some (.wrapf "invalid Temperature: " (.json msg))
      | .ok _ => none := by
  simp only [proto.ValidatePayload, if_true]

theorem ValidatePayload_humidity (json : JSONLib) (payload : List Byte) :
    proto.ValidatePayload json proto.SchemaHumidity payload =
      match json.UnmarshalHumidity payload with
      | .error msg => some (.wrapf "invalid Humidity: " (.json msg))
      | .ok _ => none := by
  have h : ¬ (proto.SchemaHumidity = proto.SchemaTemperature) := by decide
  simp only [proto.ValidatePayload, h, if_false, if_true]

theorem ValidatePayload_command (json : JSONLib) (payload : List Byte) :
    proto.ValidatePayload json proto.SchemaCommand payload =
      match json.UnmarshalCommand payload with
      | .error msg => some (.wrapf "invalid Command: " (.json msg))
      | .ok c => if c.Action = "" then some (.errorf "Command.action required") else none := by
  have h1 : ¬ (proto.SchemaCommand = proto.SchemaTemperature) := by decide
  have h2 : ¬ (proto.SchemaCommand = proto.SchemaHumidity) := by decide
  simp only [proto.ValidatePayload, h1, h2, if_false, if_true]

theorem action_required_ne_unknown (x : String) :
    "Command.action required" ≠ "unknown schema: " ++ x := by
  intro h
  have hd := congrArg String.data h
  rw [String.data_append] at hd
  have hh := congrArg List.head? hd
  simp at hh

theorem invalid_ne_unknown (schema msg x : String) :
    ("invalid " ++ schema) ++ msg ≠ "unknown schema: " ++ x := by
  intro h
  have hd := congrArg String.data h
  simp only [String.data_append] at hd
  have hh := congrArg List.head? hd
  simp at hh

/-- C7. Unknown schema rejection: for every schema ID that is not one of the
three built-in IDs (the empty string included) and every payload, valid JSON
or not, `ValidatePayload` returns the unknown-schema error
`unknown schema: <schemaID>` (the kind SCHEMA_UNKNOWN). -/
theorem validate_unknown_schema (json : JSONLib) (schemaID : String) (payload : List Byte)
    (h : schemaID ∉ proto.KnownSchemas) :
    proto.ValidatePayload json schemaID payload = some (.errorf ("unknown schema: " ++ schemaID)) :=
  ValidatePayload_unknown json schemaID payload h

/-- The empty schema ID with a payload that is valid JSON. -/
theorem validate_unknown_schema_witness :
    "" ∉ proto.KnownSchemas
    ∧ proto.ValidatePayload goJSON "" (json.utf8 "\x7b\"celsius\":22.5\x7d")
        = some (.errorf ("unknown schema: " ++ "")) :=
  ⟨by decide, validate_unknown_schema goJSON "" (json.utf8 "\x7b\"celsius\":22.5\x7d") (by decide)⟩

/-- C8. Known-schema validation: for each of the three built-in schema IDs
and every payload, `ValidatePayload` succeeds if and only if the payload
JSON-decodes into that schema's struct and, for `control.Command` only, the
decoded action is non-empty.  A payload the JSON decoder rejects fails with
the invalid-schema error `invalid <Schema>: <json error>`, which wraps the
decoder's error; a Command whose decoded action is empty (missing or `""`)
fails with `Command.action required`; and the message of none of these errors
is the message `unknown schema: ...` of an unknown-schema error. -/
theorem validate_known_schema (json : JSONLib) (payload : List Byte) :
    (proto.ValidatePayload json "sensor.Temperature" payload = none
        ↔ ∃ t, json.UnmarshalTemperature payload = .ok t)
    ∧ (proto.ValidatePayload json "sensor.Humidity" payload = none
        ↔ ∃ h, json.UnmarshalHumidity payload = .ok h)
    ∧ (proto.ValidatePayload json "control.Command" payload = none
        ↔ ∃ c, json.UnmarshalCommand payload = .ok c ∧ c.Action ≠ "")
    ∧ (∀ msg, json.UnmarshalTemperature payload = .error msg →
        proto.ValidatePayload json "sensor.Temperature" payload
          = some (.wrapf "invalid Temperature: " (.json msg)))
    ∧ (∀ msg, json.UnmarshalHumidity payload = .error msg →
        proto.ValidatePayload json "sensor.Humidity" payload
          = some (.wrapf "invalid Humidity: " (.json msg)))
    ∧ (∀ msg, json.UnmarshalCommand payload = .error msg →
        proto.ValidatePayload json "control.Command" payload
          = some (.wrapf "invalid Command: " (.json msg)))
    ∧ (∀ c, json.UnmarshalCommand payload = .ok c → c.Action = "" →
        proto.ValidatePayload json "control.Command" payload
          = some (.errorf "Command.action required"))
    ∧ (∀ schemaID ∈ proto.KnownSchemas, ∀ e, proto.ValidatePayload json schemaID payload = some e →
        ∀ x : String, e.Error ≠ "unknown schema: " ++ x) := by
  have hT := ValidatePayload_temperature json payload
  have hH := ValidatePayload_humidity json payload
  have hC := ValidatePayload_command json payload
  simp only [proto.SchemaTemperature, proto.SchemaHumidity, proto.SchemaCommand] at hT hH hC
  refine ⟨?_, ?_, ?_, ?_, ?_, ?_, ?_, ?_⟩
  · rw [hT]
    cases json.UnmarshalTemperature payload <;> simp
  · rw [hH]
    cases json.UnmarshalHumidity payload <;> simp
  · rw [hC]
    cases hc : json.UnmarshalCommand payload with
    | error msg => simp
    | ok c => by_cases ha : c.Action = "" <;> simp [ha]
  · intro msg hmsg
    rw [hT, hmsg]
  · intro msg hmsg
    rw [hH, hmsg]
  · intro msg hmsg
    rw [hC, hmsg]
  · intro c hc ha
    rw [hC, hc]
    simp [ha]
  · intro schemaID hmem e he x
    simp only [proto.KnownSchemas, proto.SchemaTemperature, proto.SchemaHumidity,
      proto.SchemaCommand, List.mem_cons, List.mem_singleton, List.not_mem_nil, or_false] at hmem
    rcases hmem with h | h | h
    · rw [h, hT] at he
      cases hu : json.UnmarshalTemperature payload with
      | ok t => simp [hu] at he
      | error msg =>
        simp only [hu, Option.some.injEq] at he
        rw [← he]
        exact invalid_ne_unknown "Temperature: " (GoError.json msg).Error x
    · rw [h, hH] at he
      cases hu : json.UnmarshalHumidity payload with
      | ok t => simp [hu] at he
      | error msg =>
        simp only [hu, Option.some.injEq] at he
        rw [← he]
        exact invalid_ne_unknown "Humidity: " (GoError.json msg).Error x
    · rw [h, hC] at he
      cases hu : json.UnmarshalCommand payload with
      | error msg =>
        simp only [hu, Option.some.injEq] at he
        rw [← he]
        exact invalid_ne_unknown "Command: " (GoError.json msg).Error x
      | ok c =>
        by_cases ha : c.Action = ""
        · simp only [hu, ha, if_true, Option.some.injEq] at he
          rw [← he]
          exact action_required_ne_unknown x
        · simp [hu, ha] at he

set_option maxRecDepth 100000 in
set_option exponentiation.threshold 2000 in
/-- The validator on literal payloads, under the reference JSON model: the
temperature reading of the specification is accepted; text that is not JSON
is rejected as invalid; a Command is accepted with an action and rejected when
the action is missing or empty; a made-up schema ID is unknown. -/
theorem validate_examples :
    proto.ValidatePayload goJSON "sensor.Temperature"
        (json.utf8 "\x7b\"celsius\":22.5,\"timestamp_ms\":1000,\"sensor_id\":\"a\"\x7d") = none
    ∧ proto.ValidatePayload goJSON "sensor.Temperature" (json.utf8 "not json")
        = some (.wrapf "invalid Temperature: " (.json "invalid JSON input"))
    ∧ proto.ValidatePayload goJSON "control.Command" (json.utf8 "\x7b\"action\":\"on\"\x7d") = none
    ∧ proto.ValidatePayload goJSON "control.Command" (json.utf8 "\x7b\x7d")
        = some (.errorf "Command.action required")
    ∧ proto.ValidatePayload goJSON "control.Command" (json.utf8 "\x7b\"action\":\"\"\x7d")
        = some (.errorf "Command.action required")
    ∧ proto.ValidatePayload goJSON "made.Up" (json.utf8 "\x7b\"celsius\":1.0\x7d")
        = some (.errorf "unknown schema: made.Up") := by
  decide

/-! ## C9: Publish fails fast on schema errors -/

/-- C9. Publish fails fast on schema errors: for every node (with or without
a relay), topic, schema ID, plaintext and recipient key, if
`ValidatePayload(schemaID, plaintext)` fails with `err` then `Node.Publish`
returns that very error and has no effect at all: no call of `Seal`, no dial,
no frame sent; so does `Client.Publish` on an open client. -/
theorem publish_fails_fast (env : mesh.Env) (n : mesh.Node) (topic schemaID : String)
    (payload : List Byte) (recipientPub : crypto.PublicKey) (err : GoError)
    (hinvalid : proto.ValidatePayload env.json schemaID payload = some err) :
    n.Publish env topic schemaID payload recipientPub = (some err, [])
    ∧ (∀ c : client.Client, c.node = n → c.closed = false →
        c.Publish env topic schemaID payload recipientPub = (some err, [])) := by
  have hnode : n.Publish env topic schemaID payload recipientPub = (some err, []) := by
    simp only [mesh.Node.Publish, hinvalid]
  refine ⟨hnode, ?_⟩
  intro c hc hopen
  simp only [client.Client.Publish, hopen, hc, hnode]
  rfl

set_option maxRecDepth 100000 in
/-- Scenario 3 of the specification, on a node with a relay: text that is not
JSON under `sensor.Temperature`; and scenario 4, a made-up schema ID. -/
theorem publish_fails_fast_witness :
    sampleNode.Publish sampleEnv "t/3" "sensor.Temperature" (json.utf8 "not json") sampleKeyB
        = (some (.wrapf "invalid Temperature: " (.json "invalid JSON input")), [])
    ∧ sampleNode.Publish sampleEnv "t/4" "made.Up" (json.utf8 "\x7b\"celsius\":1.0\x7d") sampleKeyB
        = (some (.errorf "unknown schema: made.Up"), []) :=
  ⟨(publish_fails_fast sampleEnv sampleNode "t/3" "sensor.Temperature" (json.utf8 "not json")
      sampleKeyB _ (by decide)).1,
    (publish_fails_fast sampleEnv sampleNode "t/4" "made.Up" (json.utf8 "\x7b\"celsius\":1.0\x7d")
      sampleKeyB _ (by decide)).1⟩

/-! ## C10: Subscribe without a relay -/

theorem NewNode_relay (env : mesh.Env) (cfg : mesh.Config) (n : mesh.Node)
    (hnew : mesh.NewNode env cfg = .ok n) :
    n.relay = if cfg.RelayAddr ≠ "" then some (mesh.NewRelay cfg.RelayAddr) else none := by
  unfold mesh.NewNode at hnew
  split at hnew
  · exact absurd hnew (by simp)
  · split at hnew
    · exact absurd hnew (by simp)
    · split at hnew
      · exact absurd hnew (by simp)
      · rw [← Except.ok.inj hnew]

theorem Subscribe_no_relay (env : mesh.Env) (n : mesh.Node) (topic schemaID : String)
    (hrelay : n.relay = none) : n.Subscribe env topic schemaID = (n, none, []) := by
  simp only [mesh.Node.Subscribe, hrelay]

/-- C10, counterexample. A node created with an empty `RelayAddr` subscribes
"successfully": `Node.Subscribe` returns nil, not an error. -/
theorem subscribe_without_relay_returns_nil :
    mesh.NewNode sampleEnv
        { Addr := ":0", NodeID := "n1", RelayAddr := "", OnMessage := true,
          DisableDiscovery := true } = .ok sampleNodeNoRelay
    ∧ (sampleNodeNoRelay.Subscribe sampleEnv "t/1" "sensor.Temperature").2.1 = none := by
  decide

/-- C10, as amended. For every node created with an empty `RelayAddr` and
every topic and schema ID, `Node.Subscribe` (and `Client.Subscribe` on an open
client of that node) returns nil, leaves the node unchanged, and has no
effect: nothing is dialled or sent and no receive loop is started. -/
theorem subscribe_without_relay (env : mesh.Env) (cfg : mesh.Config) (n : mesh.Node)
    (topic schemaID : String)
    (hcfg : cfg.RelayAddr = "") (hnew : mesh.NewNode env cfg = .ok n) :
    n.Subscribe env topic schemaID = (n, none, [])
    ∧ (∀ c : client.Client, c.node = n → c.closed = false →
        c.Subscribe env topic schemaID = (c, none, [])) := by
  have hrelay : n.relay = none := by
    rw [NewNode_relay env cfg n hnew, hcfg]
    simp
  have hnode := Subscribe_no_relay env n topic schemaID hrelay
  refine ⟨hnode, ?_⟩
  intro c hc hopen
  subst hc
  obtain ⟨node, msgs, closed⟩ := c
  simp only at hopen hnode
  subst hopen
  simp [client.Client.Subscribe, hnode]

theorem subscribe_without_relay_witness :
    sampleNodeNoRelay.Subscribe sampleEnv "t/1" "" = (sampleNodeNoRelay, none, []) :=
  (subscribe_without_relay sampleEnv
    { Addr := ":0", NodeID := "n1", RelayAddr := "", OnMessage := true, DisableDiscovery := true }
    sampleNodeNoRelay "t/1" "" rfl (by decide)).1

/-! ## Lookups in a `sync.Map` -/

section
variable {κ ν : Type} [DecidableEq κ]

theorem Load_nil (k : κ) : sync.Map.Load ([] : sync.Map κ ν) k = none := rfl

theorem Load_cons (e : κ × ν) (m : sync.Map κ ν) (k : κ) :
    sync.Map.Load (e :: m) k = if e.1 = k then some e.2 else sync.Map.Load m k := by
  unfold sync.Map.Load
  by_cases h : e.1 = k <;> simp [List.find?_cons, h]

theorem Load_append (a b : sync.Map κ ν) (k : κ) :
    sync.Map.Load (a ++ b) k = (sync.Map.Load a k).orElse fun _ => sync.Map.Load b k := by
  induction a with
  | nil => simp [Load_nil]
  | cons e rest ih =>
    rw [List.cons_append, Load_cons, Load_cons, ih]
    by_cases h : e.1 = k <;> simp [h]

theorem Load_eq_none (m : sync.Map κ ν) (k : κ) :
    sync.Map.Load m k = none ↔ ∀ e ∈ m, e.1 ≠ k := by
  unfold sync.Map.Load
  simp [List.find?_eq_none]

theorem Load_mutate (m : sync.Map κ ν) (k k2 : κ) (g : ν → ν) :
    sync.Map.Load (m.mutate k g) k2
      = if k2 = k then (sync.Map.Load m k2).map g else sync.Map.Load m k2 := by
  induction m with
  | nil => simp [sync.Map.mutate, Load_nil]
  | cons e rest ih =>
    have hcons : sync.Map.mutate (e :: rest) k g
        = (if e.1 = k then (e.1, g e.2) else e) :: sync.Map.mutate rest k g := rfl
    rw [hcons, Load_cons, Load_cons, ih]
    by_cases h1 : e.1 = k <;> by_cases h2 : k2 = k <;> by_cases h3 : e.1 = k2 <;>
      simp_all

theorem Load_Delete_self (m : sync.Map κ ν) (k : κ) : sync.Map.Load (m.Delete k) k = none := by
  rw [Load_eq_none]
  intro e he
  simp only [sync.Map.Delete, List.mem_filter, decide_eq_true_eq] at he
  exact he.2

theorem Load_Delete_of_ne (m : sync.Map κ ν) (k k2 : κ) (h : k2 ≠ k) :
    sync.Map.Load (m.Delete k) k2 = sync.Map.Load m k2 := by
  induction m with
  | nil => rfl
  | cons e rest ih =>
    by_cases h1 : e.1 = k
    · have : sync.Map.Delete (e :: rest) k = sync.Map.Delete rest k := by
        simp [sync.Map.Delete, h1]
      rw [this, ih, Load_cons, if_neg (by rw [h1]; exact fun h2 => h h2.symm)]
    · have : sync.Map.Delete (e :: rest) k = e :: sync.Map.Delete rest k := by
        simp [sync.Map.Delete, h1]
      rw [this, Load_cons, Load_cons, ih]

theorem Load_Store_self (m : sync.Map κ ν) (k : κ) (v : ν) :
    sync.Map.Load (m.Store k v) k = some v := by
  rw [sync.Map.Store, Load_append, Load_Delete_self, Load_cons]
  simp

theorem Load_Store_of_ne (m : sync.Map κ ν) (k k2 : κ) (v : ν) (h : k2 ≠ k) :
    sync.Map.Load (m.Store k v) k2 = sync.Map.Load m k2 := by
  rw [sync.Map.Store, Load_append, Load_Delete_of_ne _ _ _ h, Load_cons, if_neg (fun h2 => h h2.symm),
    Load_nil]
  cases sync.Map.Load m k2 <;> rfl

/-- After `Store` the map holds one entry under the key, the one stored. -/
theorem Store_filter_self (m : sync.Map κ ν) (k : κ) (v : ν) :
    (m.Store k v).filter (fun e => e.1 = k) = [(k, v)] := by
  simp only [sync.Map.Store, sync.Map.Delete, List.filter_append, List.filter_filter]
  simp

theorem Delete_of_not_mem (m : sync.Map κ ν) (k : κ) (h : ∀ e ∈ m, e.1 ≠ k) :
    m.Delete k = m := by
  simp only [sync.Map.Delete, List.filter_eq_self, decide_eq_true_eq]
  exact h

theorem Delete_Delete (m : sync.Map κ ν) (k : κ) : (m.Delete k).Delete k = m.Delete k := by
  simp [sync.Map.Delete, List.filter_filter]

theorem Load_LoadOrStore (m : sync.Map κ ν) (k : κ) (v : ν) :
    sync.Map.Load (m.LoadOrStore k v).2 k = some ((sync.Map.Load m k).getD v) := by
  unfold sync.Map.LoadOrStore
  cases h : sync.Map.Load m k with
  | none => simp [Load_append, h, Load_cons, Load_nil]
  | some actual => simp [h]

theorem map_fst_mutate (m : sync.Map κ ν) (k : κ) (g : ν → ν) :
    (m.mutate k g).map Prod.fst = m.map Prod.fst := by
  simp only [sync.Map.mutate, List.map_map]
  apply List.map_congr_left
  intro e _
  by_cases h : e.1 = k <;> simp [h]

theorem nodup_keys_Delete (m : sync.Map κ ν) (k : κ) (h : (m.map Prod.fst).Nodup) :
    ((m.Delete k).map Prod.fst).Nodup :=
  h.sublist ((List.filter_sublist m).map Prod.fst)

theorem nodup_keys_Store (m : sync.Map κ ν) (k : κ) (v : ν) (h : (m.map Prod.fst).Nodup) :
    ((m.Store k v).map Prod.fst).Nodup := by
  rw [sync.Map.Store, List.map_append, List.nodup_append]
  refine ⟨nodup_keys_Delete m k h, by simp, ?_⟩
  intro a ha hb
  simp only [List.map_cons, List.map_nil, List.mem_singleton] at hb
  subst hb
  simp only [sync.Map.Delete, List.mem_map, List.mem_filter, decide_eq_true_eq] at ha
  obtain ⟨e, ⟨_, hne⟩, he⟩ := ha
  exact hne he

theorem nodup_keys_LoadOrStore (m : sync.Map κ ν) (k : κ) (v : ν) (h : (m.map Prod.fst).Nodup) :
    ((m.LoadOrStore k v).2.map Prod.fst).Nodup := by
  unfold sync.Map.LoadOrStore
  cases hl : sync.Map.Load m k with
  | some actual => exact h
  | none =>
    simp only [List.map_append, List.map_cons, List.map_nil]
    rw [List.nodup_append]
    refine ⟨h, by simp, ?_⟩
    intro a ha hb
    simp only [List.mem_singleton] at hb
    subst hb
    rw [List.mem_map] at ha
    obtain ⟨e, he, hk⟩ := ha
    exact (Load_eq_none m _).1 hl e he hk

end

/-! ## C11: the closed state of the client -/

theorem call_of_closed (env : mesh.Env) (c : client.Client) (hclosed : c.closed = true)
    (x : client.Call) : c.call env x = (c, x.closedResult, []) := by
  cases x <;>
    simp [client.Client.call, client.Client.Publish, client.Client.Subscribe, client.Client.Close,
      hclosed, client.Call.closedResult]

theorem calls_of_closed (env : mesh.Env) (c : client.Client) (hclosed : c.closed = true)
    (calls : List client.Call) :
    c.calls env calls = (c, calls.map fun x => (x.closedResult, [])) := by
  induction calls with
  | nil => rfl
  | cons x rest ih => simp [client.Client.calls, call_of_closed env c hclosed, ih]

theorem Close_closed (c : client.Client) : c.Close.1.closed = true := by
  unfold client.Client.Close
  by_cases h : c.closed = true
  · simp [h]
  · simp [h]

/-- C11. Closed state of the client: for every client `c`, after `c.Close()`
the closed flag is set; every sequence of later calls of Publish, Subscribe
and Close leaves the client as it is, the flag still set, each Publish and
Subscribe returning `ErrClosed` and each Close returning nil, all without any
effect: no call of the node, no second close of the node or of the message
channel.  The same holds of every client whose flag is set.  And the first
Close of an open client closes the node and then the channel, once each. -/
theorem client_closed_state (env : mesh.Env) (c : client.Client) :
    c.Close.1.closed = true
    ∧ (∀ calls : List client.Call,
        c.Close.1.calls env calls = (c.Close.1, calls.map fun x => (x.closedResult, [])))
    ∧ (∀ d : client.Client, d.closed = true →
        (∀ topic schemaID payload recipientPub,
          d.Publish env topic schemaID payload recipientPub = (some client.ErrClosed, []))
        ∧ (∀ topic schemaID, d.Subscribe env topic schemaID = (d, some client.ErrClosed, []))
        ∧ d.Close = (d, none, []))
    ∧ (c.closed = false →
        c.Close = ({ c with closed := true, msgs := { c.msgs with isClosed := true } }, none,
          c.node.Close.2 ++ [.closeMsgs])) := by
  refine ⟨Close_closed c, calls_of_closed env _ (Close_closed c), ?_, ?_⟩
  · intro d hd
    simp [client.Client.Publish, client.Client.Subscribe, client.Client.Close, hd]
  · intro h
    simp [client.Client.Close, h, mesh.Node.Close]

/-- The sample client is closed, then used: the first Close closes the
listener and the channel, the calls after it do nothing. -/
theorem client_close_example :
    (sampleClient.calls sampleEnv
        [.Close, .Publish "t/1" "sensor.Temperature" samplePayload sampleKeyB,
          .Subscribe "t/1" "sensor.Temperature", .Close]).2
      = [(none, [.closeListener, .closeMsgs]), (some client.ErrClosed, []),
          (some client.ErrClosed, []), (none, [])] := by
  decide

/-! ## C12: a second Subscribe supersedes the first -/

theorem dispatch_subscribe (send : transport.Conn → proto.Frame → Option GoError)
    (r : mesh.RelayServer) (c : transport.Conn) (f : proto.Frame) (S : proto.SubscribeFrame)
    (htype : f.Typ = proto.FrameTypeSubscribe) (hsub : f.Subscribe = some S) :
    mesh.RelayServer.dispatch send r c f =
      ({ subs := (r.subs.LoadOrStore S.Topic []).2.mutate S.Topic fun m =>
            m.Store c.RemoteAddr
              { schemaID := S.SchemaID, publicKey := S.PublicKey, send := some c } },
        [.sent c mesh.ackFrame]) := by
  simp only [mesh.RelayServer.dispatch, htype, if_true, hsub]

theorem dispatch_unsubscribe (send : transport.Conn → proto.Frame → Option GoError)
    (r : mesh.RelayServer) (c : transport.Conn) (f : proto.Frame) (U : proto.UnsubscribeFrame)
    (htype : f.Typ = proto.FrameTypeUnsubscribe) (hunsub : f.Unsubscribe = some U) :
    mesh.RelayServer.dispatch send r c f =
      ({ subs := r.subs.mutate U.Topic fun m => m.Delete c.RemoteAddr }, []) := by
  have h1 : ¬ (proto.FrameTypeUnsubscribe = proto.FrameTypeSubscribe) := by decide
  simp only [mesh.RelayServer.dispatch, htype, h1, if_false, if_true, hunsub]
  cases hl : sync.Map.Load r.subs U.Topic with
  | some inner => rfl
  | none =>
    simp only [Prod.mk.injEq, and_true]
    have hno := (Load_eq_none r.subs U.Topic).1 hl
    have : sync.Map.mutate r.subs U.Topic (fun m => m.Delete c.RemoteAddr) = r.subs := by
      unfold sync.Map.mutate
      conv_rhs => rw [← List.map_id r.subs]
      apply List.map_congr_left
      intro e he
      simp [hno e he]
    rw [this]

/-- The table of a relay changes only at a Subscribe or an Unsubscribe frame. -/
theorem dispatch_table (send : transport.Conn → proto.Frame → Option GoError)
    (r : mesh.RelayServer) (c : transport.Conn) (f : proto.Frame) :
    (∃ S, f.Typ = proto.FrameTypeSubscribe ∧ f.Subscribe = some S)
    ∨ (∃ U, f.Typ = proto.FrameTypeUnsubscribe ∧ f.Unsubscribe = some U)
    ∨ (mesh.RelayServer.dispatch send r c f).1 = r := by
  by_cases h1 : f.Typ = proto.FrameTypeSubscribe
  · cases hs : f.Subscribe with
    | some S => exact Or.inl ⟨S, h1, rfl⟩
    | none => right; right; simp only [mesh.RelayServer.dispatch, h1, if_true, hs]
  · by_cases h2 : f.Typ = proto.FrameTypeUnsubscribe
    · cases hu : f.Unsubscribe with
      | some U => exact Or.inr (Or.inl ⟨U, h2, rfl⟩)
      | none =>
        right; right
        have h3 : ¬ (proto.FrameTypeUnsubscribe = proto.FrameTypeSubscribe) := by decide
        simp only [mesh.RelayServer.dispatch, h2, h3, if_true, if_false, hu]
    · right; right
      simp only [mesh.RelayServer.dispatch, h1, h2, if_false]
      split
      · split
        · split <;> rfl
        · rfl
      · rfl

theorem onePerPair_mutate (subs : sync.Map String (sync.Map String mesh.subInfo)) (topic : String)
    (g : sync.Map String mesh.subInfo → sync.Map String mesh.subInfo)
    (hg : ∀ m, (m.map Prod.fst).Nodup → ((g m).map Prod.fst).Nodup)
    (h : mesh.RelayServer.onePerPair ⟨subs⟩) :
    mesh.RelayServer.onePerPair ⟨subs.mutate topic g⟩ := by
  refine ⟨?_, ?_⟩
  · show ((sync.Map.mutate subs topic g).map Prod.fst).Nodup
    rw [map_fst_mutate]
    exact h.1
  · intro e he
    simp only [sync.Map.mutate, List.mem_map] at he
    obtain ⟨e0, he0, rfl⟩ := he
    by_cases hk : e0.1 = topic
    · simp only [hk, if_true]
      exact hg _ (h.2 e0 he0)
    · simp only [hk, if_false]
      exact h.2 e0 he0

/-- Every frame handled keeps the table free of doubles. -/
theorem dispatch_onePerPair (send : transport.Conn → proto.Frame → Option GoError)
    (r : mesh.RelayServer) (c : transport.Conn) (f : proto.Frame) (h : r.onePerPair) :
    (mesh.RelayServer.dispatch send r c f).1.onePerPair := by
  rcases dispatch_table send r c f with ⟨S, ht, hs⟩ | ⟨U, ht, hu⟩ | hsame
  · rw [dispatch_subscribe send r c f S ht hs]
    apply onePerPair_mutate _ _ _ (fun m hm => nodup_keys_Store m _ _ hm)
    refine ⟨nodup_keys_LoadOrStore _ _ _ h.1, ?_⟩
    intro e he
    unfold sync.Map.LoadOrStore at he
    cases hl : sync.Map.Load r.subs S.Topic with
    | some actual =>
      rw [hl] at he
      exact h.2 e he
    | none =>
      rw [hl] at he
      simp only [List.mem_append, List.mem_singleton] at he
      rcases he with he | he
      · exact h.2 e he
      · subst he
        exact List.nodup_nil
  · rw [dispatch_unsubscribe send r c f U ht hu]
    exact onePerPair_mutate _ _ _ (fun m hm => nodup_keys_Delete m _ hm) h
  · rw [hsame]
    exact h

theorem Load_after_subscribe (subs : sync.Map String (sync.Map String mesh.subInfo))
    (topic key : String) (si : mesh.subInfo) :
    sync.Map.Load ((subs.LoadOrStore topic []).2.mutate topic fun m => m.Store key si) topic
      = some (((sync.Map.Load subs topic).getD []).Store key si) := by
  rw [Load_mutate, if_pos rfl, Load_LoadOrStore]
  rfl

/-- C12. Re-subscribe supersedes: for every topic table `r`, connection `c`
(whose key is `c.RemoteAddr()`) and Subscribe frames `S1`, `S2` with the same
topic handled on `c`, each Subscribe is answered with exactly one frame, the
Ack with `ok = true`, sent to `c`; after `S2` the table has an inner map for
the topic, that map holds exactly one entry under the key, and the entry
carries the schema ID and the public key of `S2` and the send function of
`c`; and a table without doubles (no topic twice, no key twice under a topic)
is still without doubles afterwards. -/
theorem resubscribe_supersedes (send : transport.Conn → proto.Frame → Option GoError)
    (r : mesh.RelayServer) (c : transport.Conn) (f1 f2 : proto.Frame)
    (S1 S2 : proto.SubscribeFrame)
    (htype1 : f1.Typ = proto.FrameTypeSubscribe) (hsub1 : f1.Subscribe = some S1)
    (htype2 : f2.Typ = proto.FrameTypeSubscribe) (hsub2 : f2.Subscribe = some S2)
    (htopic : S1.Topic = S2.Topic) :
    (mesh.RelayServer.dispatch send r c f1).2
        = [.sent c { Typ := 5, Publish := none, Subscribe := none, Unsubscribe := none,
                     Message := none, Ack := some { MessageID := "", OK := true },
                     Error := none, Discovery := none }]
    ∧ (mesh.RelayServer.dispatch send (mesh.RelayServer.dispatch send r c f1).1 c f2).2
        = [.sent c { Typ := 5, Publish := none, Subscribe := none, Unsubscribe := none,
                     Message := none, Ack := some { MessageID := "", OK := true },
                     Error := none, Discovery := none }]
    ∧ (∃ inner,
        sync.Map.Load
            (mesh.RelayServer.dispatch send (mesh.RelayServer.dispatch send r c f1).1 c f2).1.subs
            S1.Topic = some inner
        ∧ inner.filter (fun e => e.1 = c.RemoteAddr)
            = [(c.RemoteAddr,
                { schemaID := S2.SchemaID, publicKey := S2.PublicKey, send := some c })]
        ∧ sync.Map.Load inner c.RemoteAddr
            = some { schemaID := S2.SchemaID, publicKey := S2.PublicKey, send := some c })
    ∧ (r.onePerPair →
        (mesh.RelayServer.dispatch send (mesh.RelayServer.dispatch send r c f1).1 c f2).1.onePerPair) := by
  refine ⟨?_, ?_, ?_, ?_⟩
  · rw [dispatch_subscribe send r c f1 S1 htype1 hsub1]
    rfl
  · rw [dispatch_subscribe send _ c f2 S2 htype2 hsub2]
    rfl
  · rw [dispatch_subscribe send _ c f2 S2 htype2 hsub2, htopic]
    exact ⟨_, Load_after_subscribe _ _ _ _, Store_filter_self _ _ _, Load_Store_self _ _ _⟩
  · intro h
    exact dispatch_onePerPair send _ c f2 (dispatch_onePerPair send r c f1 h)

/-- Two Subscribe frames for `t/1` on the connection that is already the first
subscriber of `t/1` in the sample relay. -/
theorem resubscribe_supersedes_witness :
    ∃ inner,
      sync.Map.Load
          (mesh.RelayServer.dispatch (fun _ _ => none)
            (mesh.RelayServer.dispatch (fun _ _ => none) sampleRelay ⟨1, some "10.0.0.1:5000"⟩
              (sampleSubscribe "sensor.Humidity" [3])).1
            ⟨1, some "10.0.0.1:5000"⟩ (sampleSubscribe "control.Command" [4])).1.subs
          "t/1" = some inner
      ∧ inner.filter (fun e => e.1 = "10.0.0.1:5000")
          = [("10.0.0.1:5000",
              { schemaID := "control.Command", publicKey := some [4],
                send := some ⟨1, some "10.0.0.1:5000"⟩ })]
      ∧ sync.Map.Load inner "10.0.0.1:5000"
          = some { schemaID := "control.Command", publicKey := some [4],
                   send := some ⟨1, some "10.0.0.1:5000"⟩ } :=
  (resubscribe_supersedes (fun _ _ => none) sampleRelay ⟨1, some "10.0.0.1:5000"⟩
    (sampleSubscribe "sensor.Humidity" [3]) (sampleSubscribe "control.Command" [4])
    { Topic := "t/1", SchemaID := "sensor.Humidity", PublicKey := some [3] }
    { Topic := "t/1", SchemaID := "control.Command", PublicKey := some [4] }
    rfl rfl rfl rfl rfl).2.2.1

/-! ## C13: Unsubscribe -/

theorem mutate_id_of_no_entry {κ ν : Type} [DecidableEq κ] (m : sync.Map κ ν) (k : κ) (g : ν → ν)
    (h : ∀ e ∈ m, e.1 = k → g e.2 = e.2) : m.mutate k g = m := by
  unfold sync.Map.mutate
  conv_rhs => rw [← List.map_id m]
  apply List.map_congr_left
  intro e he
  by_cases hk : e.1 = k
  · simp only [hk, if_true, id]
    rw [← hk, h e he hk]
  · simp only [hk, if_false, id]

theorem mutate_mutate {κ ν : Type} [DecidableEq κ] (m : sync.Map κ ν) (k : κ) (g : ν → ν)
    (h : ∀ v, g (g v) = g v) : (m.mutate k g).mutate k g = m.mutate k g := by
  apply mutate_id_of_no_entry
  intro e he hek
  simp only [sync.Map.mutate, List.mem_map] at he
  obtain ⟨e0, _, rfl⟩ := he
  by_cases hk : e0.1 = k
  · simp only [hk, if_true, h]
  · rw [if_neg hk] at hek
    exact absurd hek hk

/-- C13. Unsubscribe is a safe, idempotent removal: for every topic table
`r`, connection `c` with key `k = c.RemoteAddr()` and Unsubscribe frame for
the topic `t` handled on `c`: (1) no frame is sent and nothing is logged;
(2) the table afterwards is the table before in which every entry under `k`
has been taken out of the inner map of `t`, all other entries of that map
staying in their order and every other topic keeping its inner map; (3) a
lookup of `k` under `t` finds nothing afterwards; (4) lookups of any other
topic, and of any other key under `t`, give what they gave before; (5) when
no inner map of `t` has an entry under `k`, in particular when `t` is not in
the table, the table is unchanged; and (6) handling the frame a second time
changes nothing any more. -/
theorem unsubscribe_idempotent (send : transport.Conn → proto.Frame → Option GoError)
    (r : mesh.RelayServer) (c : transport.Conn) (f : proto.Frame) (U : proto.UnsubscribeFrame)
    (htype : f.Typ = proto.FrameTypeUnsubscribe) (hunsub : f.Unsubscribe = some U) :
    (mesh.RelayServer.dispatch send r c f).2 = []
    ∧ (mesh.RelayServer.dispatch send r c f).1.subs
        = r.subs.map (fun e =>
            if e.1 = U.Topic then (e.1, e.2.filter fun s => s.1 ≠ c.RemoteAddr) else e)
    ∧ (∀ inner, sync.Map.Load (mesh.RelayServer.dispatch send r c f).1.subs U.Topic = some inner →
        sync.Map.Load inner c.RemoteAddr = none ∧ ∀ si, (c.RemoteAddr, si) ∉ inner)
    ∧ (∀ topic, topic ≠ U.Topic →
        sync.Map.Load (mesh.RelayServer.dispatch send r c f).1.subs topic
          = sync.Map.Load r.subs topic)
    ∧ (∀ key, key ≠ c.RemoteAddr →
        (sync.Map.Load (mesh.RelayServer.dispatch send r c f).1.subs U.Topic).map
            (fun inner => sync.Map.Load inner key)
          = (sync.Map.Load r.subs U.Topic).map (fun inner => sync.Map.Load inner key))
    ∧ ((∀ inner si, (U.Topic, inner) ∈ r.subs → (c.RemoteAddr, si) ∉ inner) →
        (mesh.RelayServer.dispatch send r c f).1 = r)
    ∧ (sync.Map.Load r.subs U.Topic = none → (mesh.RelayServer.dispatch send r c f).1 = r)
    ∧ mesh.RelayServer.dispatch send (mesh.RelayServer.dispatch send r c f).1 c f
        = ((mesh.RelayServer.dispatch send r c f).1, []) := by
  have hd := dispatch_unsubscribe send r c f U htype hunsub
  have hnoentry : (∀ inner si, (U.Topic, inner) ∈ r.subs → (c.RemoteAddr, si) ∉ inner) →
      (mesh.RelayServer.dispatch send r c f).1 = r := by
    intro h
    rw [hd]
    show mesh.RelayServer.mk _ = r
    rw [mutate_id_of_no_entry]
    intro e he hk
    apply Delete_of_not_mem
    intro s hs hkey
    have hmem : (U.Topic, e.2) ∈ r.subs := by rw [← hk]; exact he
    exact h e.2 s.2 hmem (by rw [← hkey]; exact hs)
  refine ⟨by rw [hd], by rw [hd]; rfl, ?_, ?_, ?_, hnoentry, ?_, ?_⟩
  · intro inner hinner
    rw [hd] at hinner
    simp only [Load_mutate, if_true] at hinner
    cases hl : sync.Map.Load r.subs U.Topic with
    | none => rw [hl] at hinner; cases hinner
    | some inner0 =>
      rw [hl] at hinner
      simp only [Option.map_some', Option.some.injEq] at hinner
      subst hinner
      refine ⟨Load_Delete_self _ _, ?_⟩
      intro si hsi
      simp [sync.Map.Delete] at hsi
  · intro topic hne
    rw [hd]
    simp only [Load_mutate, if_neg hne]
  · intro key hne
    rw [hd]
    simp only [Load_mutate, if_true, Option.map_map]
    cases hl : sync.Map.Load r.subs U.Topic with
    | none => rfl
    | some inner0 => simp [Load_Delete_of_ne _ _ _ hne]
  · intro hl
    apply hnoentry
    intro inner si hmem
    exact absurd rfl ((Load_eq_none r.subs U.Topic).1 hl _ hmem)
  · rw [dispatch_unsubscribe send _ c f U htype hunsub, hd]
    simp only [Prod.mk.injEq, and_true]
    show mesh.RelayServer.mk _ = mesh.RelayServer.mk _
    rw [mutate_mutate _ _ _ (fun v => Delete_Delete v _)]

/-- The second subscriber of `t/1` in the sample relay unsubscribes from it. -/
theorem unsubscribe_idempotent_witness :
    (mesh.RelayServer.dispatch (fun _ _ => none) sampleRelay ⟨2, some "10.0.0.2:5000"⟩
        { proto.Frame.zero with
          Typ := proto.FrameTypeUnsubscribe, Unsubscribe := some { Topic := "t/1" } }).1.subs
      = [("t/1", [("10.0.0.1:5000", ⟨"", some [1], some ⟨1, some "10.0.0.1:5000"⟩⟩)]),
          ("t/2", [("10.0.0.1:5000", ⟨"", some [1], some ⟨1, some "10.0.0.1:5000"⟩⟩)])] :=
  (unsubscribe_idempotent (fun _ _ => none) sampleRelay ⟨2, some "10.0.0.2:5000"⟩
    { proto.Frame.zero with
      Typ := proto.FrameTypeUnsubscribe, Unsubscribe := some { Topic := "t/1" } }
    { Topic := "t/1" } rfl rfl).2.1.trans (by decide)

/-! ## C14: a failed forward does not stop the fan-out -/

theorem forwardTo_count (send : transport.Conn → proto.Frame → Option GoError) (msg : proto.Frame)
    (acc : Nat × List mesh.Event) (e : String × mesh.subInfo) :
    (mesh.forwardTo send msg acc e).1 = acc.1 + if mesh.delivered send msg e then 1 else 0 := by
  unfold mesh.forwardTo mesh.delivered
  cases hs : e.2.send with
  | none => simp
  | some target => cases hr : send target msg <;> simp [hr]

/-- The success count of a fan-out is the number of visits whose send returned no error. -/
theorem foldl_forwardTo_count (send : transport.Conn → proto.Frame → Option GoError)
    (msg : proto.Frame) (l : List (String × mesh.subInfo)) (acc : Nat × List mesh.Event) :
    (l.foldl (mesh.forwardTo send msg) acc).1 = acc.1 + l.countP (mesh.delivered send msg) := by
  induction l generalizing acc with
  | nil => simp
  | cons e rest ih =>
    rw [List.foldl_cons, ih, forwardTo_count, List.countP_cons]
    omega

theorem flatMap_toList_eq_filterMap {α β : Type} (g : α → Option β) (l : List α) :
    (l.flatMap fun e => (g e).toList) = l.filterMap g := by
  induction l with
  | nil => rfl
  | cons e rest ih =>
    rw [List.flatMap_cons, ih, List.filterMap_cons]
    cases g e <;> rfl

theorem countEvent_append (e : mesh.Event) (a b : List mesh.Event) :
    mesh.countEvent e (a ++ b) = mesh.countEvent e a + mesh.countEvent e b := by
  simp [mesh.countEvent]

theorem countEvent_eq_zero (e : mesh.Event) (a : List mesh.Event) (h : e ∉ a) :
    mesh.countEvent e a = 0 := by
  simp only [mesh.countEvent, List.length_eq_zero, List.filter_eq_nil_iff, decide_eq_true_eq]
  intro x hx hxe
  exact h (hxe ▸ hx)

theorem dispatch_publish_no_topic (send : transport.Conn → proto.Frame → Option GoError)
    (r : mesh.RelayServer) (c : transport.Conn) (f : proto.Frame) (P : proto.PublishFrame)
    (htype : f.Typ = proto.FrameTypePublish) (hpub : f.Publish = some P)
    (htable : sync.Map.Load r.subs P.Topic = none) :
    mesh.RelayServer.dispatch send r c f = (r, [.sent c mesh.ackFrame]) := by
  have h1 : ¬ (proto.FrameTypePublish = proto.FrameTypeSubscribe) := by decide
  have h2 : ¬ (proto.FrameTypePublish = proto.FrameTypeUnsubscribe) := by decide
  simp only [mesh.RelayServer.dispatch, h1, h2, htype, if_false, if_true, hpub, htable]

/-- The events of the relay at a Publish frame, whether its topic is in the table or not. -/
theorem dispatch_publish_events (send : transport.Conn → proto.Frame → Option GoError)
    (r : mesh.RelayServer) (c : transport.Conn) (f : proto.Frame) (P : proto.PublishFrame)
    (htype : f.Typ = proto.FrameTypePublish) (hpub : f.Publish = some P) :
    ∃ log : List mesh.Event,
      (∀ x ∈ log, ∃ count, x = mesh.Event.logForwarded P.Topic count)
      ∧ mesh.RelayServer.dispatch send r c f =
        (r, ((sync.Map.Load r.subs P.Topic).getD []).flatMap
              (mesh.forwardEvents send (mesh.forwardFrame P))
            ++ log ++ [.sent c mesh.ackFrame]) := by
  cases hl : sync.Map.Load r.subs P.Topic with
  | none =>
    refine ⟨[], by simp, ?_⟩
    rw [dispatch_publish_no_topic send r c f P htype hpub hl]
    rfl
  | some subscribers =>
    refine ⟨[.logForwarded P.Topic
      (subscribers.foldl (mesh.forwardTo send (mesh.forwardFrame P)) (0, [])).1], by simp, ?_⟩
    rw [dispatch_publish send r c f P subscribers htype hpub hl]
    simp

/-- C14. Fan-out failure isolation: for every Publish frame `P` handled by
the relay on connection `c`, every topic table and every outcome `send` of
the sends: (1) the table is unchanged; (2) the frames sent go, in order, to
the send function of each entry of the subscriber map of `P.Topic`, one send
per entry, and then to `c`; (3) the same list of sends is made under every
other outcome of the sends, so a failed send stops no other; (4) when the
topic has a subscriber map, the events are those of the visits, then the log
line with the success count, which is the number of entries whose send
returned no error, then the Ack; (5) when the topic is not in the table the
Ack is the only event; (6) the Ack with `ok = true` to `c` occurs exactly
once among the events and is the last of them; and (7) when every send fails
the count is 0. -/
theorem fanout_failure_isolation (send : transport.Conn → proto.Frame → Option GoError)
    (r : mesh.RelayServer) (c : transport.Conn) (f : proto.Frame) (P : proto.PublishFrame)
    (htype : f.Typ = proto.FrameTypePublish) (hpub : f.Publish = some P) :
    (mesh.RelayServer.dispatch send r c f).1 = r
    ∧ mesh.sendTargets (mesh.RelayServer.dispatch send r c f).2
        = ((sync.Map.Load r.subs P.Topic).getD []).filterMap (fun e => e.2.send) ++ [c]
    ∧ (∀ send2 : transport.Conn → proto.Frame → Option GoError,
        mesh.sendTargets (mesh.RelayServer.dispatch send2 r c f).2
          = mesh.sendTargets (mesh.RelayServer.dispatch send r c f).2)
    ∧ (∀ subscribers, sync.Map.Load r.subs P.Topic = some subscribers →
        (mesh.RelayServer.dispatch send r c f).2
          = subscribers.flatMap (mesh.forwardEvents send (mesh.forwardFrame P))
            ++ [.logForwarded P.Topic
                  (subscribers.countP (mesh.delivered send (mesh.forwardFrame P))),
                .sent c { Typ := 5, Publish := none, Subscribe := none, Unsubscribe := none,
                          Message := none, Ack := some { MessageID := "", OK := true },
                          Error := none, Discovery := none }])
    ∧ (sync.Map.Load r.subs P.Topic = none →
        (mesh.RelayServer.dispatch send r c f).2
          = [.sent c { Typ := 5, Publish := none, Subscribe := none, Unsubscribe := none,
                       Message := none, Ack := some { MessageID := "", OK := true },
                       Error := none, Discovery := none }])
    ∧ mesh.countEvent
          (.sent c { Typ := 5, Publish := none, Subscribe := none, Unsubscribe := none,
                     Message := none, Ack := some { MessageID := "", OK := true },
                     Error := none, Discovery := none })
          (mesh.RelayServer.dispatch send r c f).2 = 1
    ∧ (mesh.RelayServer.dispatch send r c f).2.getLast?
        = some (.sent c { Typ := 5, Publish := none, Subscribe := none, Unsubscribe := none,
                          Message := none, Ack := some { MessageID := "", OK := true },
                          Error := none, Discovery := none })
    ∧ (∀ subscribers, sync.Map.Load r.subs P.Topic = some subscribers →
        (∀ e ∈ subscribers, ∀ target, e.2.send = some target →
          send target (mesh.forwardFrame P) ≠ none) →
        mesh.Event.logForwarded P.Topic 0 ∈ (mesh.RelayServer.dispatch send r c f).2) := by
  have hack : mesh.ackFrame =
      { Typ := 5, Publish := none, Subscribe := none, Unsubscribe := none,
        Message := none, Ack := some { MessageID := "", OK := true },
        Error := none, Discovery := none } := rfl
  have htargets : ∀ send1 : transport.Conn → proto.Frame → Option GoError,
      mesh.sendTargets (mesh.RelayServer.dispatch send1 r c f).2
        = ((sync.Map.Load r.subs P.Topic).getD []).filterMap (fun e => e.2.send) ++ [c] := by
    intro send1
    obtain ⟨log, hlog, hd⟩ := dispatch_publish_events send1 r c f P htype hpub
    have hnone : mesh.sendTargets log = [] := by
      clear hd
      induction log with
      | nil => rfl
      | cons x rest ih =>
        obtain ⟨count, rfl⟩ := hlog x (List.mem_cons_self _ _)
        simp only [mesh.sendTargets]
        exact ih fun y hy => hlog y (List.mem_cons_of_mem _ hy)
    rw [hd]
    simp only [sendTargets_append, sendTargets_flatMap_forwardEvents, hnone, List.append_nil,
      flatMap_toList_eq_filterMap, mesh.sendTargets]
  have hsome : ∀ subscribers, sync.Map.Load r.subs P.Topic = some subscribers →
      (mesh.RelayServer.dispatch send r c f).2
        = subscribers.flatMap (mesh.forwardEvents send (mesh.forwardFrame P))
          ++ [.logForwarded P.Topic
                (subscribers.countP (mesh.delivered send (mesh.forwardFrame P))),
              .sent c mesh.ackFrame] := by
    intro subscribers hl
    rw [dispatch_publish send r c f P subscribers htype hpub hl, foldl_forwardTo_count]
    simp
  obtain ⟨log, hlog, hd⟩ := dispatch_publish_events send r c f P htype hpub
  refine ⟨by rw [hd], htargets send, fun send2 => (htargets send2).trans (htargets send).symm,
    fun subscribers hl => by rw [hsome subscribers hl, hack], ?_, ?_, ?_, ?_⟩
  · intro hl
    rw [dispatch_publish_no_topic send r c f P htype hpub hl, hack]
  · rw [← hack, hd, countEvent_append, countEvent_append, countEvent_eq_zero, countEvent_eq_zero]
    · simp [mesh.countEvent]
    · intro hmem
      obtain ⟨count, hx⟩ := hlog _ hmem
      cases hx
    · intro hmem
      rw [List.mem_flatMap] at hmem
      obtain ⟨e, _, he⟩ := hmem
      have h := ((mem_forwardEvents_sent send _ _ e c).1 he).2
      have hne : mesh.ackFrame ≠ mesh.forwardFrame P := by
        intro heq
        have h5 : (5 : Int) = 4 := congrArg proto.Frame.Typ heq
        exact absurd h5 (by decide)
      exact hne h
  · rw [← hack, hd]
    simp
  · intro subscribers hl hfail
    rw [hsome subscribers hl]
    have hzero : subscribers.countP (mesh.delivered send (mesh.forwardFrame P)) = 0 := by
      rw [List.countP_eq_zero]
      intro e he
      unfold mesh.delivered
      cases hs : e.2.send with
      | none => simp
      | some target =>
        have := hfail e he target hs
        cases hr : send target (mesh.forwardFrame P) with
        | none => exact absurd hr this
        | some err => simp [hr]
    rw [hzero]
    simp

/-- The sample relay when every send to the first subscriber of `t/1` fails:
the second subscriber is still sent the message, the count is 1, and the
publisher gets the Ack. -/
theorem fanout_failure_isolation_witness :
    (mesh.RelayServer.dispatch
        (fun target _ => if target.Stream = 1 then some GoError.ErrShortWrite else none)
        sampleRelay ⟨7, some "10.0.0.9:1234"⟩ sampleFrame).2
      = [.sent ⟨1, some "10.0.0.1:5000"⟩ (mesh.forwardFrame
            { Topic := "t/1", Payload := some [0, 1, 2, 253, 254, 255, 16],
              SchemaID := "sensor.Temperature",
              RecipientKeyID := some [9, 8, 7, 6, 5, 4, 3, 2], SenderPublicKey := some [] }),
          .logForwardFailed GoError.ErrShortWrite "10.0.0.1:5000",
          .sent ⟨2, some "10.0.0.2:5000"⟩ (mesh.forwardFrame
            { Topic := "t/1", Payload := some [0, 1, 2, 253, 254, 255, 16],
              SchemaID := "sensor.Temperature",
              RecipientKeyID := some [9, 8, 7, 6, 5, 4, 3, 2], SenderPublicKey := some [] }),
          .logForwarded "t/1" 1,
          .sent ⟨7, some "10.0.0.9:1234"⟩ mesh.ackFrame] :=
  ((fanout_failure_isolation
      (fun target _ => if target.Stream = 1 then some GoError.ErrShortWrite else none)
      sampleRelay ⟨7, some "10.0.0.9:1234"⟩ sampleFrame
      { Topic := "t/1", Payload := some [0, 1, 2, 253, 254, 255, 16],
        SchemaID := "sensor.Temperature",
        RecipientKeyID := some [9, 8, 7, 6, 5, 4, 3, 2], SenderPublicKey := some [] }
      rfl rfl).2.2.2.1
    [("10.0.0.1:5000", ⟨"", some [1], some ⟨1, some "10.0.0.1:5000"⟩⟩),
      ("10.0.0.2:5000", ⟨"sensor.Temperature", some [2], some ⟨2, some "10.0.0.2:5000"⟩⟩)]
    (by decide)).trans (by decide)

/-! ## C15: Publish and the Ack of the relay -/

theorem Publish_with_relay (env : mesh.Env) (n : mesh.Node) (topic schemaID : String)
    (payload : List Byte) (recipientPub : crypto.PublicKey) (relay : mesh.Relay)
    (enc : List Byte) (conn : transport.Conn)
    (hrelay : n.relay = some relay)
    (hvalid : proto.ValidatePayload env.json schemaID payload = none)
    (hseal : crypto.Seal env.box env.rand payload recipientPub n.keys.Private = .ok enc)
    (hdial : env.DialQUIC n.relayAddr = .ok conn) :
    n.Publish env topic schemaID payload recipientPub
      = (env.SendFrame conn (n.publishFrame topic schemaID enc recipientPub),
          [.seal payload, .dial n.relayAddr,
            .send conn (n.publishFrame topic schemaID enc recipientPub), .close conn]) := by
  simp only [mesh.Node.Publish, hvalid, hseal, hrelay, hdial, mesh.Node.publishFrame]

set_option maxRecDepth 100000 in
set_option exponentiation.threshold 2000 in
theorem samplePayload_valid :
    proto.ValidatePayload sampleEnv.json "sensor.Temperature" samplePayload = none := by
  decide

/-- C15, as amended. When a relay is configured, the payload is
valid, the sealing succeeds and the dial gives the session `conn`,
`Node.Publish` seals, dials, sends the Publish frame on `conn`, closes
`conn`, and returns what the send returned: it returns success as soon as the
frame has been written.  It makes no call of `RecvFrame`, so no Ack is waited
for, and what the relay sends back has no influence on the result. -/
theorem publish_returns_after_send (env : mesh.Env) (n : mesh.Node) (topic schemaID : String)
    (payload : List Byte) (recipientPub : crypto.PublicKey) (relay : mesh.Relay)
    (enc : List Byte) (conn : transport.Conn)
    (hrelay : n.relay = some relay)
    (hvalid : proto.ValidatePayload env.json schemaID payload = none)
    (hseal : crypto.Seal env.box env.rand payload recipientPub n.keys.Private = .ok enc)
    (hdial : env.DialQUIC n.relayAddr = .ok conn) :
    (n.Publish env topic schemaID payload recipientPub).2
        = [.seal payload, .dial n.relayAddr,
            .send conn
              { Typ := 1,
                Publish := some
                  { Topic := topic, Payload := some enc, SchemaID := schemaID,
                    RecipientKeyID := some (recipientPub.val.take 8),
                    SenderPublicKey := some n.keys.Public.val },
                Subscribe := none, Unsubscribe := none, Message := none, Ack := none,
                Error := none, Discovery := none },
            .close conn]
    ∧ (n.Publish env topic schemaID payload recipientPub).1
        = env.SendFrame conn
            { Typ := 1,
              Publish := some
                { Topic := topic, Payload := some enc, SchemaID := schemaID,
                  RecipientKeyID := some (recipientPub.val.take 8),
                  SenderPublicKey := some n.keys.Public.val },
              Subscribe := none, Unsubscribe := none, Message := none, Ack := none,
              Error := none, Discovery := none }
    ∧ (∀ c f, mesh.Effect.recv c f ∉ (n.Publish env topic schemaID payload recipientPub).2) := by
  rw [Publish_with_relay env n topic schemaID payload recipientPub relay enc conn hrelay hvalid
    hseal hdial]
  refine ⟨rfl, rfl, ?_⟩
  intro c f hmem
  simp at hmem

/-- The sample node publishes a temperature reading through its relay. -/
theorem publish_returns_after_send_witness :
    (sampleNode.Publish sampleEnv "t/1" "sensor.Temperature" samplePayload sampleKeyB).1 = none :=
  (publish_returns_after_send sampleEnv sampleNode "t/1" "sensor.Temperature" samplePayload
    sampleKeyB ⟨"relay:6121"⟩
    (sampleNonce.val ++ crypto.demoBox.Seal [] samplePayload sampleNonce sampleKeyB sampleKeyA)
    ⟨1, none⟩ rfl samplePayload_valid rfl rfl).2.1

/-- C15, counterexample. The sample node, whose relay never sends anything,
publishes a valid payload; `Publish` returns nil, and its effects are the
sealing, the dial, the send and the close, without any receive. -/
theorem publish_returns_without_ack :
    ∃ trace : List mesh.Effect,
      sampleNode.Publish sampleEnv "t/1" "sensor.Temperature" samplePayload sampleKeyB
        = (none, trace)
      ∧ trace = [.seal samplePayload, .dial "relay:6121",
          .send ⟨1, none⟩
            (sampleNode.publishFrame "t/1" "sensor.Temperature"
              (sampleNonce.val
                ++ crypto.demoBox.Seal [] samplePayload sampleNonce sampleKeyB sampleKeyA)
              sampleKeyB),
          .close ⟨1, none⟩]
      ∧ ∀ c f, mesh.Effect.recv c f ∉ trace := by
  refine ⟨_, Publish_with_relay sampleEnv sampleNode "t/1" "sensor.Temperature" samplePayload
    sampleKeyB ⟨"relay:6121"⟩ _ ⟨1, none⟩ rfl samplePayload_valid rfl rfl, rfl, ?_⟩
  intro c f hmem
  simp [sampleNode] at hmem

/-! ## C16: the delivery queue -/

/-- The delivery queue while its channel is open: the client that `New` returns for the
configuration `cfg` has an open, empty queue whose capacity is
`cfg.MessageBuffer` when that is positive and 64 otherwise; and for every
open queue `msgs`, whatever it holds, the enqueue of `OnMessage` returns
without blocking: when the queue holds fewer messages than its capacity the
new message is appended after the existing ones, and when it is full the
queue is left as it was, the new message being dropped.  (A send on a
channel that `Close` has closed panics; that is no queue state of an open
client.) -/
theorem queue_back_pressure (env : mesh.Env) (cfg : client.Config) (c : client.Client)
    (msgs : client.Chan) (topic : String) (payload : List Byte)
    (hnew : client.New env cfg = .ok c) (hopen : msgs.isClosed = false) :
    ((c.msgs.capacity : Int) = if 0 < cfg.MessageBuffer then cfg.MessageBuffer else 64)
    ∧ c.msgs.queue = [] ∧ c.msgs.isClosed = false
    ∧ (msgs.queue.length < msgs.capacity →
        client.OnMessage msgs topic payload
          = some { queue := msgs.queue ++ [{ Topic := topic, Payload := payload }],
                   capacity := msgs.capacity, isClosed := false })
    ∧ (msgs.capacity ≤ msgs.queue.length → client.OnMessage msgs topic payload = some msgs)
    ∧ (∃ after, client.OnMessage msgs topic payload = some after
        ∧ after.capacity = msgs.capacity ∧ after.queue.length ≤ max msgs.capacity msgs.queue.length
        ∧ ∃ tail, after.queue = msgs.queue ++ tail) := by
  have hcap : c.msgs = ⟨[], (if cfg.MessageBuffer ≤ 0 then client.DefaultMessageBuffer
      else cfg.MessageBuffer).toNat, false⟩ := by
    simp only [client.New] at hnew
    split at hnew
    · cases hnew
    · cases hnew
      rfl
  refine ⟨?_, by rw [hcap], by rw [hcap], ?_, ?_, ?_⟩
  · rw [hcap]
    by_cases h : 0 < cfg.MessageBuffer
    · have h2 : ¬ cfg.MessageBuffer ≤ 0 := by omega
      simp only [h, h2, if_true, if_false]
      omega
    · have h2 : cfg.MessageBuffer ≤ 0 := by omega
      simp only [h, h2, if_true, if_false, client.DefaultMessageBuffer]
      rfl
  · intro hroom
    obtain ⟨queue, capacity, isClosed⟩ := msgs
    simp only at hopen hroom
    subst hopen
    simp [client.OnMessage, hroom]
  · intro hfull
    simp [client.OnMessage, hopen, Nat.not_lt.mpr hfull]
  · by_cases hroom : msgs.queue.length < msgs.capacity
    · refine ⟨{ msgs with queue := msgs.queue ++ [{ Topic := topic, Payload := payload }] }, ?_,
        rfl, ?_, ?_⟩
      · simp [client.OnMessage, hopen, hroom]
      · simp only [List.length_append, List.length_singleton]
        omega
      · exact ⟨_, rfl⟩
    · refine ⟨msgs, ?_, rfl, ?_, [], (List.append_nil _).symm⟩
      · simp [client.OnMessage, hopen, hroom]
      · omega

/-- The client made from a configuration without a buffer size has 64 places;
a queue of two places that holds two messages drops the third. -/
theorem queue_back_pressure_witness :
    client.OnMessage ⟨[⟨"t/1", [1]⟩, ⟨"t/1", [2]⟩], 2, false⟩ "t/1" [3]
      = some ⟨[⟨"t/1", [1]⟩, ⟨"t/1", [2]⟩], 2, false⟩ :=
  (queue_back_pressure sampleEnv ⟨"", "n1", "relay:6121", true, 0⟩
    { sampleClient with msgs := ⟨[], 64, false⟩ }
    ⟨[⟨"t/1", [1]⟩, ⟨"t/1", [2]⟩], 2, false⟩ "t/1" [3] (by decide) rfl).2.2.2.2.1 (by decide)

/-- After `Close` the channel of the sample client is closed, and a send on
it panics instead of dropping the message. -/
theorem onMessage_after_close :
    sampleClient.Close.1.msgs = ⟨[], 2, true⟩
    ∧ client.OnMessage sampleClient.Close.1.msgs "t/1" [1] = none := by
  decide

/-! ## C17: only decryptable messages reach the application -/

theorem handleMessage_of_key (env : mesh.Env) (n : mesh.Node) (m : proto.MessageFrame)
    (h : (m.SenderPublicKey.getD []).length = 32) :
    n.handleMessage env m =
      match crypto.Open env.box (m.EncryptedPayload.getD []) ⟨m.SenderPublicKey.getD [], h⟩
          n.keys.Private with
      | none => []
      | some plain => if n.onMsg then [.deliver m.Topic plain] else [] := by
  unfold mesh.Node.handleMessage
  simp only [crypto.PublicKeySize, h, ne_eq, not_true_eq_false, dite_false]

theorem handleMessage_of_bad_key (env : mesh.Env) (n : mesh.Node) (m : proto.MessageFrame)
    (h : (m.SenderPublicKey.getD []).length ≠ 32) : n.handleMessage env m = [] := by
  unfold mesh.Node.handleMessage
  simp only [crypto.PublicKeySize, h, ne_eq, not_false_eq_true, dite_true]

/-- C17. Only decryptable messages reach the application: for every Message
frame `m` handled by a node that has a callback, the callback is called, once,
with the topic of `m` and the plaintext `plain`, if and only if the sender
public key of `m` is exactly 32 bytes long and `Open` of the encrypted payload
with that key and the node's private key succeeds with `plain`; in every
other case the handler does nothing at all: so with a key of another length
(a nil key has length 0), with an envelope shorter than 40 bytes, and when
`Open` fails.  The handler returns nothing, so no error is raised. -/
theorem only_decryptable_delivered (env : mesh.Env) (n : mesh.Node) (m : proto.MessageFrame)
    (hsink : n.onMsg = true) :
    (∀ plain, n.handleMessage env m = [.deliver m.Topic plain] ↔
        ∃ h : (m.SenderPublicKey.getD []).length = 32,
          crypto.Open env.box (m.EncryptedPayload.getD []) ⟨m.SenderPublicKey.getD [], h⟩
            n.keys.Private = some plain)
    ∧ ((¬ ∃ plain, ∃ h : (m.SenderPublicKey.getD []).length = 32,
          crypto.Open env.box (m.EncryptedPayload.getD []) ⟨m.SenderPublicKey.getD [], h⟩
            n.keys.Private = some plain) →
        n.handleMessage env m = [])
    ∧ ((m.SenderPublicKey.getD []).length ≠ 32 → n.handleMessage env m = [])
    ∧ ((m.EncryptedPayload.getD []).length < 40 → n.handleMessage env m = [])
    ∧ (∀ h : (m.SenderPublicKey.getD []).length = 32,
        crypto.Open env.box (m.EncryptedPayload.getD []) ⟨m.SenderPublicKey.getD [], h⟩
            n.keys.Private = none →
        n.handleMessage env m = []) := by
  have hiff : ∀ plain, n.handleMessage env m = [.deliver m.Topic plain] ↔
      ∃ h : (m.SenderPublicKey.getD []).length = 32,
        crypto.Open env.box (m.EncryptedPayload.getD []) ⟨m.SenderPublicKey.getD [], h⟩
          n.keys.Private = some plain := by
    intro plain
    by_cases h : (m.SenderPublicKey.getD []).length = 32
    · rw [handleMessage_of_key env n m h]
      cases hopen : crypto.Open env.box (m.EncryptedPayload.getD []) ⟨m.SenderPublicKey.getD [], h⟩
          n.keys.Private with
      | none =>
        simp only [List.nil_eq, List.cons_ne_self, false_iff, not_exists, reduceCtorEq]
        intro x hx
        exact absurd (hopen.symm.trans hx) (by simp)
      | some p =>
        simp only [hsink, if_true, List.cons.injEq, mesh.Effect.deliver.injEq, true_and, and_true]
        constructor
        · intro hp
          subst hp
          exact ⟨h, hopen⟩
        · intro hx
          obtain ⟨x, hx⟩ := hx
          exact Option.some.inj (hopen.symm.trans hx)
    · rw [handleMessage_of_bad_key env n m h]
      simp [h]
  have hnone : ∀ h : (m.SenderPublicKey.getD []).length = 32,
      crypto.Open env.box (m.EncryptedPayload.getD []) ⟨m.SenderPublicKey.getD [], h⟩
          n.keys.Private = none →
      n.handleMessage env m = [] := by
    intro h hopen
    rw [handleMessage_of_key env n m h, hopen]
  refine ⟨hiff, ?_, handleMessage_of_bad_key env n m, ?_, hnone⟩
  · intro hno
    by_cases h : (m.SenderPublicKey.getD []).length = 32
    · cases hopen : crypto.Open env.box (m.EncryptedPayload.getD []) ⟨m.SenderPublicKey.getD [], h⟩
          n.keys.Private with
      | none => exact hnone h hopen
      | some p => exact absurd ⟨p, h, hopen⟩ hno
    · exact handleMessage_of_bad_key env n m h
  · intro hshort
    by_cases h : (m.SenderPublicKey.getD []).length = 32
    · apply hnone h
      unfold crypto.Open
      rw [dif_pos]
      simpa [crypto.NonceSize, crypto.BoxLib.Overhead] using hshort
    · exact handleMessage_of_bad_key env n m h

/-- The sample node is handed the sample message and delivers its two bytes. -/
theorem only_decryptable_delivered_witness :
    sampleNode.handleMessage sampleEnv sampleMessage = [.deliver "t/1" [104, 105]] :=
  ((only_decryptable_delivered sampleEnv sampleNode sampleMessage rfl).1 [104, 105]).2
    ⟨by decide, by decide⟩

/-- Messages that are dropped: one byte of the payload changed, a key of 31
bytes, no key, an envelope of 39 bytes; and a node without a callback. -/
theorem handleMessage_examples :
    sampleNode.handleMessage sampleEnv
        { sampleMessage with
          EncryptedPayload := some (List.replicate 24 9 ++ List.replicate 16 0 ++ [104, 105]) }
      = []
    ∧ sampleNode.handleMessage sampleEnv
        { sampleMessage with SenderPublicKey := some (List.replicate 31 7) } = []
    ∧ sampleNode.handleMessage sampleEnv { sampleMessage with SenderPublicKey := none } = []
    ∧ sampleNode.handleMessage sampleEnv
        { sampleMessage with EncryptedPayload := some (List.replicate 39 9) } = []
    ∧ mesh.Node.handleMessage sampleEnv { sampleNode with onMsg := false } sampleMessage = [] := by
  decide

/-! ## C18: short reads -/

theorem ReadFull_short (r : io.Reader) (n : Nat) (h : r.length < n) :
    io.ReadFull r n = (.error (if r = [] then .EOF else .ErrUnexpectedEOF), []) := by
  unfold io.ReadFull
  rw [if_neg (by omega)]
  cases r with
  | nil => rfl
  | cons b rest => simp

/-- C18, as amended. A `Decode` that fails because of a short read
has consumed every byte that was available: whether fewer than 4 header bytes
are left, or a complete header within the size limit is followed by fewer body
bytes than it declares, the stream is at its end afterwards.  The error is
`io.EOF` when the failing read found no byte at all, `io.ErrUnexpectedEOF`
when it found some. -/
theorem decode_short_read_consumes (json : JSONLib) (f : proto.Frame) :
    (∀ r : io.Reader, r.length < 4 →
        proto.Frame.Decode json f r
          = (.error (if r = [] then .EOF else .ErrUnexpectedEOF), []))
    ∧ (∀ (b0 b1 b2 b3 : Byte) (rest : List Byte),
        binary.BigEndian.Uint32 [b0, b1, b2, b3] ≤ 1048576 →
        rest.length < binary.BigEndian.Uint32 [b0, b1, b2, b3] →
        proto.Frame.Decode json f (b0 :: b1 :: b2 :: b3 :: rest)
          = (.error (if rest = [] then .EOF else .ErrUnexpectedEOF), [])) := by
  constructor
  · intro r hr
    simp only [proto.Frame.Decode, ReadFull_short r 4 hr]
  · intro b0 b1 b2 b3 rest hle hshort
    rw [Decode_header, if_neg (by omega), ReadFull_short rest _ hshort]

/-- C18, counterexample. On a stream of three bytes, and on a stream of a
header that declares seven bytes followed by four, `Decode` fails with a short
read and leaves no byte unread: the read position has moved to the end. -/
theorem decode_short_read_moves :
    proto.Frame.Decode goJSON proto.Frame.zero [0, 0, 0] = (.error .ErrUnexpectedEOF, [])
    ∧ (proto.Frame.Decode goJSON proto.Frame.zero [0, 0, 0]).2 ≠ [0, 0, 0]
    ∧ proto.Frame.Decode goJSON proto.Frame.zero ([0, 0, 0, 7] ++ json.utf8 "\x7b\"t\"")
        = (.error .ErrUnexpectedEOF, [])
    ∧ (proto.Frame.Decode goJSON proto.Frame.zero ([0, 0, 0, 7] ++ json.utf8 "\x7b\"t\"")).2
        ≠ [0, 0, 0, 7] ++ json.utf8 "\x7b\"t\"" := by
  decide

/-! ## Decoding into a frame that is not zero -/

/-- The members written for a Publish variant overwrite every field of the struct they are stored into. -/
theorem decode_publish_into (x q0 : proto.PublishFrame) :
    ((json.publishEntries x).map json.entryValue).foldlM json.setPublishField q0 = .ok x := by
  simp only [json.publishEntries, List.map_cons, List.map_nil, json.entryValue, List.foldlM_cons,
    List.foldlM_nil]
  have h1 : ∀ (q : proto.PublishFrame) v, json.setPublishField q ("topic", v)
      = (json.decodeString v q.Topic).map fun y => { q with Topic := y } := fun _ _ => rfl
  have h2 : ∀ (q : proto.PublishFrame) v, json.setPublishField q ("payload", v)
      = (json.decodeBytes v q.Payload).map fun y => { q with Payload := y } := fun _ _ => rfl
  have h3 : ∀ (q : proto.PublishFrame) v, json.setPublishField q ("schema_id", v)
      = (json.decodeString v q.SchemaID).map fun y => { q with SchemaID := y } := fun _ _ => rfl
  have h4 : ∀ (q : proto.PublishFrame) v, json.setPublishField q ("recipient_key_id", v)
      = (json.decodeBytes v q.RecipientKeyID).map fun y => { q with RecipientKeyID := y } := fun _ _ => rfl
  have h5 : ∀ (q : proto.PublishFrame) v, json.setPublishField q ("sender_public_key", v)
      = (json.decodeBytes v q.SenderPublicKey).map fun y => { q with SenderPublicKey := y } := fun _ _ => rfl
  simp only [h1, h2, h3, h4, h5, json.decodeString, json.decodeBool, decodeBytes_valueOfBytes,
    decodeStrings_valueOfStrings, Except.map, bind, Except.bind, pure, Except.pure]

/-- The members written for a Subscribe variant overwrite every field of the struct they are stored into. -/
theorem decode_subscribe_into (x q0 : proto.SubscribeFrame) :
    ((json.subscribeEntries x).map json.entryValue).foldlM json.setSubscribeField q0 = .ok x := by
  simp only [json.subscribeEntries, List.map_cons, List.map_nil, json.entryValue, List.foldlM_cons,
    List.foldlM_nil]
  have h1 : ∀ (q : proto.SubscribeFrame) v, json.setSubscribeField q ("topic", v)
      = (json.decodeString v q.Topic).map fun y => { q with Topic := y } := fun _ _ => rfl
  have h2 : ∀ (q : proto.SubscribeFrame) v, json.setSubscribeField q ("schema_id", v)
      = (json.decodeString v q.SchemaID).map fun y => { q with SchemaID := y } := fun _ _ => rfl
  have h3 : ∀ (q : proto.SubscribeFrame) v, json.setSubscribeField q ("public_key", v)
      = (json.decodeBytes v q.PublicKey).map fun y => { q with PublicKey := y } := fun _ _ => rfl
  simp only [h1, h2, h3, json.decodeString, json.decodeBool, decodeBytes_valueOfBytes,
    decodeStrings_valueOfStrings, Except.map, bind, Except.bind, pure, Except.pure]

/-- The members written for a Unsubscribe variant overwrite every field of the struct they are stored into. -/
theorem decode_unsubscribe_into (x q0 : proto.UnsubscribeFrame) :
    ((json.unsubscribeEntries x).map json.entryValue).foldlM json.setUnsubscribeField q0 = .ok x := by
  simp only [json.unsubscribeEntries, List.map_cons, List.map_nil, json.entryValue, List.foldlM_cons,
    List.foldlM_nil]
  have h1 : ∀ (q : proto.UnsubscribeFrame) v, json.setUnsubscribeField q ("topic", v)
      = (json.decodeString v q.Topic).map fun y => { q with Topic := y } := fun _ _ => rfl
  simp only [h1, json.decodeString, json.decodeBool, decodeBytes_valueOfBytes,
    decodeStrings_valueOfStrings, Except.map, bind, Except.bind, pure, Except.pure]

/-- The members written for a Message variant overwrite every field of the struct they are stored into. -/
theorem decode_message_into (x q0 : proto.MessageFrame) :
    ((json.messageEntries x).map json.entryValue).foldlM json.setMessageField q0 = .ok x := by
  simp only [json.messageEntries, List.map_cons, List.map_nil, json.entryValue, List.foldlM_cons,
    List.foldlM_nil]
  have h1 : ∀ (q : proto.MessageFrame) v, json.setMessageField q ("topic", v)
      = (json.decodeString v q.Topic).map fun y => { q with Topic := y } := fun _ _ => rfl
  have h2 : ∀ (q : proto.MessageFrame) v, json.setMessageField q ("encrypted_payload", v)
      = (json.decodeBytes v q.EncryptedPayload).map fun y => { q with EncryptedPayload := y } := fun _ _ => rfl
  have h3 : ∀ (q : proto.MessageFrame) v, json.setMessageField q ("sender_key_id", v)
      = (json.decodeBytes v q.SenderKeyID).map fun y => { q with SenderKeyID := y } := fun _ _ => rfl
  have h4 : ∀ (q : proto.MessageFrame) v, json.setMessageField q ("sender_public_key", v)
      = (json.decodeBytes v q.SenderPublicKey).map fun y => { q with SenderPublicKey := y } := fun _ _ => rfl
  simp only [h1, h2, h3, h4, json.decodeString, json.decodeBool, decodeBytes_valueOfBytes,
    decodeStrings_valueOfStrings, Except.map, bind, Except.bind, pure, Except.pure]

/-- The members written for a Ack variant overwrite every field of the struct they are stored into. -/
theorem decode_ack_into (x q0 : proto.AckFrame) :
    ((json.ackEntries x).map json.entryValue).foldlM json.setAckField q0 = .ok x := by
  simp only [json.ackEntries, List.map_cons, List.map_nil, json.entryValue, List.foldlM_cons,
    List.foldlM_nil]
  have h1 : ∀ (q : proto.AckFrame) v, json.setAckField q ("message_id", v)
      = (json.decodeString v q.MessageID).map fun y => { q with MessageID := y } := fun _ _ => rfl
  have h2 : ∀ (q : proto.AckFrame) v, json.setAckField q ("ok", v)
      = (json.decodeBool v q.OK).map fun y => { q with OK := y } := fun _ _ => rfl
  simp only [h1, h2, json.decodeString, json.decodeBool, decodeBytes_valueOfBytes,
    decodeStrings_valueOfStrings, Except.map, bind, Except.bind, pure, Except.pure]

/-- The members written for a Error variant overwrite every field of the struct they are stored into. -/
theorem decode_error_into (x q0 : proto.ErrorFrame) :
    ((json.errorEntries x).map json.entryValue).foldlM json.setErrorField q0 = .ok x := by
  simp only [json.errorEntries, List.map_cons, List.map_nil, json.entryValue, List.foldlM_cons,
    List.foldlM_nil]
  have h1 : ∀ (q : proto.ErrorFrame) v, json.setErrorField q ("code", v)
      = (json.decodeString v q.Code).map fun y => { q with Code := y } := fun _ _ => rfl
  have h2 : ∀ (q : proto.ErrorFrame) v, json.setErrorField q ("message", v)
      = (json.decodeString v q.Message).map fun y => { q with Message := y } := fun _ _ => rfl
  simp only [h1, h2, json.decodeString, json.decodeBool, decodeBytes_valueOfBytes,
    decodeStrings_valueOfStrings, Except.map, bind, Except.bind, pure, Except.pure]

/-- The members written for a Discovery variant overwrite every field of the struct they are stored into. -/
theorem decode_discovery_into (x q0 : proto.DiscoveryFrame) :
    ((json.discoveryEntries x).map json.entryValue).foldlM json.setDiscoveryField q0 = .ok x := by
  simp only [json.discoveryEntries, List.map_cons, List.map_nil, json.entryValue, List.foldlM_cons,
    List.foldlM_nil]
  have h1 : ∀ (q : proto.DiscoveryFrame) v, json.setDiscoveryField q ("node_id", v)
      = (json.decodeString v q.NodeID).map fun y => { q with NodeID := y } := fun _ _ => rfl
  have h2 : ∀ (q : proto.DiscoveryFrame) v, json.setDiscoveryField q ("topics", v)
      = (json.decodeStrings v q.Topics).map fun y => { q with Topics := y } := fun _ _ => rfl
  have h3 : ∀ (q : proto.DiscoveryFrame) v, json.setDiscoveryField q ("public_key", v)
      = (json.decodeBytes v q.PublicKey).map fun y => { q with PublicKey := y } := fun _ _ => rfl
  have h4 : ∀ (q : proto.DiscoveryFrame) v, json.setDiscoveryField q ("addr", v)
      = (json.decodeString v q.Addr).map fun y => { q with Addr := y } := fun _ _ => rfl
  simp only [h1, h2, h3, h4, json.decodeString, json.decodeBool, decodeBytes_valueOfBytes,
    decodeStrings_valueOfStrings, Except.map, bind, Except.bind, pure, Except.pure]

/-- The members written for a frame `F`, stored into a frame `f0`: the Type and the
variants of `F`, and the variants of `f0` that `F` does not have. -/
theorem decode_frame_into (F f0 : proto.Frame) (h1 : - (2 : Int) ^ 63 ≤ F.Typ)
    (h2 : F.Typ < (2 : Int) ^ 63) :
    ((json.frameEntries F).map json.entryValue).foldlM json.setFrameField f0
      = .ok (F.over f0) := by
  have ht : json.setFrameField f0 ("t", json.valueOfInt F.Typ)
      = .ok (⟨F.Typ, f0.Publish, f0.Subscribe, f0.Unsubscribe, f0.Message, f0.Ack, f0.Error, f0.Discovery⟩ : proto.Frame) := by
    have h : ∀ (f : proto.Frame) v, json.setFrameField f ("t", v)
        = (json.decodeInt64 v f.Typ).map fun y => { f with Typ := y } := fun _ _ => rfl
    rw [h, decodeInt64_valueOfInt _ _ h1 h2]
    rfl
  have hpv : ((json.optEntry "p" json.encodePublish json.publishValue F.Publish).map
      json.entryValue).foldlM json.setFrameField (⟨F.Typ, f0.Publish, f0.Subscribe, f0.Unsubscribe, f0.Message, f0.Ack, f0.Error, f0.Discovery⟩ : proto.Frame)
      = .ok (⟨F.Typ, F.Publish.orElse fun _ => f0.Publish, f0.Subscribe, f0.Unsubscribe, f0.Message, f0.Ack, f0.Error, f0.Discovery⟩ : proto.Frame) :=
    foldlM_optEntry "p" json.encodePublish json.publishValue
      (fun f o => { f with Publish := o.orElse fun _ => f.Publish }) (⟨F.Typ, f0.Publish, f0.Subscribe, f0.Unsubscribe, f0.Message, f0.Ack, f0.Error, f0.Discovery⟩ : proto.Frame) F.Publish rfl
      (fun x => by
        have h : ∀ (f : proto.Frame) v, json.setFrameField f ("p", v)
            = (json.decodePointer ⟨"", none, "", none, none⟩ json.setPublishField v f.Publish).map
                fun y => { f with Publish := y } := fun _ _ => rfl
        rw [h]
        simp only [json.publishValue, json.decodePointer, decode_publish_into]
        rfl)
  have hsv : ((json.optEntry "s" json.encodeSubscribe json.subscribeValue F.Subscribe).map
      json.entryValue).foldlM json.setFrameField (⟨F.Typ, F.Publish.orElse fun _ => f0.Publish, f0.Subscribe, f0.Unsubscribe, f0.Message, f0.Ack, f0.Error, f0.Discovery⟩ : proto.Frame)
      = .ok (⟨F.Typ, F.Publish.orElse fun _ => f0.Publish, F.Subscribe.orElse fun _ => f0.Subscribe, f0.Unsubscribe, f0.Message, f0.Ack, f0.Error, f0.Discovery⟩ : proto.Frame) :=
    foldlM_optEntry "s" json.encodeSubscribe json.subscribeValue
      (fun f o => { f with Subscribe := o.orElse fun _ => f.Subscribe }) (⟨F.Typ, F.Publish.orElse fun _ => f0.Publish, f0.Subscribe, f0.Unsubscribe, f0.Message, f0.Ack, f0.Error, f0.Discovery⟩ : proto.Frame) F.Subscribe rfl
      (fun x => by
        have h : ∀ (f : proto.Frame) v, json.setFrameField f ("s", v)
            = (json.decodePointer ⟨"", "", none⟩ json.setSubscribeField v f.Subscribe).map
                fun y => { f with Subscribe := y } := fun _ _ => rfl
        rw [h]
        simp only [json.subscribeValue, json.decodePointer, decode_subscribe_into]
        rfl)
  have huv : ((json.optEntry "u" json.encodeUnsubscribe json.unsubscribeValue F.Unsubscribe).map
      json.entryValue).foldlM json.setFrameField (⟨F.Typ, F.Publish.orElse fun _ => f0.Publish, F.Subscribe.orElse fun _ => f0.Subscribe, f0.Unsubscribe, f0.Message, f0.Ack, f0.Error, f0.Discovery⟩ : proto.Frame)
      = .ok (⟨F.Typ, F.Publish.orElse fun _ => f0.Publish, F.Subscribe.orElse fun _ => f0.Subscribe, F.Unsubscribe.orElse fun _ => f0.Unsubscribe, f0.Message, f0.Ack, f0.Error, f0.Discovery⟩ : proto.Frame) :=
    foldlM_optEntry "u" json.encodeUnsubscribe json.unsubscribeValue
      (fun f o => { f with Unsubscribe := o.orElse fun _ => f.Unsubscribe }) (⟨F.Typ, F.Publish.orElse fun _ => f0.Publish, F.Subscribe.orElse fun _ => f0.Subscribe, f0.Unsubscribe, f0.Message, f0.Ack, f0.Error, f0.Discovery⟩ : proto.Frame) F.Unsubscribe rfl
      (fun x => by
        have h : ∀ (f : proto.Frame) v, json.setFrameField f ("u", v)
            = (json.decodePointer ⟨""⟩ json.setUnsubscribeField v f.Unsubscribe).map
                fun y => { f with Unsubscribe := y } := fun _ _ => rfl
        rw [h]
        simp only [json.unsubscribeValue, json.decodePointer, decode_unsubscribe_into]
        rfl)
  have hmv : ((json.optEntry "m" json.encodeMessage json.messageValue F.Message).map
      json.entryValue).foldlM json.setFrameField (⟨F.Typ, F.Publish.orElse fun _ => f0.Publish, F.Subscribe.orElse fun _ => f0.Subscribe, F.Unsubscribe.orElse fun _ => f0.Unsubscribe, f0.Message, f0.Ack, f0.Error, f0.Discovery⟩ : proto.Frame)
      = .ok (⟨F.Typ, F.Publish.orElse fun _ => f0.Publish, F.Subscribe.orElse fun _ => f0.Subscribe, F.Unsubscribe.orElse fun _ => f0.Unsubscribe, F.Message.orElse fun _ => f0.Message, f0.Ack, f0.Error, f0.Discovery⟩ : proto.Frame) :=
    foldlM_optEntry "m" json.encodeMessage json.messageValue
      (fun f o => { f with Message := o.orElse fun _ => f.Message }) (⟨F.Typ, F.Publish.orElse fun _ => f0.Publish, F.Subscribe.orElse fun _ => f0.Subscribe, F.Unsubscribe.orElse fun _ => f0.Unsubscribe, f0.Message, f0.Ack, f0.Error, f0.Discovery⟩ : proto.Frame) F.Message rfl
      (fun x => by
        have h : ∀ (f : proto.Frame) v, json.setFrameField f ("m", v)
            = (json.decodePointer ⟨"", none, none, none⟩ json.setMessageField v f.Message).map
                fun y => { f with Message := y } := fun _ _ => rfl
        rw [h]
        simp only [json.messageValue, json.decodePointer, decode_message_into]
        rfl)
  have hav : ((json.optEntry "a" json.encodeAck json.ackValue F.Ack).map
      json.entryValue).foldlM json.setFrameField (⟨F.Typ, F.Publish.orElse fun _ => f0.Publish, F.Subscribe.orElse fun _ => f0.Subscribe, F.Unsubscribe.orElse fun _ => f0.Unsubscribe, F.Message.orElse fun _ => f0.Message, f0.Ack, f0.Error, f0.Discovery⟩ : proto.Frame)
      = .ok (⟨F.Typ, F.Publish.orElse fun _ => f0.Publish, F.Subscribe.orElse fun _ => f0.Subscribe, F.Unsubscribe.orElse fun _ => f0.Unsubscribe, F.Message.orElse fun _ => f0.Message, F.Ack.orElse fun _ => f0.Ack, f0.Error, f0.Discovery⟩ : proto.Frame) :=
    foldlM_optEntry "a" json.encodeAck json.ackValue
      (fun f o => { f with Ack := o.orElse fun _ => f.Ack }) (⟨F.Typ, F.Publish.orElse fun _ => f0.Publish, F.Subscribe.orElse fun _ => f0.Subscribe, F.Unsubscribe.orElse fun _ => f0.Unsubscribe, F.Message.orElse fun _ => f0.Message, f0.Ack, f0.Error, f0.Discovery⟩ : proto.Frame) F.Ack rfl
      (fun x => by
        have h : ∀ (f : proto.Frame) v, json.setFrameField f ("a", v)
            = (json.decodePointer ⟨"", false⟩ json.setAckField v f.Ack).map
                fun y => { f with Ack := y } := fun _ _ => rfl
        rw [h]
        simp only [json.ackValue, json.decodePointer, decode_ack_into]
        rfl)
  have hev : ((json.optEntry "e" json.encodeError json.errorValue F.Error).map
      json.entryValue).foldlM json.setFrameField (⟨F.Typ, F.Publish.orElse fun _ => f0.Publish, F.Subscribe.orElse fun _ => f0.Subscribe, F.Unsubscribe.orElse fun _ => f0.Unsubscribe, F.Message.orElse fun _ => f0.Message, F.Ack.orElse fun _ => f0.Ack, f0.Error, f0.Discovery⟩ : proto.Frame)
      = .ok (⟨F.Typ, F.Publish.orElse fun _ => f0.Publish, F.Subscribe.orElse fun _ => f0.Subscribe, F.Unsubscribe.orElse fun _ => f0.Unsubscribe, F.Message.orElse fun _ => f0.Message, F.Ack.orElse fun _ => f0.Ack, F.Error.orElse fun _ => f0.Error, f0.Discovery⟩ : proto.Frame) :=
    foldlM_optEntry "e" json.encodeError json.errorValue
      (fun f o => { f with Error := o.orElse fun _ => f.Error }) (⟨F.Typ, F.Publish.orElse fun _ => f0.Publish, F.Subscribe.orElse fun _ => f0.Subscribe, F.Unsubscribe.orElse fun _ => f0.Unsubscribe, F.Message.orElse fun _ => f0.Message, F.Ack.orElse fun _ => f0.Ack, f0.Error, f0.Discovery⟩ : proto.Frame) F.Error rfl
      (fun x => by
        have h : ∀ (f : proto.Frame) v, json.setFrameField f ("e", v)
            = (json.decodePointer ⟨"", ""⟩ json.setErrorField v f.Error).map
                fun y => { f with Error := y } := fun _ _ => rfl
        rw [h]
        simp only [json.errorValue, json.decodePointer, decode_error_into]
        rfl)
  have hdv : ((json.optEntry "d" json.encodeDiscovery json.discoveryValue F.Discovery).map
      json.entryValue).foldlM json.setFrameField (⟨F.Typ, F.Publish.orElse fun _ => f0.Publish, F.Subscribe.orElse fun _ => f0.Subscribe, F.Unsubscribe.orElse fun _ => f0.Unsubscribe, F.Message.orElse fun _ => f0.Message, F.Ack.orElse fun _ => f0.Ack, F.Error.orElse fun _ => f0.Error, f0.Discovery⟩ : proto.Frame)
      = .ok (⟨F.Typ, F.Publish.orElse fun _ => f0.Publish, F.Subscribe.orElse fun _ => f0.Subscribe, F.Unsubscribe.orElse fun _ => f0.Unsubscribe, F.Message.orElse fun _ => f0.Message, F.Ack.orElse fun _ => f0.Ack, F.Error.orElse fun _ => f0.Error, F.Discovery.orElse fun _ => f0.Discovery⟩ : proto.Frame) :=
    foldlM_optEntry "d" json.encodeDiscovery json.discoveryValue
      (fun f o => { f with Discovery := o.orElse fun _ => f.Discovery }) (⟨F.Typ, F.Publish.orElse fun _ => f0.Publish, F.Subscribe.orElse fun _ => f0.Subscribe, F.Unsubscribe.orElse fun _ => f0.Unsubscribe, F.Message.orElse fun _ => f0.Message, F.Ack.orElse fun _ => f0.Ack, F.Error.orElse fun _ => f0.Error, f0.Discovery⟩ : proto.Frame) F.Discovery rfl
      (fun x => by
        have h : ∀ (f : proto.Frame) v, json.setFrameField f ("d", v)
            = (json.decodePointer ⟨"", none, none, ""⟩ json.setDiscoveryField v f.Discovery).map
                fun y => { f with Discovery := y } := fun _ _ => rfl
        rw [h]
        simp only [json.discoveryValue, json.decodePointer, decode_discovery_into]
        rfl)
  simp only [json.frameEntries, List.map_append, List.foldlM_append, List.map_cons,
    List.map_nil, List.foldlM_cons, List.foldlM_nil, json.entryValue, ht, hpv, hsv, huv, hmv, hav, hev, hdv,
    bind, Except.bind, pure, Except.pure]
  rfl

/-- The reference JSON model stores the serialisation of `F` over the old contents of the destination. -/
theorem goJSON_unmarshal_into (F f0 : proto.Frame) (h1 : - (2 : Int) ^ 63 ≤ F.Typ)
    (h2 : F.Typ < (2 : Int) ^ 63) :
    goJSON.UnmarshalFrame (json.encodeFrame F) f0 = .ok (F.over f0) := by
  simp only [goJSON, json.unmarshalStruct, parse_encodeFrame, decode_frame_into F f0 h1 h2]

/-! ## C19: the variants of a decoded frame -/

theorem dispatch_active (send : transport.Conn → proto.Frame → Option GoError)
    (r : mesh.RelayServer) (c : transport.Conn) (f : proto.Frame) :
    mesh.RelayServer.dispatch send r c f.active = mesh.RelayServer.dispatch send r c f := by
  by_cases hp : f.Typ = proto.FrameTypePublish
  · have ha : f.active = { proto.Frame.zero with Typ := f.Typ, Publish := f.Publish } := by
      simp only [proto.Frame.active, hp, if_true]
    have h1 : ¬ (proto.FrameTypePublish = proto.FrameTypeSubscribe) := by decide
    have h2 : ¬ (proto.FrameTypePublish = proto.FrameTypeUnsubscribe) := by decide
    rw [ha]
    simp only [mesh.RelayServer.dispatch, hp, h1, h2, if_true, if_false]
  · by_cases hs : f.Typ = proto.FrameTypeSubscribe
    · have ha : f.active = { proto.Frame.zero with Typ := f.Typ, Subscribe := f.Subscribe } := by
        simp only [proto.Frame.active, hp, hs, if_true, if_false]
        rfl
      rw [ha]
      simp only [mesh.RelayServer.dispatch, hs, if_true]
    · by_cases hu : f.Typ = proto.FrameTypeUnsubscribe
      · have ha : f.active
            = { proto.Frame.zero with Typ := f.Typ, Unsubscribe := f.Unsubscribe } := by
          have h1 : ¬ (proto.FrameTypeUnsubscribe = proto.FrameTypePublish) := by decide
          have h2 : ¬ (proto.FrameTypeUnsubscribe = proto.FrameTypeSubscribe) := by decide
          simp only [proto.Frame.active, hu, h1, h2, if_true, if_false]
        have h2 : ¬ (proto.FrameTypeUnsubscribe = proto.FrameTypeSubscribe) := by decide
        rw [ha]
        simp only [mesh.RelayServer.dispatch, hu, h2, if_true, if_false]
      · have hT : f.active.Typ = f.Typ := by
          unfold proto.Frame.active
          split_ifs <;> rfl
        have e1 : mesh.RelayServer.dispatch send r c f = (r, []) := by
          simp only [mesh.RelayServer.dispatch, hp, hs, hu, if_false]
        have e2 : mesh.RelayServer.dispatch send r c f.active = (r, []) := by
          simp only [mesh.RelayServer.dispatch, hT, hp, hs, hu, if_false]
        rw [e1, e2]

theorem active_variants_length (f : proto.Frame) : f.active.variants.length ≤ 1 := by
  unfold proto.Frame.active
  split_ifs <;> simp only [proto.Frame.variants, proto.Frame.zero, Option.isSome_none,
    Bool.false_eq_true, if_false, List.append_nil, List.nil_append] <;> (try split) <;> simp

theorem dispatch_of_no_variant (send : transport.Conn → proto.Frame → Option GoError)
    (r : mesh.RelayServer) (c : transport.Conn) (f : proto.Frame)
    (hp : f.Typ = proto.FrameTypePublish → f.Publish = none)
    (hs : f.Typ = proto.FrameTypeSubscribe → f.Subscribe = none)
    (hu : f.Typ = proto.FrameTypeUnsubscribe → f.Unsubscribe = none) :
    mesh.RelayServer.dispatch send r c f = (r, []) := by
  have e1 : ¬ (proto.FrameTypeUnsubscribe = proto.FrameTypeSubscribe) := by decide
  have e2 : ¬ (proto.FrameTypePublish = proto.FrameTypeSubscribe) := by decide
  have e3 : ¬ (proto.FrameTypePublish = proto.FrameTypeUnsubscribe) := by decide
  unfold mesh.RelayServer.dispatch
  by_cases h2 : f.Typ = proto.FrameTypeSubscribe
  · simp only [h2, if_true, hs h2]
  · by_cases h3 : f.Typ = proto.FrameTypeUnsubscribe
    · simp only [h3, e1, if_true, if_false, hu h3]
    · by_cases h1 : f.Typ = proto.FrameTypePublish
      · simp only [h1, e2, e3, if_true, if_false, hp h1]
      · simp only [h2, h3, h1, if_false]

/-- C19, as amended. `Decode` checks no relation between the Type of
a frame and its variants.  The relay handler applies one instead: of a decoded
frame it uses the Type and the one variant that corresponds to the Type,
and nothing else, so that it does the same with the frame as with the frame
cut down to that variant, which has at most one variant; and when the
variant that corresponds to the Type is absent (or the Type is none of
Publish, Subscribe, Unsubscribe) it changes nothing and sends nothing. -/
theorem dispatch_uses_matching_variant (send : transport.Conn → proto.Frame → Option GoError)
    (r : mesh.RelayServer) (c : transport.Conn) (f : proto.Frame) :
    mesh.RelayServer.dispatch send r c f.active = mesh.RelayServer.dispatch send r c f
    ∧ f.active.variants.length ≤ 1
    ∧ f.active.Typ = f.Typ
    ∧ ((f.Typ = 1 → f.Publish = none) → (f.Typ = 2 → f.Subscribe = none) →
        (f.Typ = 3 → f.Unsubscribe = none) →
        mesh.RelayServer.dispatch send r c f = (r, [])) := by
  refine ⟨dispatch_active send r c f, active_variants_length f, ?_,
    dispatch_of_no_variant send r c f⟩
  unfold proto.Frame.active
  split_ifs <;> rfl

set_option maxRecDepth 100000 in
/-- C19, counterexample. The body `{"t":1}` decodes into a zero frame
without error and gives a frame of Type Publish with no variant at all; a
body of Type Publish with the members `s` and `u` gives a frame with two
variants, neither of them the one of its Type; and the empty object gives
the zero frame. -/
theorem decode_without_variant :
    proto.Frame.Decode goJSON proto.Frame.zero (framed (json.utf8 "\x7b\"t\":1\x7d"))
      = (.ok { Typ := 1, Publish := none, Subscribe := none, Unsubscribe := none,
               Message := none, Ack := none, Error := none, Discovery := none }, [])
    ∧ proto.Frame.Decode goJSON proto.Frame.zero
        (framed (json.utf8
          "\x7b\"t\":1,\"s\":\x7b\"topic\":\"x\"\x7d,\"u\":\x7b\"topic\":\"y\"\x7d\x7d"))
      = (.ok { Typ := 1, Publish := none,
               Subscribe := some { Topic := "x", SchemaID := "", PublicKey := none },
               Unsubscribe := some { Topic := "y" },
               Message := none, Ack := none, Error := none, Discovery := none }, [])
    ∧ proto.Frame.Decode goJSON proto.Frame.zero (framed (json.utf8 "\x7b\x7d"))
      = (.ok proto.Frame.zero, []) := by
  decide

/-! ## C20: decoding into a frame that holds an earlier frame -/

/-- A successful `Decode` has consumed at least the four bytes of the prefix. -/
theorem Decode_ok_length (json : JSONLib) (f f1 : proto.Frame) (r r1 : io.Reader)
    (h : proto.Frame.Decode json f r = (.ok f1, r1)) : r1.length + 4 ≤ r.length := by
  unfold proto.Frame.Decode at h
  by_cases h4 : 4 ≤ r.length
  · rw [ReadFull_of_le r 4 h4] at h
    simp only at h
    split at h
    · cases h
    · by_cases hb : binary.BigEndian.Uint32 (List.take 4 r) ≤ (List.drop 4 r).length
      · rw [ReadFull_of_le _ _ hb] at h
        simp only [Prod.mk.injEq] at h
        rw [← h.2]
        simp only [List.length_drop]
        omega
      · have hr : io.ReadFull (List.drop 4 r) (binary.BigEndian.Uint32 (List.take 4 r))
            = (.error (if List.drop 4 r = [] then .EOF else .ErrUnexpectedEOF), []) := by
          unfold io.ReadFull
          rw [if_neg hb]
          cases List.drop 4 r <;> simp
        rw [hr] at h
        cases h
  · have hr : io.ReadFull r 4 = (.error (if r = [] then .EOF else .ErrUnexpectedEOF), []) := by
      unfold io.ReadFull
      rw [if_neg h4]
      cases r <;> simp
    rw [hr] at h
    cases h

/-- The frames of a receive loop do not depend on the bound, once it exceeds
the length of the stream: the loop ends by itself. -/
theorem recvFrames_fuel (json : JSONLib) (fuel1 fuel2 : Nat) (f : proto.Frame) (stream : io.Reader)
    (h1 : stream.length < fuel1) (h2 : stream.length < fuel2) :
    mesh.recvFrames json fuel1 f stream = mesh.recvFrames json fuel2 f stream := by
  induction fuel1 generalizing fuel2 f stream with
  | zero => omega
  | succ k ih =>
    cases fuel2 with
    | zero => omega
    | succ k2 =>
      simp only [mesh.recvFrames]
      cases hd : proto.Frame.Decode json f stream with
      | mk res rest =>
        cases res with
        | error err => rfl
        | ok f1 =>
          have hlen := Decode_ok_length json f f1 stream rest hd
          simp only
          rw [ih k2 f1 rest (by omega) (by omega)]

theorem Decode_framed_into (F f0 : proto.Frame) (room : Option Nat) (w : io.Writer)
    (h1 : - (2 : Int) ^ 63 ≤ F.Typ) (h2 : F.Typ < (2 : Int) ^ 63)
    (hsize : (json.encodeFrame F).length ≤ 1024 * 1024)
    (hencode : proto.Frame.Encode goJSON F ⟨[], room⟩ = (w, none)) :
    proto.Frame.Decode goJSON f0 w.out = (.ok (F.over f0), []) := by
  have hout := Encode_ok_out goJSON F (json.encodeFrame F) _ w rfl hencode
  simp only [List.nil_append] at hout
  have hdec := Decode_framed goJSON f0 (json.encodeFrame F) [] hsize
  rw [List.append_nil] at hdec
  rw [hout, hdec, goJSON_unmarshal_into F f0 h1 h2]
  rfl

/-- What `Decode` makes of a destination that is not zero: it stores the body
into it the way `json.Unmarshal` does, over its previous contents.  For every
frame `F` of Unicode texts (its Type a 64-bit `int`, its JSON body at most
1 MiB) and every destination
`f0`, `Decode` into `f0` over the bytes that `Encode(F)` wrote gives the Type
of `F`, every variant that `F` has, as `F` has it, and for every variant that
`F` does not have the variant that `f0` held before.  Into a zero frame, and
only when the destination holds no variant that `F` lacks, the result is `F`. -/
theorem decode_merges_into_destination (F f0 : proto.Frame) (room : Option Nat) (w : io.Writer)
    (htype : - (2 : Int) ^ 63 ≤ F.Typ ∧ F.Typ < (2 : Int) ^ 63)
    (hsize : (json.encodeFrame F).length ≤ 1024 * 1024)
    (hencode : proto.Frame.Encode goJSON F ⟨[], room⟩ = (w, none)) :
    proto.Frame.Decode goJSON f0 w.out
      = (.ok { Typ := F.Typ
               Publish := F.Publish.orElse fun _ => f0.Publish
               Subscribe := F.Subscribe.orElse fun _ => f0.Subscribe
               Unsubscribe := F.Unsubscribe.orElse fun _ => f0.Unsubscribe
               Message := F.Message.orElse fun _ => f0.Message
               Ack := F.Ack.orElse fun _ => f0.Ack
               Error := F.Error.orElse fun _ => f0.Error
               Discovery := F.Discovery.orElse fun _ => f0.Discovery }, [])
    ∧ proto.Frame.Decode goJSON proto.Frame.zero w.out = (.ok F, []) := by
  refine ⟨Decode_framed_into F f0 room w htype.1 htype.2 hsize hencode, ?_⟩
  rw [Decode_framed_into F proto.Frame.zero room w htype.1 htype.2 hsize hencode]
  obtain ⟨T, P, S, U, M, A, E, D⟩ := F
  cases P <;> cases S <;> cases U <;> cases M <;> cases A <;> cases E <;> cases D <;> rfl

set_option maxRecDepth 100000 in
/-- The Unsubscribe frame for `t/1`, decoded into a frame that holds a Subscribe. -/
theorem decode_merges_into_destination_witness :
    proto.Frame.Decode goJSON (sampleSubscribe "sensor.Humidity" [3])
        (proto.Frame.Encode goJSON sampleUnsubscribe ⟨[], none⟩).1.out
      = (.ok { Typ := 3, Publish := none,
               Subscribe := some
                 { Topic := "t/1", SchemaID := "sensor.Humidity", PublicKey := some [3] },
               Unsubscribe := some { Topic := "t/1" },
               Message := none, Ack := none, Error := none, Discovery := none }, []) :=
  (decode_merges_into_destination sampleUnsubscribe (sampleSubscribe "sensor.Humidity" [3]) none _
    (by decide) (by decide) rfl).1

set_option maxRecDepth 100000 in
/-- C20, failing input. The body `{"t":2}` decoded into a frame that holds
a Subscribe gives that Subscribe frame again, and decoded into a zero frame
gives a frame without variant; and a relay connection on which the peer
subscribes to `t/1`, unsubscribes, and then sends `{"t":2}` has the subscribe
run a second time: the frame variable holds the old Subscribe under the
Subscribe type, the relay answers with a second Ack, and before the
connection ends the peer is a subscriber of `t/1` again. -/
theorem decode_keeps_old_variant :
    proto.Frame.Decode goJSON (sampleSubscribe "sensor.Humidity" [3])
        (framed (json.utf8 "\x7b\"t\":2\x7d"))
      = (.ok (sampleSubscribe "sensor.Humidity" [3]), [])
    ∧ proto.Frame.Decode goJSON proto.Frame.zero (framed (json.utf8 "\x7b\"t\":2\x7d"))
      = (.ok { Typ := 2, Publish := none, Subscribe := none, Unsubscribe := none,
               Message := none, Ack := none, Error := none, Discovery := none }, [])
    ∧ mesh.recvFrames goJSON (sampleStaleStream.length + 1) proto.Frame.zero sampleStaleStream
      = [sampleSubscribe "sensor.Humidity" [3],
          { sampleSubscribe "sensor.Humidity" [3] with
            Typ := 3, Unsubscribe := some { Topic := "t/1" } },
          { sampleSubscribe "sensor.Humidity" [3] with
            Typ := 2, Unsubscribe := some { Topic := "t/1" } }]
    ∧ (mesh.RelayServer.handleStream goJSON (fun _ _ => none) ⟨[]⟩ ⟨1, some "10.0.0.1:5000"⟩
        sampleStaleStream).2
      = [.sent ⟨1, some "10.0.0.1:5000"⟩ mesh.ackFrame,
          .sent ⟨1, some "10.0.0.1:5000"⟩ mesh.ackFrame,
          .closed ⟨1, some "10.0.0.1:5000"⟩]
    ∧ ((mesh.recvFrames goJSON (sampleStaleStream.length + 1) proto.Frame.zero
          sampleStaleStream).foldl
        (fun r f => (mesh.RelayServer.dispatch (fun _ _ => none) r ⟨1, some "10.0.0.1:5000"⟩ f).1)
        ⟨[]⟩).subs
      = [("t/1", [("10.0.0.1:5000",
          { schemaID := "sensor.Humidity", publicKey := some [3],
            send := some ⟨1, some "10.0.0.1:5000"⟩ })])] := by
  decide

set_option maxRecDepth 100000 in
/-- The receive loop of the sample node on a relay connection that carries
the sample message and then a body of the Message type without variant: the
frame variable still holds the message, and the callback gets it twice. -/
theorem relayRecvLoop_redelivers :
    sampleNode.relayRecvLoop sampleEnv ⟨1, none⟩
        (mesh.recvFrames goJSON 200 proto.Frame.zero
          (framed (json.encodeFrame
              { proto.Frame.zero with Typ := 4, Message := some sampleMessage })
            ++ framed (json.utf8 "\x7b\"t\":4\x7d")))
      = [.recv ⟨1, none⟩ { proto.Frame.zero with Typ := 4, Message := some sampleMessage },
          .deliver "t/1" [104, 105],
          .recv ⟨1, none⟩ { proto.Frame.zero with Typ := 4, Message := some sampleMessage },
          .deliver "t/1" [104, 105],
          .close ⟨1, none⟩, .closeRelayDone] := by
  decide

/-! ## C21: `Encode` and the size limit of `Decode` -/

/-- The base64 text of `3 * k` zero bytes is `4 * k` letters `A`. -/
theorem b64Encode_replicate_zero (k : Nat) :
    json.b64Encode (List.replicate (3 * k) (0 : Byte)) = List.replicate (4 * k) (0x41 : Byte) := by
  induction k with
  | zero => rfl
  | succ k ih =>
    have h3 : 3 * (k + 1) = (3 * k) + 1 + 1 + 1 := by ring
    have h4 : 4 * (k + 1) = (4 * k) + 1 + 1 + 1 + 1 := by ring
    rw [h3, h4]
    simp only [List.replicate_succ, json.b64Encode, ih]
    rfl

set_option maxRecDepth 100000 in
/-- The JSON body of `largePublishFrame k`: 34 bytes, the `4 * k` letters, 67 bytes. -/
theorem encodeFrame_largePublishFrame (k : Nat) :
    json.encodeFrame (largePublishFrame k) =
      json.utf8 "\x7b\"t\":1,\"p\":\x7b\"topic\":\"\",\"payload\":\""
        ++ (List.replicate (4 * k) (0x41 : Byte)
        ++ json.utf8 "\",\"schema_id\":\"\",\"recipient_key_id\":null,\"sender_public_key\":null\x7d\x7d") := by
  simp only [json.encodeFrame, largePublishFrame, proto.Frame.zero, json.omitempty, json.object,
    json.member, json.encodePublish, json.encodeBytes, b64Encode_replicate_zero, List.append_nil,
    List.intercalate, List.intersperse, List.flatten, List.append_assoc, List.singleton_append,
    List.cons_append, List.nil_append]
  rfl

theorem encodeFrame_largePublishFrame_length (k : Nat) :
    (json.encodeFrame (largePublishFrame k)).length = 4 * k + 101 := by
  rw [encodeFrame_largePublishFrame]
  simp only [List.length_append, List.length_replicate]
  have h1 : (json.utf8 "\x7b\"t\":1,\"p\":\x7b\"topic\":\"\",\"payload\":\"").length = 34 := by
    decide
  have h2 : (json.utf8
      "\",\"schema_id\":\"\",\"recipient_key_id\":null,\"sender_public_key\":null\x7d\x7d").length
      = 67 := by decide
  rw [h1, h2]
  omega

/-- `Decode` over a prefix written by `PutUint32` and any bytes after it. -/
theorem Decode_PutUint32 (json : JSONLib) (f : proto.Frame) (v : Nat) (rest : List Byte) :
    proto.Frame.Decode json f (binary.BigEndian.PutUint32 v ++ rest) =
      if v % 2 ^ 32 > 1024 * 1024 then (.error .ErrShortBuffer, rest)
      else
        match io.ReadFull rest (v % 2 ^ 32) with
        | (.error err, r2) => (.error err, r2)
        | (.ok data, r2) => ((json.UnmarshalFrame data f).mapError GoError.json, r2) := by
  have h := Decode_header json f (byte (v >>> 24)) (byte (v >>> 16)) (byte (v >>> 8)) (byte v) rest
  have hu : binary.BigEndian.Uint32 [byte (v >>> 24), byte (v >>> 16), byte (v >>> 8), byte v]
      = v % 2 ^ 32 := Uint32_PutUint32 v
  rw [hu] at h
  exact h

/-- What `Decode` makes of the bytes of a successful `Encode`, by the length of the body. -/
theorem Decode_Encode_by_length (json : JSONLib) (F f0 : proto.Frame) (J : List Byte)
    (room : Option Nat) (w : io.Writer)
    (hmarshal : json.MarshalFrame F = .ok J)
    (hencode : proto.Frame.Encode json F ⟨[], room⟩ = (w, none)) :
    proto.Frame.Decode json f0 w.out =
      if J.length % 2 ^ 32 > 1024 * 1024 then (.error .ErrShortBuffer, J)
      else ((json.UnmarshalFrame (J.take (J.length % 2 ^ 32)) f0).mapError GoError.json,
        J.drop (J.length % 2 ^ 32)) := by
  have hout := Encode_ok_out json F J _ w hmarshal hencode
  simp only [List.nil_append] at hout
  have hmod : uint32 J.length % 2 ^ 32 = J.length % 2 ^ 32 := by
    rw [uint32]
    omega
  rw [hout, Decode_PutUint32, hmod, ReadFull_of_le J _ (Nat.mod_le _ _)]

/-- C21, as amended. `Encode` enforces no size limit: for every frame `F`
whose JSON serialisation `J` succeeds, `Encode` succeeds on every writer that
never fails, whatever the length of `J`; and whenever `Encode` succeeds it
has written the four-byte big-endian encoding of `len(J) mod 2^32` and then
`J`.  The receiver's `Decode` over these bytes hands exactly `J` to the JSON
decoder when `len(J)` is at most 1 MiB, and returns the too-large error
`io.ErrShortBuffer` exactly when `len(J) mod 2^32` exceeds 1 MiB: so a frame
with a body of more than 1 MiB (and less than 4 GiB) is encoded without error
and rejected by the receiver, the body left unread. -/
theorem encode_has_no_size_limit (json : JSONLib) (F f0 : proto.Frame) (J : List Byte)
    (room : Option Nat) (w : io.Writer)
    (hmarshal : json.MarshalFrame F = .ok J)
    (hencode : proto.Frame.Encode json F ⟨[], room⟩ = (w, none)) :
    w.out = binary.BigEndian.PutUint32 (uint32 J.length) ++ J
    ∧ binary.BigEndian.Uint32 (binary.BigEndian.PutUint32 (uint32 J.length)) = J.length % 2 ^ 32
    ∧ (∀ out, proto.Frame.Encode json F ⟨out, none⟩
        = (⟨out ++ binary.BigEndian.PutUint32 (uint32 J.length) ++ J, none⟩, none))
    ∧ (J.length ≤ 1048576 →
        proto.Frame.Decode json f0 w.out = ((json.UnmarshalFrame J f0).mapError GoError.json, []))
    ∧ ((proto.Frame.Decode json f0 w.out).1 = .error .ErrShortBuffer
        ↔ 1048576 < J.length % 2 ^ 32)
    ∧ (1048576 < J.length → J.length < 2 ^ 32 →
        proto.Frame.Decode json f0 w.out = (.error .ErrShortBuffer, J)) := by
  have hout := Encode_ok_out json F J _ w hmarshal hencode
  simp only [List.nil_append] at hout
  have hdec := Decode_Encode_by_length json F f0 J room w hmarshal hencode
  refine ⟨hout, ?_, ?_, ?_, ?_, ?_⟩
  · rw [Uint32_PutUint32, uint32]
    omega
  · intro out
    rw [Encode_of_room json F J ⟨out, none⟩ hmarshal (by simp)]
    rfl
  · intro hle
    have hmod : J.length % 2 ^ 32 = J.length := Nat.mod_eq_of_lt (by omega)
    rw [hdec, hmod, if_neg (by omega), List.take_length, List.drop_length]
  · rw [hdec]
    by_cases hbig : J.length % 2 ^ 32 > 1024 * 1024
    · rw [if_pos hbig]
      exact ⟨fun _ => hbig, fun _ => rfl⟩
    · rw [if_neg hbig]
      constructor
      · intro h
        exact absurd h (mapError_json_ne_ErrShortBuffer _)
      · intro h
        exact absurd h hbig
  · intro hgt hlt
    have hmod : J.length % 2 ^ 32 = J.length := Nat.mod_eq_of_lt hlt
    rw [hdec, hmod, if_pos (by omega)]

set_option maxRecDepth 100000 in
/-- The sample frame, of 142 bytes, is within the limit and is read back. -/
theorem encode_has_no_size_limit_witness :
    proto.Frame.Decode goJSON proto.Frame.zero
        (proto.Frame.Encode goJSON sampleFrame ⟨[], none⟩).1.out
      = ((goJSON.UnmarshalFrame (json.encodeFrame sampleFrame) proto.Frame.zero).mapError
          GoError.json, []) :=
  (encode_has_no_size_limit goJSON sampleFrame proto.Frame.zero (json.encodeFrame sampleFrame)
    none _ rfl rfl).2.2.2.1 (by decide)

/-- C21, counterexample. A Publish frame with a payload of 768 KiB, which
base64 expands to 1 MiB: its JSON body has 1048677 bytes, `Encode` succeeds
and writes the prefix `00 10 00 65` and the body, and `Decode` over these
bytes returns the too-large error after the prefix. -/
theorem encode_accepts_oversize :
    goJSON.MarshalFrame (largePublishFrame 262144)
        = .ok (json.encodeFrame (largePublishFrame 262144))
    ∧ (json.encodeFrame (largePublishFrame 262144)).length = 1048677
    ∧ 1048576 < (json.encodeFrame (largePublishFrame 262144)).length
    ∧ proto.Frame.Encode goJSON (largePublishFrame 262144) ⟨[], none⟩ =
        (⟨[0, 16, 0, 101] ++ json.encodeFrame (largePublishFrame 262144), none⟩, none)
    ∧ binary.BigEndian.Uint32 [0, 16, 0, 101] = 1048677
    ∧ proto.Frame.Decode goJSON proto.Frame.zero
          ([0, 16, 0, 101] ++ json.encodeFrame (largePublishFrame 262144))
        = (.error .ErrShortBuffer, json.encodeFrame (largePublishFrame 262144)) := by
  have hlen := encodeFrame_largePublishFrame_length 262144
  have henc : proto.Frame.Encode goJSON (largePublishFrame 262144) ⟨[], none⟩ =
      (⟨[0, 16, 0, 101] ++ json.encodeFrame (largePublishFrame 262144), none⟩, none) := by
    rw [Encode_of_room goJSON _ _ _ rfl (by simp), hlen]
    rfl
  refine ⟨rfl, hlen, by rw [hlen]; decide, henc, by decide, ?_⟩
  have h := Decode_header goJSON proto.Frame.zero 0 16 0 101
    (json.encodeFrame (largePublishFrame 262144))
  rw [if_pos (by decide)] at h
  exact h

/-! ## C1 on Go strings that are not text -/

theorem Char_ofNat_toNat (c : Char) : Char.ofNat c.toNat = c := by
  exact Char.ofNat_toNat c

theorem utf8EncodeChar_ascii (c : Char) (h : c.toNat < 0x80) :
    json.utf8EncodeChar c = [byte c.toNat] := by
  unfold json.utf8EncodeChar
  simp only [h, if_true]

theorem utf8EncodeChar_length_ge_two (c : Char) (h : 0x80 ≤ c.toNat) :
    2 ≤ (json.utf8EncodeChar c).length := by
  unfold json.utf8EncodeChar
  simp only []
  rw [if_neg (by omega)]
  split_ifs <;> simp

/-- On the UTF-8 bytes of a text the writer for Go strings writes what the writer for text writes. -/
theorem appendStringBody_utf8 (cs : List Char) (fuel : Nat)
    (h : (cs.flatMap json.utf8EncodeChar).length ≤ fuel) :
    json.appendStringBody fuel (cs.flatMap json.utf8EncodeChar) = cs.flatMap json.escapeChar := by
  induction cs generalizing fuel with
  | nil => cases fuel <;> rfl
  | cons c cs ih =>
    rw [List.flatMap_cons, List.flatMap_cons]
    rw [List.flatMap_cons, List.length_append] at h
    by_cases hc : c.toNat < 0x80
    · rw [utf8EncodeChar_ascii c hc] at h ⊢
      rw [List.singleton_append]
      simp only [List.length_singleton] at h
      obtain ⟨k, rfl⟩ : ∃ k, fuel = k + 1 := ⟨fuel - 1, by omega⟩
      have hb : (byte c.toNat).val = c.toNat := by rw [byte_val]; omega
      simp only [List.singleton_append, json.appendStringBody, hb, hc, if_true, Char_ofNat_toNat]
      rw [ih k (by omega)]
    · have hge : 0x80 ≤ c.toNat := by omega
      obtain ⟨b, rest, hbr, hb⟩ := utf8EncodeChar_head c hge
      have hlen := utf8EncodeChar_length_ge_two c hge
      have hdec := decodeRune_utf8EncodeChar c hge (cs.flatMap json.utf8EncodeChar)
      rw [hbr] at h hlen hdec ⊢
      simp only [List.length_cons] at h hlen
      obtain ⟨k, rfl⟩ : ∃ k, fuel = k + 1 := ⟨fuel - 1, by omega⟩
      rw [List.cons_append] at hdec ⊢
      have hnb : ¬ b.val < 0x80 := by omega
      simp only [json.appendStringBody, hnb, if_false, hdec, List.length_append]
      rw [if_neg (by
        intro hcon
        have := hcon.2
        omega)]
      rw [ih k (by omega)]

theorem appendString_utf8 (s : String) : json.appendString (json.utf8 s) = json.encodeString s := by
  unfold json.appendString json.encodeString json.utf8
  rw [appendStringBody_utf8 s.data _ (Nat.le_refl _)]

theorem appendStrings_utf8 (x : Option (List String)) :
    json.appendStrings (x.map fun l => l.map json.utf8) = json.encodeStrings x := by
  cases x with
  | none => rfl
  | some l =>
    simp only [Option.map_some', json.appendStrings, json.encodeStrings, List.map_map]
    congr 3
    apply List.map_congr_left
    intro s _
    exact appendString_utf8 s

/-- `Marshal` on the Go value of a frame of texts is the reference writer on the frame. -/
theorem Marshal_ofText (F : proto.Frame) :
    proto.bytes.Marshal (proto.bytes.Frame.ofText F) = json.encodeFrame F := by
  obtain ⟨T, P, S, U, M, A, E, D⟩ := F
  cases P <;> cases S <;> cases U <;> cases M <;> cases A <;> cases E <;> cases D <;>
    simp only [proto.bytes.Marshal, proto.bytes.Frame.ofText, json.encodeFrame, json.omitempty,
      Option.map_some', Option.map_none', proto.bytes.encodePublish, proto.bytes.encodeSubscribe,
      proto.bytes.encodeUnsubscribe, proto.bytes.encodeMessage, proto.bytes.encodeAck,
      proto.bytes.encodeError, proto.bytes.encodeDiscovery, json.encodePublish,
      json.encodeSubscribe, json.encodeUnsubscribe, json.encodeMessage, json.encodeAck,
      json.encodeError, json.encodeDiscovery, appendString_utf8, appendStrings_utf8]

theorem Encode_ofText (F : proto.Frame) (w : io.Writer) :
    (proto.bytes.Frame.ofText F).Encode w = proto.Frame.Encode goJSON F w := by
  unfold proto.bytes.Frame.Encode
  rw [Marshal_ofText]
  exact rfl

/-- C1, as amended. Frame round trip for valid UTF-8: for every Go frame
`G` all of whose strings are valid UTF-8, that is, `G` is the Go value of a
frame `F` of Unicode texts (its `Type` a 64-bit `int`, any variants populated,
byte fields and the topics list nil or not), whose JSON body is at most
1 MiB: `Decode` applied to a zero frame over exactly the bytes that a
successful `Encode(G)` wrote succeeds, leaves nothing unread, and yields the
frame `F`, whose Go value is `G` again, field for field.  The JSON library is
the reference model of `encoding/json`. -/
theorem frame_round_trip_valid_utf8 (G : proto.bytes.Frame) (F : proto.Frame)
    (room : Option Nat) (w : io.Writer)
    (hvalid : G = proto.bytes.Frame.ofText F)
    (htype : - (2 : Int) ^ 63 ≤ G.Typ ∧ G.Typ < (2 : Int) ^ 63)
    (hsize : (proto.bytes.Marshal G).length ≤ 1024 * 1024)
    (hencode : G.Encode ⟨[], room⟩ = (w, none)) :
    proto.Frame.Decode goJSON proto.Frame.zero w.out = (.ok F, [])
    ∧ proto.bytes.Frame.ofText F = G := by
  subst hvalid
  rw [Marshal_ofText] at hsize
  rw [Encode_ofText] at hencode
  exact ⟨Decode_Encode_of_round_trip goJSON F (json.encodeFrame F) room w rfl hsize
    (goJSON_round_trip F htype.1 htype.2) hencode, rfl⟩

set_option maxRecDepth 100000 in
/-- The sample frame, whose strings are ASCII. -/
theorem frame_round_trip_valid_utf8_witness :
    proto.Frame.Decode goJSON proto.Frame.zero
        ((proto.bytes.Frame.ofText sampleFrame).Encode ⟨[], none⟩).1.out = (.ok sampleFrame, []) :=
  (frame_round_trip_valid_utf8 (proto.bytes.Frame.ofText sampleFrame) sampleFrame none _ rfl
    (by decide) (by decide) rfl).1

set_option maxRecDepth 100000 in
/-- C1, counterexample. The Unsubscribe frame whose topic is the byte `0xff`
has its Type set, its variant populated and a body of 30 bytes.  `Encode`
writes the topic as the escape of U+FFFD, `Decode` into a zero frame over
these bytes succeeds, and the topic of the frame it yields is the character
U+FFFD, whose bytes `ef bf bd` are not the topic that was encoded. -/
theorem round_trip_invalid_utf8 :
    sampleInvalidTopic.Encode ⟨[], none⟩
      = (⟨[0, 0, 0, 30] ++ json.utf8 "\x7b\"t\":3,\"u\":\x7b\"topic\":\"\\ufffd\"\x7d\x7d", none⟩,
          none)
    ∧ proto.Frame.Decode goJSON proto.Frame.zero (sampleInvalidTopic.Encode ⟨[], none⟩).1.out
      = (.ok { Typ := 3, Publish := none, Subscribe := none,
               Unsubscribe := some { Topic := String.mk [Char.ofNat 0xFFFD] },
               Message := none, Ack := none, Error := none, Discovery := none }, [])
    ∧ proto.bytes.Frame.ofText
        { Typ := 3, Publish := none, Subscribe := none,
          Unsubscribe := some { Topic := String.mk [Char.ofNat 0xFFFD] },
          Message := none, Ack := none, Error := none, Discovery := none }
      = { Typ := 3, Publish := none, Subscribe := none,
          Unsubscribe := some { Topic := [0xEF, 0xBF, 0xBD] },
          Message := none, Ack := none, Error := none, Discovery := none }
    ∧ proto.bytes.Frame.ofText
        { Typ := 3, Publish := none, Subscribe := none,
          Unsubscribe := some { Topic := String.mk [Char.ofNat 0xFFFD] },
          Message := none, Ack := none, Error := none, Discovery := none }
      ≠ sampleInvalidTopic := by
  decide

/-! ## C16: the callback after `Close` -/

set_option maxRecDepth 100000 in
/-- C16, failing input. A client subscribes twice and is closed.  Each
Subscribe starts a receive loop, on the sessions 1 and 2; the second
overwrites the connection and the channel that the node keeps, so `Close`
closes the session 2, waits for its loop alone, and closes the message
channel, the session 1 being neither closed nor waited for.  A message that
then arrives on the session 1 is opened by its loop and handed to the
callback, whose send meets the closed channel: it panics, and the message is
neither appended nor dropped. -/
theorem onMessage_panics_after_close :
    (sampleClient.Subscribe sampleEnv "t/1" "sensor.Temperature").2.2.getLast?
      = some (.goRelayRecvLoop ⟨1, none⟩)
    ∧ ((sampleClient.Subscribe sampleEnv "t/1" "sensor.Temperature").1.Subscribe
        sampleEnvSecondDial "t/2" "sensor.Temperature").2.2.getLast?
      = some (.goRelayRecvLoop ⟨2, none⟩)
    ∧ sampleClientTwoLoops.Close.2
      = (none, [.close ⟨2, none⟩, .waitRelayDone, .closeListener, .closeMsgs])
    ∧ sampleClientTwoLoops.Close.1.msgs = ⟨[], 2, true⟩
    ∧ sampleClientTwoLoops.Close.1.node.relayRecvLoop sampleEnv ⟨1, none⟩
        [{ proto.Frame.zero with Typ := 4, Message := some sampleMessage }]
      = [.recv ⟨1, none⟩ { proto.Frame.zero with Typ := 4, Message := some sampleMessage },
          .deliver "t/1" [104, 105], .close ⟨1, none⟩, .closeRelayDone]
    ∧ client.OnMessage sampleClientTwoLoops.Close.1.msgs "t/1" [104, 105] = none := by
  decide

/-- The array form of a byte slice: a literal with a sign is refused, also
`-0`; `null` leaves the old element; elements beyond the array are cut off. -/
theorem decodeBytes_examples :
    json.decodeBytes (.arr [.num true 0 0 true]) none = .error (json.typeError "uint8")
    ∧ json.decodeBytes (.arr [.null, .num false 5 0 true]) (some [7, 8, 9]) = .ok (some [7, 5])
    ∧ json.decodeBytes (.arr [.null]) none = .ok (some [0])
    ∧ json.decodeBytes (.arr []) (some [7]) = .ok (some []) := by
  decide

end Qumbed
